import Mathlib

/-!
# Memory-Lane RAG engine: tokenizer, ranking, identity, memory and session services, storage backends

A shallow embedding of

* `rag-engine/internal/index/tokenizer.go` (`stopWords`, `Tokenize`, `TokenOverlap`),
* `rag-engine/internal/retrieval/memory.go` (`MemoryService.Store`, `MemoryService.Search`),
* `rag-engine/internal/retrieval/identity.go` (`IdentityService.Get`, `IdentityService.Set`),
* `rag-engine/internal/session/session.go` (`Processor.simpleExtract`, `Processor.Process`),
* `rag-engine/internal/storage/storage.go` (the interface `Storage`),
* `rag-engine/internal/storage/mongo.go` and `rag-engine/internal/storage/dynamo.go`
  (the two backends),
* the record types of `rag-engine/internal/models/models.go` they use,

followed by the properties proved about them.

Modelling conventions.

* A Go `string` is a Lean `String`, i.e. a sequence of Unicode scalar values: the text is
  valid UTF-8.  (`strings.ToLower` replaces every invalid byte of a text by U+FFFD before the
  tokenizer splits it, so an invalid text is tokenized as the valid text with these
  replacements.)  `len(s)` is the number of bytes of the UTF-8 encoding
  (`String.utf8ByteSize`), which is what Go's builtin `len` returns.
* The Unicode tables of Go's `unicode` package (`IsLetter`, `IsDigit`, `ToLower`) are a
  parameter `u : Unicode`; general theorems hold for every table.  `goLatin1` is a concrete
  table that agrees with Go on U+0000..U+00FF and is used for the worked examples.
* A Go `map[string]bool` is a function `String → Bool` (an absent key reads `false`).
* `float64` values are modelled by the rational numbers they denote (no NaN, no infinities,
  no rounding).
* `sort.Slice` is a parameter of `Search`, constrained by the contract of Go's `sort` package;
  `pdqsort_func` follows the algorithm of Go 1.19 and later where ties are concerned.
* A Go `error` is an `Option String` (`none` for `nil`), a result `(T, error)` an
  `Except String T`.  A Go `int` is 64 bits wide; `wrapInt` gives the value of an overflowing
  sum.  The reading of `time.Now()` is an argument `now`, in nanoseconds.
* A storage operation takes the state of the store and returns its result together with the
  new state.  The failures of the database drivers are an argument `env : Faults`.
-/

namespace MemoryLane

/-! ## Go runtime and standard library -/

/-- Go's builtin `len` on a string: the number of bytes of its UTF-8 encoding. -/
def len (s : String) : Nat := s.utf8ByteSize

/-- The three functions of Go's `unicode` package used by the tokenizer. -/
structure Unicode where
  /-- Go `unicode.IsLetter` (category L). -/
  IsLetter : Char → Bool
  /-- Go `unicode.IsDigit` (category Nd). -/
  IsDigit : Char → Bool
  /-- Go `unicode.ToLower`. -/
  ToLower : Char → Char

/-- The tables of Go's `unicode` package on the Latin-1 range U+0000..U+00FF: letters are
`A-Z a-z ª µ º À-Ö Ø-ö ø-ÿ`, decimal digits are `0-9`, and `ToLower` adds 32 to
`A-Z`, `À-Ö` and `Ø-Þ`.  Code points above U+00FF are treated as neither letter nor digit and
are left unchanged by `ToLower`; the examples below only contain Latin-1 text. -/
def goLatin1 : Unicode where
  IsLetter := fun c =>
    let n := c.toNat
    (0x41 ≤ n && n ≤ 0x5A) || (0x61 ≤ n && n ≤ 0x7A) || n == 0xAA || n == 0xB5 || n == 0xBA ||
      (0xC0 ≤ n && n ≤ 0xD6) || (0xD8 ≤ n && n ≤ 0xF6) || (0xF8 ≤ n && n ≤ 0xFF)
  IsDigit := fun c => 0x30 ≤ c.toNat && c.toNat ≤ 0x39
  ToLower := fun c =>
    let n := c.toNat
    if (0x41 ≤ n && n ≤ 0x5A) || (0xC0 ≤ n && n ≤ 0xD6) || (0xD8 ≤ n && n ≤ 0xDE) then
      Char.ofNat (n + 32)
    else c

/-- Go `strings.ToLower`: every rune is mapped through `unicode.ToLower`. -/
def ToLower (u : Unicode) (s : String) : String := String.mk (s.data.map u.ToLower)

/-- The scanning loop of Go `strings.FieldsFunc`.  The second argument is the field being
scanned (`none` when the scan is between fields, Go's `start < 0`); a field is closed and
emitted when a rune satisfying `f` is met, or at the end of the string. -/
def FieldsFunc.scan (f : Char → Bool) : List Char → Option (List Char) → List String
  | [], none => []
  | [], some cur => [String.mk cur]
  | r :: rest, none =>
    if f r then FieldsFunc.scan f rest none else FieldsFunc.scan f rest (some [r])
  | r :: rest, some cur =>
    if f r then String.mk cur :: FieldsFunc.scan f rest none
    else FieldsFunc.scan f rest (some (cur ++ [r]))

/-- Go `strings.FieldsFunc(s, f)`: the maximal substrings of `s` containing no rune that
satisfies `f`, in order; empty substrings are not produced. -/
def FieldsFunc (s : String) (f : Char → Bool) : List String := FieldsFunc.scan f s.data none

/-! ## `internal/index/tokenizer.go` -/

/-- The keys of the `stopWords` map literal (every key maps to `true`). -/
def stopWordKeys : List String :=
  ["a", "an", "the", "and", "or",
   "but", "in", "on", "at", "to",
   "for", "of", "with", "by", "from",
   "is", "it", "as", "was", "are",
   "be", "been", "being", "have", "has",
   "had", "do", "does", "did", "will",
   "would", "could", "should", "may", "might",
   "shall", "can", "that", "this", "these",
   "those", "i", "me", "my", "we",
   "our", "you", "your", "he", "she",
   "his", "her", "they", "them", "their",
   "what", "which", "who", "whom", "when",
   "where", "why", "how", "not", "no",
   "so", "if", "then", "than", "too",
   "very", "just", "about", "up", "out",
   "all", "also", "into", "over", "after"]

/-- The map `stopWords`, read as `stopWords[w]`. -/
def stopWords (w : String) : Bool := decide (w ∈ stopWordKeys)

/-- The `for _, w := range words` loop of `Tokenize`, with its two local variables `seen`
and `tokens` as explicit state. -/
def Tokenize.loop : List String → (String → Bool) → List String → List String
  | [], _, tokens => tokens
  | w :: rest, seen, tokens =>
    if len w < 2 then Tokenize.loop rest seen tokens
    else if stopWords w then Tokenize.loop rest seen tokens
    else if seen w then Tokenize.loop rest seen tokens
    else Tokenize.loop rest (fun k => if k = w then true else seen k) (tokens ++ [w])

/-- Go `Tokenize`. -/
def Tokenize (u : Unicode) (text : String) : List String :=
  let words := FieldsFunc (ToLower u text) (fun r => !u.IsLetter r && !u.IsDigit r)
  Tokenize.loop words (fun _ => false) []

/-- The two tests that the loop of `Tokenize` applies to a word before it consults `seen`: the
word goes on when `len(w) < 2` is false and `stopWords[w]` is false. -/
def Tokenize.keeps (w : String) : Bool := decide (2 ≤ len w) && decide (w ∉ stopWordKeys)

/-- Go `TokenOverlap` (`matchCount` is the local variable `matches`); the result is the exact
quotient. -/
def TokenOverlap (queryTokens chunkTokens : List String) : ℚ :=
  if queryTokens.length = 0 then 0
  else
    let chunkSet : String → Bool :=
      chunkTokens.foldl (fun m t => fun k => if k = t then true else m k) (fun _ => false)
    let matchCount : Nat :=
      queryTokens.foldl (fun n qt => if chunkSet qt then n + 1 else n) 0
    (matchCount : ℚ) / (queryTokens.length : ℚ)

/-! ## `internal/models/models.go` -/

/-- Go `models.MemoryChunk`; `CreatedAt` is the instant in nanoseconds since the epoch. -/
structure MemoryChunk where
  UserID : String
  ChunkID : String
  Content : String
  Tokens : List String
  Importance : ℚ
  Source : String
  SessionID : String
  CreatedAt : Int
  deriving DecidableEq

/-- Go `models.ScoredChunk`. -/
structure ScoredChunk where
  Chunk : MemoryChunk
  Score : ℚ
  deriving DecidableEq

/-! ## `internal/retrieval/memory.go` -/

/-- The comparison closure handed to `sort.Slice` in `Search`:
`scored[i].Score > scored[j].Score`. -/
def Search.less (a b : ScoredChunk) : Bool := decide (a.Score > b.Score)

/-- The scoring loop body of `Search`: `score := overlap*0.7 + c.Importance*0.3`. -/
def Search.score (queryTokens : List String) (c : MemoryChunk) : ScoredChunk :=
  let overlap := TokenOverlap queryTokens c.Tokens
  let score := overlap * (7 / 10) + c.Importance * (3 / 10)
  { Chunk := c, Score := score }

/-- Go `MemoryService.Search`.  The two collaborators are parameters: `sortSlice` stands for
`sort.Slice` and `SearchMemoryByTokens` for the method of the storage backend `s.store`.
A `nil` slice is the empty list; a Go `error` is its message. -/
def Search (u : Unicode)
    (sortSlice : List ScoredChunk → (ScoredChunk → ScoredChunk → Bool) → List ScoredChunk)
    (SearchMemoryByTokens : String → List String → Except String (List MemoryChunk))
    (userID query : String) (topK : Int) : Except String (List ScoredChunk) :=
  if userID = "" ∨ query = "" then .error "user_id and query are required"
  else
    let topK : Int := if topK ≤ 0 then 3 else topK
    let queryTokens := Tokenize u query
    if queryTokens.length = 0 then .ok []
    else
      match SearchMemoryByTokens userID queryTokens with
      | .error err => .error err
      | .ok chunks =>
        if chunks.length = 0 then .ok []
        else
          let scored := chunks.map (Search.score queryTokens)
          let scored := sortSlice scored Search.less
          let scored := if (scored.length : Int) > topK then scored.take topK.toNat else scored
          .ok scored

/-- The contract of Go `sort.Slice` for the comparison of `Search`: the sorted slice is a
rearrangement of the given one, and no element is `less` than an element placed before it.
Nothing is promised about the relative order of elements that compare equal. -/
def SortSliceContract
    (sortSlice : List ScoredChunk → (ScoredChunk → ScoredChunk → Bool) → List ScoredChunk) :
    Prop :=
  ∀ data : List ScoredChunk,
    (sortSlice data Search.less).Perm data ∧
    (sortSlice data Search.less).Pairwise (fun a b => Search.less b a = false)

/-- The inner loop of Go's insertion sort,
`for j := i; j > a && less(j, j-1); j-- { swap(j, j-1) }`: the element `x` at position `i`
moves left past every element it is `less` than.  The sorted part to the left of `x` is held
nearest element first. -/
def insertionSort.sink {α : Type} (less : α → α → Bool) (x : α) : List α → List α
  | [] => [x]
  | y :: ys => if less x y then y :: insertionSort.sink less x ys else x :: y :: ys

/-- Go's insertion sort (`insertionSortLessFunc` of package `sort`), the algorithm that
`sort.Slice` runs on short slices (at most 12 elements since Go 1.19). -/
def insertionSort {α : Type} (data : List α) (less : α → α → Bool) : List α :=
  (data.foldl (fun sortedPart x => insertionSort.sink less x sortedPart) []).reverse

/-! ## Example data -/

/-- A chunk holding all three tokens of `exampleQuery`: score `0.7 + (2/3)*0.3 = 0.9`. -/
def chunkA : MemoryChunk :=
  { UserID := "u1", ChunkID := "u1-1", Content := "hiking weekends mountains",
    Tokens := ["hiking", "weekends", "mountains"], Importance := 2 / 3,
    Source := "conversation", SessionID := "", CreatedAt := 1 }

/-- A chunk holding one of the three tokens: score `(1/3)*0.7 + (2/9)*0.3 = 0.3`. -/
def chunkB : MemoryChunk :=
  { UserID := "u1", ChunkID := "u1-2", Content := "mountains",
    Tokens := ["mountains"], Importance := 2 / 9,
    Source := "conversation", SessionID := "", CreatedAt := 2 }

/-- A chunk holding two of the three tokens: score `(2/3)*0.7 + (4/9)*0.3 = 0.6`. -/
def chunkC : MemoryChunk :=
  { UserID := "u1", ChunkID := "u1-3", Content := "hiking weekends",
    Tokens := ["hiking", "weekends"], Importance := 4 / 9,
    Source := "conversation", SessionID := "", CreatedAt := 3 }

/-- A chunk with importance 0.2 holding one of the two tokens `a`, `b`. -/
def chunkD : MemoryChunk :=
  { UserID := "u1", ChunkID := "u1-4", Content := "a",
    Tokens := ["a"], Importance := 1 / 5,
    Source := "manual", SessionID := "", CreatedAt := 4 }

/-- A query with the three tokens `hiking`, `weekends`, `mountains`. -/
def exampleQuery : String := "Hiking on weekends in the mountains"

/-- A backend whose candidate fetch returns `chunkA`, `chunkB`, `chunkC` in this order. -/
def exampleFetch (_userID : String) (_tokens : List String) :
    Except String (List MemoryChunk) :=
  .ok [chunkA, chunkB, chunkC]

/-! ## Reference pipeline of the tokenizer, following the specification's wording -/

/-- The maximal runs of characters satisfying `isWordChar`: the text is cut at every other
character and the empty pieces are discarded. -/
def maximalRuns (isWordChar : Char → Bool) (cs : List Char) : List (List Char) :=
  (cs.splitOnP (fun c => !isWordChar c)).filter (fun run => !run.isEmpty)

/-- Keep only the first occurrence of every element, in order of first occurrence. -/
def keepFirstOccurrences : List String → List String
  | [] => []
  | w :: rest => w :: (keepFirstOccurrences rest).filter (fun v => decide (v ≠ w))

/-- The words of a text: the maximal runs of letters and digits of the lowercased text. -/
def referenceWords (u : Unicode) (text : String) : List String :=
  (maximalRuns (fun c => u.IsLetter c || u.IsDigit c) (text.data.map u.ToLower)).map String.mk

/-- A word survives the filter when it is not shorter than 2 characters and is not a stop
word. -/
def keepWord (w : String) : Bool := decide (2 ≤ w.length) && decide (w ∉ stopWordKeys)

/-- The reference pipeline: lowercase, split into maximal runs of letters and digits, drop the
runs shorter than 2 and the stop words, keep the first occurrence of every remaining word. -/
def tokenizeReference (u : Unicode) (text : String) : List String :=
  keepFirstOccurrences ((referenceWords u text).filter keepWord)

/-! ## More of `internal/models/models.go` -/

/-- Go `models.IdentityFact`; the payload `Value any` is kept as an opaque string and
`UpdatedAt` is the instant in nanoseconds since the epoch. -/
structure IdentityFact where
  UserID : String
  Key : String
  Value : String
  Version : Int
  Immutable : Bool
  UpdatedAt : Int
  deriving DecidableEq

/-- Go `models.TokenEntry`. -/
structure TokenEntry where
  Token : String
  UserID : String
  ChunkID : String
  Timestamp : Int
  deriving DecidableEq

/-! ## More of the Go runtime -/

/-- Go `int` arithmetic (64 bits, two's complement): the value of an exact result after
wrap-around. -/
def wrapInt (x : Int) : Int := (x + 2 ^ 63) % 2 ^ 64 - 2 ^ 63

/-- The decimal digits of a natural number, most significant first (`0` is `"0"`). -/
def decimalDigits (n : Nat) : List Char :=
  if n = 0 then ['0'] else ((Nat.digits 10 n).reverse.map Nat.digitChar)

/-- The verb `%d` of Go `fmt`: the decimal rendering of an integer, with a leading `-` for a
negative one. -/
def formatInt (n : Int) : String :=
  String.mk (if n < 0 then '-' :: decimalDigits n.natAbs else decimalDigits n.natAbs)

/-! ## `internal/storage/storage.go` -/

/-- Go interface `storage.Storage`, restricted to the identity, memory and token-index
operations.  `σ` is the state of the backing store; every operation returns its result
together with the state it leaves behind, and a Go `error` result is `Option String`
(`none` is `nil`). -/
structure Storage (σ : Type) where
  GetIdentity : σ → String → String → Except String (Option IdentityFact) × σ
  SetIdentity : σ → IdentityFact → Option String × σ
  StoreMemory : σ → MemoryChunk → Option String × σ
  SearchMemoryByTokens : σ → String → List String → Except String (List MemoryChunk) × σ
  IndexTokens : σ → List TokenEntry → Option String × σ
  LookupTokens : σ → String → List String → Except String (List String) × σ

/-! ## `internal/retrieval/identity.go` -/

/-- Go `IdentityService.Get`. -/
def IdentityService.Get {σ : Type} (store : Storage σ) (s : σ) (userID key : String) :
    Except String (Option IdentityFact) × σ :=
  if userID = "" ∨ key = "" then (.error "user_id and key are required", s)
  else store.GetIdentity s userID key

/-- Go `IdentityService.Set`.  The version written into `fact` is the one handed to
`SetIdentity`; the result is the returned `error`. -/
def IdentityService.Set {σ : Type} (store : Storage σ) (s : σ) (fact : IdentityFact) :
    Option String × σ :=
  if fact.UserID = "" ∨ fact.Key = "" then (some "user_id and key are required", s)
  else
    match store.GetIdentity s fact.UserID fact.Key with
    | (.error err, s1) => (some err, s1)
    | (.ok existing, s1) =>
      match existing with
      | some e =>
        if e.Immutable then
          (some ("identity key " ++ fact.Key.quote ++ " is immutable and cannot be updated"), s1)
        else store.SetIdentity s1 { fact with Version := wrapInt (e.Version + 1) }
      | none => store.SetIdentity s1 { fact with Version := 1 }

/-! ## `MemoryService.Store` of `internal/retrieval/memory.go` -/

/-- The chunk identifier `fmt.Sprintf("%s-%d", userID, now.UnixNano())`. -/
def Store.chunkID (userID : String) (now : Int) : String := userID ++ "-" ++ formatInt now

/-- The chunk that `Store` builds and hands to `StoreMemory`. -/
def Store.chunk (u : Unicode) (now : Int) (userID content source sessionID : String)
    (importance : ℚ) : MemoryChunk :=
  { UserID := userID, ChunkID := Store.chunkID userID now, Content := content,
    Tokens := Tokenize u content, Importance := importance, Source := source,
    SessionID := sessionID, CreatedAt := now }

/-- The token index entries that `Store` builds and hands to `IndexTokens`. -/
def Store.entries (u : Unicode) (now : Int) (userID content : String) : List TokenEntry :=
  (Tokenize u content).map (fun t =>
    { Token := t, UserID := userID, ChunkID := Store.chunkID userID now, Timestamp := now })

/-- Go `MemoryService.Store`; `now` is the reading of `time.Now()`. -/
def Store {σ : Type} (u : Unicode) (store : Storage σ) (s : σ) (now : Int)
    (userID content source sessionID : String) (importance : ℚ) : Except String String × σ :=
  if userID = "" ∨ content = "" then (.error "user_id and content are required", s)
  else
    let chunk := Store.chunk u now userID content source sessionID importance
    match store.StoreMemory s chunk with
    | (some err, s1) => (.error err, s1)
    | (none, s1) =>
      let entries := Store.entries u now userID content
      match store.IndexTokens s1 entries with
      | (some err, s2) => (.error ("index tokens: " ++ err), s2)
      | (none, s2) => (.ok chunk.ChunkID, s2)

/-! ## The storage backends

The database drivers are outside the repository; the two backends are modelled on the documented
behaviour of the driver calls they make.  A driver call can fail for reasons outside the
program (network, throttling): `Faults` says, for one service call, which driver calls fail.
A failed driver call leaves the store as it was. -/

/-- The driver failures met during one service call: for each storage operation the error its
driver call returns, if any.  For `IndexTokens` the failure comes with the number of entries
written before it. -/
structure Faults where
  GetIdentity : Option String
  SetIdentity : Option String
  StoreMemory : Option String
  SearchMemoryByTokens : Option String
  IndexTokens : Option (Nat × String)
  LookupTokens : Option String

/-- No driver call fails. -/
def noFaults : Faults :=
  { GetIdentity := none, SetIdentity := none, StoreMemory := none,
    SearchMemoryByTokens := none, IndexTokens := none, LookupTokens := none }

/-! ### `internal/storage/mongo.go` -/

/-- The collections `identity_core`, `memory_chunks` and `token_index` of the MongoDB
database, each as the list of its documents in insertion order. -/
structure MongoState where
  identity_core : List IdentityFact
  memory_chunks : List MemoryChunk
  token_index : List TokenEntry

/-- A BSON datetime keeps milliseconds: the instant a `time.Time` has after a round trip
through the MongoDB driver. -/
def bsonDateTime (nanos : Int) : Int := nanos / 1000000 * 1000000

/-- Go `MongoStorage.GetIdentity`: `FindOne` on `user_id` and `key`. -/
def MongoStorage.GetIdentity (env : Faults) (s : MongoState) (userID key : String) :
    Except String (Option IdentityFact) × MongoState :=
  match env.GetIdentity with
  | some err => (.error ("get identity: " ++ err), s)
  | none => (.ok (s.identity_core.find? (fun d => d.UserID = userID ∧ d.Key = key)), s)

/-- The update of `UpdateOne(filter, $set fact)` with upsert: the first document matching the
filter takes the fields of `fact`; when none matches, a new document is inserted. -/
def MongoStorage.upsert (fact : IdentityFact) : List IdentityFact → List IdentityFact
  | [] => [fact]
  | d :: rest =>
    if d.UserID = fact.UserID ∧ d.Key = fact.Key then fact :: rest
    else d :: MongoStorage.upsert fact rest

/-- Go `MongoStorage.SetIdentity`. -/
def MongoStorage.SetIdentity (env : Faults) (s : MongoState) (fact : IdentityFact) :
    Option String × MongoState :=
  match env.SetIdentity with
  | some err => (some ("set identity: " ++ err), s)
  | none =>
    (none, { s with identity_core :=
      (MongoStorage.upsert { fact with UpdatedAt := bsonDateTime fact.UpdatedAt }
        s.identity_core) })

/-- Go `MongoStorage.StoreMemory`: `InsertOne`, which the unique index on
`(user_id, chunk_id)` created by `ensureIndexes` rejects for a duplicate key. -/
def MongoStorage.StoreMemory (env : Faults) (s : MongoState) (chunk : MemoryChunk) :
    Option String × MongoState :=
  match env.StoreMemory with
  | some err => (some ("store memory: " ++ err), s)
  | none =>
    if s.memory_chunks.any (fun d => d.UserID = chunk.UserID ∧ d.ChunkID = chunk.ChunkID) then
      (some "store memory: E11000 duplicate key error", s)
    else
      (none, { s with memory_chunks :=
        (s.memory_chunks ++ [{ chunk with CreatedAt := bsonDateTime chunk.CreatedAt }]) })

/-- Go `MongoStorage.SearchMemoryByTokens`: `Find` with the filter
`user_id = userID, tokens $in tokens`, and `replica_id = replicaID` when a replica is given.
No document of `memory_chunks` has a field `replica_id`, so the filter with a replica matches
nothing. -/
def MongoStorage.SearchMemoryByTokens (env : Faults) (s : MongoState)
    (userID replicaID : String) (tokens : List String) :
    Except String (List MemoryChunk) × MongoState :=
  if tokens.length = 0 then (.ok [], s)
  else
    match env.SearchMemoryByTokens with
    | some err => (.error ("search memory: " ++ err), s)
    | none =>
      (.ok (s.memory_chunks.filter (fun d =>
        decide (d.UserID = userID) && d.Tokens.any (fun t => decide (t ∈ tokens)) &&
          decide (replicaID = ""))), s)

/-- Go `MongoStorage.IndexTokens`: `InsertMany`; a failing call leaves the documents inserted
before the failure. -/
def MongoStorage.IndexTokens (env : Faults) (s : MongoState) (entries : List TokenEntry) :
    Option String × MongoState :=
  if entries.length = 0 then (none, s)
  else
    match env.IndexTokens with
    | some (written, err) =>
      (some ("index tokens: " ++ err),
        { s with token_index := (s.token_index ++
          (entries.take written).map
            (fun e => { e with Timestamp := bsonDateTime e.Timestamp })) })
    | none =>
      (none, { s with token_index := (s.token_index ++
        entries.map (fun e => { e with Timestamp := bsonDateTime e.Timestamp })) })

/-- Go `MongoStorage.LookupTokens`: the distinct chunk IDs of the index documents matching
`user_id = userID, token $in tokens` (Go yields them in the unspecified iteration order of a
map; here in the order kept by `List.dedup`). -/
def MongoStorage.LookupTokens (env : Faults) (s : MongoState)
    (userID replicaID : String) (tokens : List String) :
    Except String (List String) × MongoState :=
  if tokens.length = 0 then (.ok [], s)
  else
    match env.LookupTokens with
    | some err => (.error ("lookup tokens: " ++ err), s)
    | none =>
      (.ok ((s.token_index.filter (fun e =>
        decide (e.UserID = userID) && decide (e.Token ∈ tokens) &&
          decide (replicaID = ""))).map (fun e => e.ChunkID)).dedup, s)

/-- The MongoDB backend behind the interface `Storage`, for a caller that passes `replicaID` to
the two methods of `MongoStorage` that take a replica ID (`SearchMemoryByTokens` and
`LookupTokens`); the interface has no such parameter. -/
def mongoStorageAt (env : Faults) (replicaID : String) : Storage MongoState :=
  { GetIdentity := MongoStorage.GetIdentity env,
    SetIdentity := MongoStorage.SetIdentity env,
    StoreMemory := MongoStorage.StoreMemory env,
    SearchMemoryByTokens := fun s userID tokens =>
      MongoStorage.SearchMemoryByTokens env s userID replicaID tokens,
    IndexTokens := MongoStorage.IndexTokens env,
    LookupTokens := fun s userID tokens =>
      MongoStorage.LookupTokens env s userID replicaID tokens }

/-- The MongoDB backend behind the interface `Storage`.  The interface has no replica
parameter; its calls reach the two replica-aware methods with the empty replica ID. -/
def mongoStorage (env : Faults) : Storage MongoState :=
  { GetIdentity := MongoStorage.GetIdentity env,
    SetIdentity := MongoStorage.SetIdentity env,
    StoreMemory := MongoStorage.StoreMemory env,
    SearchMemoryByTokens := fun s userID tokens =>
      MongoStorage.SearchMemoryByTokens env s userID "" tokens,
    IndexTokens := MongoStorage.IndexTokens env,
    LookupTokens := fun s userID tokens => MongoStorage.LookupTokens env s userID "" tokens }

/-- The empty MongoDB database. -/
def MongoState.empty : MongoState :=
  { identity_core := [], memory_chunks := [], token_index := [] }

/-! ### `internal/storage/dynamo.go` -/

/-- The tables `IdentityCore`, `MemoryChunks` and `TokenIndex` of DynamoDB, each as the list of
its items.  The primary key `(pk, sk)` of an item is determined by the item:
`("user#" + UserID, "identity#" + Key)` for a fact,
`("user#" + UserID, "memory#" + CreatedAt)` for a chunk and
`("token#" + Token, "memory#" + Timestamp)` for a token entry, the timestamps in the format
`RFC3339Nano`, which is one-to-one on instants; a key is represented by the pair of values
that it encodes.  The other attributes of an item are those that `attributevalue.MarshalMap`
writes, see `DynamoStorage.tokenItem`.  The order in which a query lists items is the order of
this list. -/
structure DynamoState where
  IdentityCore : List IdentityFact
  MemoryChunks : List MemoryChunk
  TokenIndex : List TokenEntry

/-- DynamoDB `PutItem` without a condition: the item replaces the item with the same primary
key, if there is one. -/
def DynamoStorage.putItem {α κ : Type} [DecidableEq κ] (key : α → κ) (item : α)
    (table : List α) : List α :=
  table.filter (fun old => decide (key old ≠ key item)) ++ [item]

/-- Go `DynamoStorage.GetIdentity`: `GetItem` by primary key. -/
def DynamoStorage.GetIdentity (env : Faults) (s : DynamoState) (userID key : String) :
    Except String (Option IdentityFact) × DynamoState :=
  match env.GetIdentity with
  | some err => (.error ("dynamo get identity: " ++ err), s)
  | none =>
    match s.IdentityCore.find? (fun d => d.UserID = userID ∧ d.Key = key) with
    | none => (.ok none, s)
    | some fact => (.ok (some { fact with UserID := userID, Key := key }), s)

/-- Go `DynamoStorage.SetIdentity`: `PutItem`. -/
def DynamoStorage.SetIdentity (env : Faults) (s : DynamoState) (fact : IdentityFact) :
    Option String × DynamoState :=
  match env.SetIdentity with
  | some err => (some ("dynamo set identity: " ++ err), s)
  | none =>
    (none, { s with IdentityCore :=
      (DynamoStorage.putItem (fun d : IdentityFact => (d.UserID, d.Key)) fact
        s.IdentityCore) })

/-- Go `DynamoStorage.StoreMemory`: `PutItem` under the key made of the user and the creation
time of the chunk. -/
def DynamoStorage.StoreMemory (env : Faults) (s : DynamoState) (chunk : MemoryChunk) :
    Option String × DynamoState :=
  match env.StoreMemory with
  | some err => (some ("dynamo store memory: " ++ err), s)
  | none =>
    (none, { s with MemoryChunks :=
      (DynamoStorage.putItem (fun d : MemoryChunk => (d.UserID, d.CreatedAt)) chunk
        s.MemoryChunks) })

/-- The loop of Go `DynamoStorage.IndexTokens`: one `PutItem` per entry; the number in
`failure` counts the calls that succeed before the failing one. -/
def DynamoStorage.IndexTokens.loop (failure : Option (Nat × String)) :
    List TokenEntry → List TokenEntry → Option String × List TokenEntry
  | [], table => (none, table)
  | e :: rest, table =>
    match failure with
    | some (0, err) => (some ("dynamo index token: " ++ err), table)
    | some (n + 1, err) =>
      DynamoStorage.IndexTokens.loop (some (n, err)) rest
        (DynamoStorage.putItem (fun d : TokenEntry => (d.Token, d.Timestamp)) e table)
    | none =>
      DynamoStorage.IndexTokens.loop none rest
        (DynamoStorage.putItem (fun d : TokenEntry => (d.Token, d.Timestamp)) e table)

/-- Go `DynamoStorage.IndexTokens`. -/
def DynamoStorage.IndexTokens (env : Faults) (s : DynamoState) (entries : List TokenEntry) :
    Option String × DynamoState :=
  let r := DynamoStorage.IndexTokens.loop env.IndexTokens entries s.TokenIndex
  (r.1, { s with TokenIndex := r.2 })

/-- A string attribute of a DynamoDB item: a plain string, or the string made of a prefix and
the `RFC3339Nano` rendering of an instant. -/
inductive AttributeValue where
  | S (value : String)
  | time (pre : String) (nanos : Int)
  deriving DecidableEq

/-- The attributes of the item that `IndexTokens` writes for an entry, by name.
`attributevalue.MarshalMap` (AWS SDK for Go v2) names an attribute by the `dynamodbav` tag of
the field and, where there is none, by the name of the Go field; the fields of
`models.TokenEntry` carry `json` and `bson` tags only, so the entry is written as the
attributes `Token`, `UserID`, `ChunkID` and `Timestamp`, to which `IndexTokens` adds `pk` and
`sk`.  The item has no other attribute. -/
def DynamoStorage.tokenItem (e : TokenEntry) (name : String) : Option AttributeValue :=
  if name = "Token" then some (.S e.Token)
  else if name = "UserID" then some (.S e.UserID)
  else if name = "ChunkID" then some (.S e.ChunkID)
  else if name = "Timestamp" then some (.time "" e.Timestamp)
  else if name = "pk" then some (.S ("token#" ++ e.Token))
  else if name = "sk" then some (.time "memory#" e.Timestamp)
  else none

/-- Go `DynamoStorage.LookupTokens`: for each token a `Query` with the key condition
`pk = "token#" + t` and the filter expression `user_id = :uid`, which an item passes when it
has the attribute `user_id` with the value `userID`; the chunk IDs found are collected in a
set (Go yields them in the unspecified iteration order of a map; here in the order kept by
`List.dedup`). -/
def DynamoStorage.LookupTokens (env : Faults) (s : DynamoState) (userID : String)
    (tokens : List String) : Except String (List String) × DynamoState :=
  match tokens, env.LookupTokens with
  | [], _ => (.ok [], s)
  | t :: _, some err => (.error ("dynamo lookup token " ++ t.quote ++ ": " ++ err), s)
  | _ :: _, none =>
    (.ok ((tokens.flatMap (fun t =>
      (s.TokenIndex.filter (fun e =>
        decide (DynamoStorage.tokenItem e "pk" = some (.S ("token#" ++ t))) &&
          decide (DynamoStorage.tokenItem e "user_id" = some (.S userID)))).map
        (fun e => e.ChunkID))).dedup), s)

/-- Go `DynamoStorage.SearchMemoryByTokens`. -/
def DynamoStorage.SearchMemoryByTokens (env : Faults) (s : DynamoState) (userID : String)
    (tokens : List String) : Except String (List MemoryChunk) × DynamoState :=
  match DynamoStorage.LookupTokens env s userID tokens with
  | (.error err, s1) => (.error err, s1)
  | (.ok chunkIDs, s1) =>
    if chunkIDs.length = 0 then (.ok [], s1)
    else
      match env.SearchMemoryByTokens with
      | some err => (.error ("dynamo query memory: " ++ err), s1)
      | none =>
        (.ok ((s1.MemoryChunks.filter (fun d => decide (d.UserID = userID))).filter
          (fun chunk => decide (chunk.ChunkID ∈ chunkIDs))), s1)

/-- The DynamoDB backend behind the interface `Storage`. -/
def dynamoStorage (env : Faults) : Storage DynamoState :=
  { GetIdentity := DynamoStorage.GetIdentity env,
    SetIdentity := DynamoStorage.SetIdentity env,
    StoreMemory := DynamoStorage.StoreMemory env,
    SearchMemoryByTokens := DynamoStorage.SearchMemoryByTokens env,
    IndexTokens := DynamoStorage.IndexTokens env,
    LookupTokens := DynamoStorage.LookupTokens env }

/-- The empty DynamoDB tables. -/
def DynamoState.empty : DynamoState :=
  { IdentityCore := [], MemoryChunks := [], TokenIndex := [] }

/-- A storage that performs nothing and records the operations invoked on it, in order. -/
inductive Call where
  | GetIdentity (userID key : String)
  | SetIdentity (fact : IdentityFact)
  | StoreMemory (chunk : MemoryChunk)
  | SearchMemoryByTokens (userID : String) (tokens : List String)
  | IndexTokens (entries : List TokenEntry)
  | LookupTokens (userID : String) (tokens : List String)
  deriving DecidableEq

/-- The recording storage: its state is the log of the calls made so far; every call
succeeds, `GetIdentity` answers `found` and the other reads find nothing. -/
def recorder (found : Option IdentityFact) : Storage (List Call) :=
  { GetIdentity := fun log userID key => (.ok found, log ++ [Call.GetIdentity userID key]),
    SetIdentity := fun log fact => (none, log ++ [Call.SetIdentity fact]),
    StoreMemory := fun log chunk => (none, log ++ [Call.StoreMemory chunk]),
    SearchMemoryByTokens := fun log userID tokens =>
      (.ok [], log ++ [Call.SearchMemoryByTokens userID tokens]),
    IndexTokens := fun log entries => (none, log ++ [Call.IndexTokens entries]),
    LookupTokens := fun log userID tokens =>
      (.ok [], log ++ [Call.LookupTokens userID tokens]) }

/-! ## Sequences of service calls -/

/-- One call of `MemoryService.Store`: its arguments, the reading `now` of the clock and the
driver failures met during the call. -/
structure StoreCall where
  env : Faults
  now : Int
  userID : String
  content : String
  source : String
  sessionID : String
  importance : ℚ

/-- The store after one `Store` call. -/
def StoreCall.run {σ : Type} (u : Unicode) (backend : Faults → Storage σ) (s : σ)
    (c : StoreCall) : σ :=
  (Store u (backend c.env) s c.now c.userID c.content c.source c.sessionID c.importance).2

/-- The store after a sequence of `Store` calls. -/
def runStores {σ : Type} (u : Unicode) (backend : Faults → Storage σ) :
    σ → List StoreCall → σ
  | s, [] => s
  | s, c :: rest => runStores u backend (c.run u backend s) rest

/-- The store after a sequence of `IdentityService.Set` calls, each with the driver failures
met during the call. -/
def runSets {σ : Type} (backend : Faults → Storage σ) : σ → List (Faults × IdentityFact) → σ
  | s, [] => s
  | s, c :: rest => runSets backend (IdentityService.Set (backend c.1) s c.2).2 rest

/-- The candidate fetch of `Search` on the storage `store` in state `s`. -/
def fetchFrom {σ : Type} (store : Storage σ) (s : σ) (userID : String)
    (tokens : List String) : Except String (List MemoryChunk) :=
  (store.SearchMemoryByTokens s userID tokens).1

/-- Go `MemoryService.Search` run against a storage: the code of `Search`, with the state of
the store threaded through the one storage call it makes. -/
def MemoryService.Search {σ : Type} (u : Unicode)
    (sortSlice : List ScoredChunk → (ScoredChunk → ScoredChunk → Bool) → List ScoredChunk)
    (store : Storage σ) (s : σ) (userID query : String) (topK : Int) :
    Except String (List ScoredChunk) × σ :=
  if userID = "" ∨ query = "" then (.error "user_id and query are required", s)
  else
    let topK : Int := if topK ≤ 0 then 3 else topK
    let queryTokens := Tokenize u query
    if queryTokens.length = 0 then (.ok [], s)
    else
      match store.SearchMemoryByTokens s userID queryTokens with
      | (.error err, s1) => (.error err, s1)
      | (.ok chunks, s1) =>
        if chunks.length = 0 then (.ok [], s1)
        else
          let scored := chunks.map (Search.score queryTokens)
          let scored := sortSlice scored Search.less
          let scored := if (scored.length : Int) > topK then scored.take topK.toNat else scored
          (.ok scored, s1)

/-! ## Go `sort.Slice` (package `sort`, since Go 1.19)

`sort.Slice(x, less)` runs `pdqsort_func` on the whole slice.  The embedding follows the first
round of its loop: insertion sort for at most 12 elements; otherwise the pivot choice with its
hint, the reversal of a slice hinted to be decreasing, and the return when the slice is found
already ordered.  What `pdqsort_func` does when that round does not return (partitioning and
recursion) is the parameter `rest`. -/

/-- Go `sortedHint`. -/
inductive sortedHint where
  | unknownHint
  | increasingHint
  | decreasingHint
  deriving DecidableEq

/-- The closure `less(i, j)` of `sort.Slice` on the slice `data`. -/
def lessAt {α : Type} (data : List α) (less : α → α → Bool) (i j : Nat) : Bool :=
  match data[i]?, data[j]? with
  | some x, some y => less x y
  | _, _ => false

/-- Go `order2_func`: the indices `a`, `b` in order, and the updated count of swaps. -/
def order2_func {α : Type} (data : List α) (less : α → α → Bool) (a b swaps : Nat) :
    Nat × Nat × Nat :=
  if lessAt data less b a then (b, a, swaps + 1) else (a, b, swaps)

/-- Go `median_func`: the index of the median of `data[a]`, `data[b]`, `data[c]`, and the
updated count of swaps. -/
def median_func {α : Type} (data : List α) (less : α → α → Bool) (a b c swaps : Nat) :
    Nat × Nat :=
  let r1 := order2_func data less a b swaps
  let r2 := order2_func data less r1.2.1 c r1.2.2
  let r3 := order2_func data less r1.1 r2.1 r2.2.2
  (r3.2.1, r3.2.2)

/-- Go `medianAdjacent_func`. -/
def medianAdjacent_func {α : Type} (data : List α) (less : α → α → Bool) (a swaps : Nat) :
    Nat × Nat :=
  median_func data less (a - 1) a (a + 1) swaps

/-- Go `choosePivot_func` on the whole slice (`a = 0`, `b = len(data)`): the pivot index and
the hint (`shortestNinther = 50`, `maxSwaps = 4 * 3`). -/
def choosePivot_func {α : Type} (data : List α) (less : α → α → Bool) : Nat × sortedHint :=
  let l := data.length
  let i := l / 4 * 1
  let j := l / 4 * 2
  let k := l / 4 * 3
  if l ≥ 8 then
    let r : Nat × Nat × Nat × Nat :=
      if l ≥ 50 then
        let ri := medianAdjacent_func data less i 0
        let rj := medianAdjacent_func data less j ri.2
        let rk := medianAdjacent_func data less k rj.2
        (ri.1, rj.1, rk.1, rk.2)
      else (i, j, k, 0)
    let m := median_func data less r.1 r.2.1 r.2.2.1 r.2.2.2
    (m.1, if m.2 = 0 then sortedHint.increasingHint
          else if m.2 = 4 * 3 then sortedHint.decreasingHint
          else sortedHint.unknownHint)
  else (j, sortedHint.increasingHint)

/-- The first scan of Go `partialInsertionSort_func`: no element is `less` than the one before
it, in which case the function returns `true` without touching the slice. -/
def alreadyOrdered {α : Type} (less : α → α → Bool) : List α → Bool
  | a :: b :: rest => !less b a && alreadyOrdered less (b :: rest)
  | _ => true

/-- Go `pdqsort_func(data, 0, len, limit)` as called by `sort.Slice`. -/
def pdqsort_func {α : Type} (rest : List α → (α → α → Bool) → List α)
    (data : List α) (less : α → α → Bool) : List α :=
  if data.length ≤ 12 then insertionSort data less
  else
    let hint := (choosePivot_func data less).2
    let data := if hint = sortedHint.decreasingHint then data.reverse else data
    if hint ≠ sortedHint.unknownHint ∧ alreadyOrdered less data = true then data
    else rest data less

/-- The result keeps the fetch order among ties: for every score, the returned chunks with
that score are, in this order, a subsequence of the candidates with that score. -/
def KeepsFetchOrder (candidates res : List ScoredChunk) : Prop :=
  ∀ s : ℚ, (res.filter (fun sc => decide (sc.Score = s))).Sublist
    (candidates.filter (fun sc => decide (sc.Score = s)))

/-! ## Example data: fifty candidates with rising scores -/

/-- The `i`-th candidate: it holds the token `hiking` and has importance `i/100`. -/
def risingChunk (i : Nat) : MemoryChunk :=
  { UserID := "u1", ChunkID := Store.chunkID "u1" (i : Int), Content := "hiking",
    Tokens := ["hiking"], Importance := (i : ℚ) / 100,
    Source := "conversation", SessionID := "", CreatedAt := (i : Int) }

/-- The first of two candidates with the same importance 0.5. -/
def tiedChunkA : MemoryChunk :=
  { UserID := "u1", ChunkID := Store.chunkID "u1" 48, Content := "hiking",
    Tokens := ["hiking"], Importance := 1 / 2,
    Source := "conversation", SessionID := "", CreatedAt := 48 }

/-- The second of two candidates with the same importance 0.5. -/
def tiedChunkB : MemoryChunk :=
  { UserID := "u1", ChunkID := Store.chunkID "u1" 49, Content := "hiking",
    Tokens := ["hiking"], Importance := 1 / 2,
    Source := "conversation", SessionID := "", CreatedAt := 49 }

/-- Fifty candidates in fetch order: importance 0.00, 0.01, ..., 0.47, then 0.5 and 0.5. -/
def fiftyCandidates : List MemoryChunk :=
  (List.range 48).map risingChunk ++ [tiedChunkA, tiedChunkB]

/-- A backend whose candidate fetch returns `fiftyCandidates`. -/
def fiftyFetch (_userID : String) (_tokens : List String) :
    Except String (List MemoryChunk) :=
  .ok fiftyCandidates

/-! ## Predicates on store states -/

/-- The MongoDB store without the chunks and index entries of one user. -/
def MongoState.withoutUser (userID : String) (s : MongoState) : MongoState :=
  { s with
    memory_chunks := (s.memory_chunks.filter (fun d => decide (d.UserID ≠ userID))),
    token_index := (s.token_index.filter (fun e => decide (e.UserID ≠ userID))) }

/-- The DynamoDB store without the chunks and index entries of one user. -/
def DynamoState.withoutUser (userID : String) (s : DynamoState) : DynamoState :=
  { s with
    MemoryChunks := (s.MemoryChunks.filter (fun d => decide (d.UserID ≠ userID))),
    TokenIndex := (s.TokenIndex.filter (fun e => decide (e.UserID ≠ userID))) }

/-! ## Example data: `Store` calls -/

/-- User `u1` stores `"I love hiking on weekends"` with importance 0.4 at time 17; no driver
call fails. -/
def hikingCall : StoreCall :=
  { env := noFaults, now := 17, userID := "u1", content := "I love hiking on weekends",
    source := "conversation", sessionID := "", importance := 2 / 5 }

/-- The chunk that `hikingCall` stores. -/
def hikingChunk : MemoryChunk :=
  { UserID := "u1", ChunkID := "u1-17", Content := "I love hiking on weekends",
    Tokens := ["love", "hiking", "weekends"], Importance := 2 / 5,
    Source := "conversation", SessionID := "", CreatedAt := 17 }

/-- A second chunk with the user, the chunk ID and the creation time of `hikingChunk`, and
another content. -/
def skiingChunk : MemoryChunk :=
  { UserID := "u1", ChunkID := "u1-17", Content := "I love skiing",
    Tokens := ["love", "skiing"], Importance := 2 / 5,
    Source := "conversation", SessionID := "", CreatedAt := 17 }

/-- A second chunk with the user and the chunk ID of `hikingChunk`, created later. -/
def laterDuplicate : MemoryChunk :=
  { UserID := "u1", ChunkID := "u1-17", Content := "I love skiing",
    Tokens := ["love", "skiing"], Importance := 2 / 5,
    Source := "conversation", SessionID := "", CreatedAt := 18 }

/-- The index entries that `hikingCall` writes. -/
def hikingEntries : List TokenEntry :=
  [⟨"love", "u1", "u1-17", 17⟩, ⟨"hiking", "u1", "u1-17", 17⟩, ⟨"weekends", "u1", "u1-17", 17⟩]

/-- The DynamoDB tables after `hikingCall`. -/
def hikingState : DynamoState :=
  { IdentityCore := [], MemoryChunks := [hikingChunk], TokenIndex := hikingEntries }

/-! ## More of the Go standard library: `unicode.IsSpace` and package `strings`

Go indexes and slices a string by bytes.  The texts here are valid UTF-8, and the patterns
searched for are valid UTF-8 too, so a pattern can only match at a character boundary;
positions are therefore counted in characters. -/

/-- The code points for which Go `unicode.IsSpace` holds: `\t \n \v \f \r`, space, U+0085 and
U+00A0 in Latin-1, and the rest of the property `White_Space`. -/
def spaceCodePoints : List Nat :=
  [0x09, 0x0A, 0x0B, 0x0C, 0x0D, 0x20, 0x85, 0xA0, 0x1680,
   0x2000, 0x2001, 0x2002, 0x2003, 0x2004, 0x2005, 0x2006, 0x2007, 0x2008, 0x2009, 0x200A,
   0x2028, 0x2029, 0x202F, 0x205F, 0x3000]

/-- Go `unicode.IsSpace`. -/
def IsSpace (c : Char) : Bool := decide (c.toNat ∈ spaceCodePoints)

/-- Go `strings.TrimSpace`: the text without its leading and trailing white space. -/
def TrimSpace (s : String) : String :=
  String.mk ((s.data.dropWhile IsSpace).reverse.dropWhile IsSpace).reverse

/-- Go `strings.TrimRight(s, cutset)`: the text without its trailing characters that occur in
`cutset`. -/
def TrimRight (s cutset : String) : String :=
  String.mk (s.data.reverse.dropWhile (fun c => decide (c ∈ cutset.data))).reverse

/-- Go `strings.HasSuffix`. -/
def HasSuffix (s suffix : String) : Bool := suffix.data.isSuffixOf s.data

/-- The search of Go `strings.Index` along the text: the position of the first occurrence of
`substr`, `none` for Go's `-1`. -/
def Index.go (substr : List Char) : List Char → Option Nat
  | [] => if substr.isEmpty then some 0 else none
  | c :: rest =>
    if substr.isPrefixOf (c :: rest) then some 0
    else (Index.go substr rest).map (fun m => m + 1)

/-- Go `strings.Index`. -/
def Index (s substr : String) : Option Nat := Index.go substr.data s.data

/-- Go `strings.Contains`: `Index(s, substr) >= 0`. -/
def Contains (s substr : String) : Bool := (Index s substr).isSome

/-- Go `strings.SplitN(s, sep, n)` for a non-empty `sep` and `n ≥ 0`: at most `n` pieces, the
last one being the unsplit remainder. -/
def SplitN (s sep : String) : Nat → List String
  | 0 => []
  | 1 => [s]
  | n + 2 =>
    match Index s sep with
    | none => [s]
    | some m =>
      String.mk (s.data.take m) :: SplitN (String.mk (s.data.drop (m + sep.length))) sep (n + 1)

/-! ## The session types of `internal/models/models.go` -/

/-- Go `models.TranscriptLine`. -/
structure TranscriptLine where
  Role : String
  Content : String
  deriving DecidableEq

/-- Go `models.IdentityProposal`; the `Value` (Go `any`) that `simpleExtract` stores is a
string. -/
structure IdentityProposal where
  Key : String
  Value : String
  Confidence : ℚ
  deriving DecidableEq

/-- Go `models.MemoryProposal`. -/
structure MemoryProposal where
  Content : String
  Importance : ℚ
  Source : String
  deriving DecidableEq

/-- Go `models.ReviewStatus`, a string type. -/
abbrev ReviewStatus : Type := String

/-- Go constant `models.ReviewPending`. -/
def ReviewPending : ReviewStatus := "pending"

/-- Go `models.ReviewItem`; `ReviewedAt` is a pointer, `none` when it is `nil`. -/
structure ReviewItem where
  SessionID : String
  UserID : String
  Status : ReviewStatus
  ProposedIdentityUpdates : List IdentityProposal
  ProposedMemories : List MemoryProposal
  CreatedAt : Int
  ReviewedAt : Option Int
  deriving DecidableEq

/-! ## `internal/session/session.go` -/

/-- The `for _, msg := range messages` loop of Go `Processor.simpleExtract`, with its two
result slices as explicit state. -/
def simpleExtract.loop (u : Unicode) :
    List TranscriptLine → List IdentityProposal → List MemoryProposal →
      List IdentityProposal × List MemoryProposal
  | [], identities, memories => (identities, memories)
  | msg :: rest, identities, memories =>
    if msg.Role ≠ "user" then simpleExtract.loop u rest identities memories
    else
      let content := TrimSpace msg.Content
      if len content < 10 then simpleExtract.loop u rest identities memories
      else
        let memories :=
          if !HasSuffix content "?" then
            memories ++ [{ Content := content, Importance := 1 / 2, Source := "conversation" }]
          else memories
        let lower := ToLower u content
        let identities :=
          if Contains lower "my name is" then
            let parts := SplitN lower "my name is" 2
            if parts.length = 2 then
              let name := TrimSpace (parts.getD 1 "")
              let name := TrimRight name ".,!?"
              identities ++ [{ Key := "name", Value := name, Confidence := 4 / 5 }]
            else identities
          else identities
        simpleExtract.loop u rest identities memories

/-- Go `Processor.simpleExtract`. -/
def simpleExtract (u : Unicode) (messages : List TranscriptLine) :
    List IdentityProposal × List MemoryProposal :=
  simpleExtract.loop u messages [] []

/-- Go interface `storage.Storage`, restricted to the review-queue operation that `Processor`
calls.  As in `Storage`, the operation returns its result with the state it leaves behind. -/
structure ReviewStorage (σ : Type) where
  StoreReview : σ → ReviewItem → Option String × σ

/-- The review that Go `Processor.Process` builds; `now` and `createdAt` are its two readings
of `time.Now()`. -/
def Process.review (u : Unicode) (groqKey : String) (now createdAt : Int) (userID : String)
    (messages : List TranscriptLine) : ReviewItem :=
  let sessionID := "session-" ++ userID ++ "-" ++ formatInt now
  let proposals :=
    if groqKey ≠ "" then simpleExtract u messages else simpleExtract u messages
  { SessionID := sessionID, UserID := userID, Status := ReviewPending,
    ProposedIdentityUpdates := proposals.1, ProposedMemories := proposals.2,
    CreatedAt := createdAt, ReviewedAt := none }

/-- Go `Processor.Process` of a processor with the fields `store` and `groqKey`. -/
def Process {σ : Type} (u : Unicode) (store : ReviewStorage σ) (groqKey : String) (s : σ)
    (now createdAt : Int) (userID : String) (messages : List TranscriptLine) :
    Except String String × σ :=
  if userID = "" ∨ messages.length = 0 then (.error "user_id and messages are required", s)
  else
    let review := Process.review u groqKey now createdAt userID messages
    match store.StoreReview s review with
    | (some err, s1) => (.error ("store review: " ++ err), s1)
    | (none, s1) => (.ok review.SessionID, s1)

/-- Go `MongoStorage.StoreReview` on the collection `review_queue` (no unique index): the
creation time is set to the reading `now` of `time.Now()` and the item is inserted;
`failure` is the error of the driver call, if it fails. -/
def MongoStorage.StoreReview (failure : Option String) (now : Int)
    (review_queue : List ReviewItem) (item : ReviewItem) : Option String × List ReviewItem :=
  match failure with
  | some err => (some ("store review: " ++ err), review_queue)
  | none => (none, review_queue ++ [{ item with CreatedAt := bsonDateTime now }])

/-- The MongoDB review queue behind the interface `ReviewStorage`. -/
def mongoReviews (failure : Option String) (now : Int) : ReviewStorage (List ReviewItem) :=
  { StoreReview := MongoStorage.StoreReview failure now }

/-- Go `DynamoStorage.StoreReview` on the table `ReviewQueue`: the creation time is set to the
reading `now` of `time.Now()` and the item is put under the key `"review#" + SessionID`. -/
def DynamoStorage.StoreReview (failure : Option String) (now : Int)
    (ReviewQueue : List ReviewItem) (item : ReviewItem) : Option String × List ReviewItem :=
  match failure with
  | some err => (some ("dynamo store review: " ++ err), ReviewQueue)
  | none =>
    (none, DynamoStorage.putItem (fun d : ReviewItem => d.SessionID)
      { item with CreatedAt := now } ReviewQueue)

/-- The DynamoDB review queue behind the interface `ReviewStorage`. -/
def dynamoReviews (failure : Option String) (now : Int) : ReviewStorage (List ReviewItem) :=
  { StoreReview := DynamoStorage.StoreReview failure now }

/-- A review storage that stores nothing and records the items handed to `StoreReview`, in
order. -/
def reviewRecorder : ReviewStorage (List ReviewItem) :=
  { StoreReview := fun log item => (none, log ++ [item]) }

/-! ## Example data: transcripts -/

/-- A transcript: a greeting too short to count, a statement, a question that names the user,
and an answer of the assistant. -/
def exampleTranscript : List TranscriptLine :=
  [⟨"user", "Hi there"⟩,
   ⟨"user", "  I walk my dog every morning.  "⟩,
   ⟨"assistant", "That sounds like a lovely routine."⟩,
   ⟨"user", "Did I say my name is Bob?"⟩,
   ⟨"assistant", "My name is Lane, nice to meet you."⟩]

/-! ## Example data: identity facts -/

/-- A first fact for the key `name` of user `u1`; the caller supplies version 7. -/
def annFact : IdentityFact :=
  { UserID := "u1", Key := "name", Value := "Ann", Version := 7, Immutable := false,
    UpdatedAt := 0 }

/-- An update of the same key; the caller supplies version 0. -/
def annaFact : IdentityFact :=
  { UserID := "u1", Key := "name", Value := "Anna", Version := 0, Immutable := false,
    UpdatedAt := 0 }

/-- A stored fact for the same key that is tagged immutable. -/
def lockedFact : IdentityFact :=
  { UserID := "u1", Key := "name", Value := "Ann", Version := 2, Immutable := true,
    UpdatedAt := 0 }

end MemoryLane

/-! # Properties -/

namespace MemoryLane

/-! ## `strings.FieldsFunc` produces the maximal runs -/

theorem modifyHead_comp {α : Type} (g h : α → α) (l : List α) :
    List.modifyHead g (List.modifyHead h l) = List.modifyHead (fun x => g (h x)) l := by
  cases l <;> simp [List.modifyHead]

theorem scan_spec (f : Char → Bool) (cs : List Char) :
    FieldsFunc.scan f cs none =
        ((cs.splitOnP f).filter (fun run => !run.isEmpty)).map String.mk ∧
    ∀ cur : List Char, cur ≠ [] →
      FieldsFunc.scan f cs (some cur) =
        (((cs.splitOnP f).modifyHead (fun x => cur ++ x)).filter
          (fun run => !run.isEmpty)).map String.mk := by
  induction cs with
  | nil =>
    refine ⟨by simp [FieldsFunc.scan, List.splitOnP_nil], ?_⟩
    intro cur hcur
    cases cur with
    | nil => exact absurd rfl hcur
    | cons c cs => simp [FieldsFunc.scan, List.splitOnP_nil, List.modifyHead]
  | cons r rest ih =>
    obtain ⟨ihNone, ihSome⟩ := ih
    rw [List.splitOnP_cons]
    by_cases hr : f r = true
    · refine ⟨by simp [FieldsFunc.scan, hr, ihNone], ?_⟩
      intro cur hcur
      cases cur with
      | nil => exact absurd rfl hcur
      | cons c cs => simp [FieldsFunc.scan, hr, ihNone, List.modifyHead]
    · have hsingle : FieldsFunc.scan f rest (some [r]) = _ := ihSome [r] (by simp)
      refine ⟨by simp [FieldsFunc.scan, hr, hsingle], ?_⟩
      intro cur hcur
      have hext : FieldsFunc.scan f rest (some (cur ++ [r])) = _ := ihSome (cur ++ [r]) (by simp)
      have hfun : ((fun x => cur ++ x) ∘ List.cons r) = (fun x => cur ++ r :: x) := rfl
      simp [FieldsFunc.scan, hr, hext, modifyHead_comp, hfun]

theorem FieldsFunc_eq_maximalRuns (u : Unicode) (s : String) :
    FieldsFunc s (fun r => !u.IsLetter r && !u.IsDigit r) =
      (maximalRuns (fun c => u.IsLetter c || u.IsDigit c) s.data).map String.mk := by
  unfold FieldsFunc maximalRuns
  rw [(scan_spec _ s.data).1]
  have hsep : (fun r => !u.IsLetter r && !u.IsDigit r) =
      (fun c => !(u.IsLetter c || u.IsDigit c)) := by
    funext c
    cases u.IsLetter c <;> cases u.IsDigit c <;> rfl
  rw [hsep]

/-! ## The `seen` loop keeps first occurrences -/

theorem loop_cons_short (w : String) (rest : List String) (seen : String → Bool)
    (tokens : List String) (h : len w < 2) :
    Tokenize.loop (w :: rest) seen tokens = Tokenize.loop rest seen tokens := by
  simp [Tokenize.loop, h]

theorem loop_cons_stop (w : String) (rest : List String) (seen : String → Bool)
    (tokens : List String) (h : w ∈ stopWordKeys) :
    Tokenize.loop (w :: rest) seen tokens = Tokenize.loop rest seen tokens := by
  simp [Tokenize.loop, stopWords, h]

theorem loop_cons_seen (w : String) (rest : List String) (seen : String → Bool)
    (tokens : List String) (h : seen w = true) :
    Tokenize.loop (w :: rest) seen tokens = Tokenize.loop rest seen tokens := by
  simp [Tokenize.loop, h]

theorem loop_cons_new (w : String) (rest : List String) (seen : String → Bool)
    (tokens : List String) (hlen : ¬ len w < 2) (hstop : w ∉ stopWordKeys)
    (hseen : seen w = false) :
    Tokenize.loop (w :: rest) seen tokens =
      Tokenize.loop rest (fun k => if k = w then true else seen k) (tokens ++ [w]) := by
  simp [Tokenize.loop, hlen, stopWords, hstop, hseen]

theorem loop_spec (ws : List String) :
    ∀ (seen : String → Bool) (tokens : List String),
      Tokenize.loop ws seen tokens =
        tokens ++ (keepFirstOccurrences (ws.filter Tokenize.keeps)).filter (fun w => !seen w) := by
  induction ws with
  | nil => intro seen tokens; simp [Tokenize.loop, keepFirstOccurrences]
  | cons w rest ih =>
    intro seen tokens
    by_cases hlen : len w < 2
    · have h2 : ¬ 2 ≤ len w := by omega
      rw [loop_cons_short _ _ _ _ hlen, ih,
        List.filter_cons_of_neg (by simp [Tokenize.keeps, h2])]
    · have h2 : 2 ≤ len w := by omega
      by_cases hstop : w ∈ stopWordKeys
      · rw [loop_cons_stop _ _ _ _ hstop, ih,
          List.filter_cons_of_neg (by simp [Tokenize.keeps, hstop])]
      · have hkeep : Tokenize.keeps w = true := by
          simp [Tokenize.keeps, h2, hstop]
        rw [List.filter_cons_of_pos hkeep, keepFirstOccurrences]
        cases hseen : seen w with
        | true =>
          rw [loop_cons_seen _ _ _ _ hseen, ih, List.filter_cons_of_neg (by simp [hseen]),
            List.filter_filter]
          congr 1
          apply List.filter_congr
          intro x _
          by_cases hx : x = w
          · simp [hx, hseen]
          · simp [hx]
        | false =>
          rw [loop_cons_new _ _ _ _ hlen hstop hseen, ih,
            List.filter_cons_of_pos (by simp [hseen]), List.filter_filter,
            List.append_assoc, List.singleton_append]
          congr 2
          apply List.filter_congr
          intro x _
          by_cases hx : x = w
          · simp [hx]
          · simp [hx]

theorem Tokenize_eq_runs (u : Unicode) (text : String) :
    Tokenize u text =
      keepFirstOccurrences ((referenceWords u text).filter Tokenize.keeps) := by
  unfold Tokenize referenceWords
  simp only [FieldsFunc_eq_maximalRuns, ToLower, loop_spec]
  simp

/-! ## Facts about `keepFirstOccurrences` -/

theorem mem_keepFirstOccurrences (a : String) (l : List String) :
    a ∈ keepFirstOccurrences l ↔ a ∈ l := by
  induction l with
  | nil => simp [keepFirstOccurrences]
  | cons w rest ih =>
    by_cases ha : a = w
    · simp [keepFirstOccurrences, ha]
    · simp [keepFirstOccurrences, ha, ih]

theorem keepFirstOccurrences_sublist (l : List String) :
    (keepFirstOccurrences l).Sublist l := by
  induction l with
  | nil => simp [keepFirstOccurrences]
  | cons w rest ih =>
    rw [keepFirstOccurrences]
    exact (List.Sublist.trans (List.filter_sublist _) ih).cons₂ w

theorem keepFirstOccurrences_nodup (l : List String) : (keepFirstOccurrences l).Nodup := by
  induction l with
  | nil => simp [keepFirstOccurrences]
  | cons w rest ih =>
    rw [keepFirstOccurrences, List.nodup_cons]
    exact ⟨by simp [List.mem_filter], ih.filter _⟩

theorem keepFirstOccurrences_order (p : String → Bool) (l : List String) :
    (keepFirstOccurrences (l.filter p)).Pairwise
      (fun a b => List.indexOf a l < List.indexOf b l) := by
  induction l with
  | nil => simp [keepFirstOccurrences]
  | cons x rest ih =>
    have hshift : ∀ a : String, a ≠ x →
        List.indexOf a (x :: rest) = List.indexOf a rest + 1 := by
      intro a ha
      have hne : (x == a) = false := by simpa using fun h => ha h.symm
      rw [List.indexOf_cons, hne]; rfl
    have hzero : List.indexOf x (x :: rest) = 0 := by
      rw [List.indexOf_cons]; simp
    by_cases hp : p x = true
    · rw [List.filter_cons_of_pos hp, keepFirstOccurrences, List.pairwise_cons]
      refine ⟨?_, ?_⟩
      · intro b hb
        have hbx : b ≠ x := by simpa using (List.mem_filter.mp hb).2
        rw [hzero, hshift b hbx]; omega
      · refine List.Pairwise.imp_of_mem ?_ (ih.sublist (List.filter_sublist _))
        intro a b ha hb hab
        have hax : a ≠ x := by simpa using (List.mem_filter.mp ha).2
        have hbx : b ≠ x := by simpa using (List.mem_filter.mp hb).2
        rw [hshift a hax, hshift b hbx]; omega
    · rw [List.filter_cons_of_neg hp]
      refine List.Pairwise.imp_of_mem ?_ ih
      intro a b ha hb hab
      have hpa := (List.mem_filter.mp ((mem_keepFirstOccurrences a _).mp ha)).2
      have hpb := (List.mem_filter.mp ((mem_keepFirstOccurrences b _).mp hb)).2
      have hax : a ≠ x := fun h => hp (h ▸ hpa)
      have hbx : b ≠ x := fun h => hp (h ▸ hpb)
      rw [hshift a hax, hshift b hbx]; omega

theorem Tokenize_eq_keepFirst (u : Unicode) (text : String) :
    Tokenize u text =
      keepFirstOccurrences
        ((FieldsFunc (ToLower u text) (fun r => !u.IsLetter r && !u.IsDigit r)).filter
          Tokenize.keeps) := by
  unfold Tokenize
  simp only [loop_spec]
  simp

theorem mem_Tokenize_keeps (u : Unicode) (text t : String) (h : t ∈ Tokenize u text) :
    Tokenize.keeps t = true := by
  rw [Tokenize_eq_keepFirst, mem_keepFirstOccurrences] at h
  exact (List.mem_filter.mp h).2

theorem Tokenize_len_ge_two (u : Unicode) (text t : String) (h : t ∈ Tokenize u text) :
    2 ≤ len t := by
  have hk := mem_Tokenize_keeps u text t h
  simp only [Tokenize.keeps, Bool.and_eq_true, decide_eq_true_eq] at hk
  exact hk.1

/-! ## The tokenizer claims -/

/-- Where bytes and characters agree on which words are shorter than 2, `Tokenize` equals the
reference pipeline. -/
theorem Tokenize_eq_reference_of_len (u : Unicode) (text : String)
    (h : ∀ w ∈ referenceWords u text, (2 ≤ len w ↔ 2 ≤ w.length)) :
    Tokenize u text = tokenizeReference u text := by
  rw [Tokenize_eq_runs, tokenizeReference]
  congr 1
  apply List.filter_congr
  intro w hw
  simp only [Tokenize.keeps, keepWord, h w hw]

/-- The empty text has no tokens, and the tokens are a subsequence of the words of the
lowercased text in which a token that precedes another also has the earlier first occurrence
among those words. -/
theorem Tokenize_first_occurrences (u : Unicode) (text : String) :
    Tokenize u "" = [] ∧
    (Tokenize u text).Sublist
      (FieldsFunc (ToLower u text) (fun r => !u.IsLetter r && !u.IsDigit r)) ∧
    (Tokenize u text).Pairwise (fun a b =>
      List.indexOf a (FieldsFunc (ToLower u text) (fun r => !u.IsLetter r && !u.IsDigit r)) <
      List.indexOf b (FieldsFunc (ToLower u text) (fun r => !u.IsLetter r && !u.IsDigit r))) := by
  refine ⟨rfl, ?_, ?_⟩
  · rw [Tokenize_eq_keepFirst]
    exact (keepFirstOccurrences_sublist _).trans (List.filter_sublist _)
  · rw [Tokenize_eq_keepFirst]
    exact keepFirstOccurrences_order _ _

/-- C1, evaluated at the text `"é"`: its one word is the run `"é"`, of 1 character, which the
reference pipeline drops as shorter than 2 characters; `Tokenize` measures its 2 bytes and
emits it. -/
theorem Tokenize_differs_from_reference :
    referenceWords goLatin1 "é" = ["é"] ∧ tokenizeReference goLatin1 "é" = [] ∧
    Tokenize goLatin1 "é" = ["é"] := by
  decide

/-- C2: the output of `Tokenize` contains no token twice; words that differ only in letter
case collapse to one token, as in `"Hello hello HELLO world"`. -/
theorem Tokenize_nodup (u : Unicode) (text : String) :
    (Tokenize u text).Nodup ∧
    Tokenize goLatin1 "Hello hello HELLO world" = ["hello", "world"] := by
  refine ⟨?_, by decide⟩
  rw [Tokenize_eq_keepFirst]
  exact keepFirstOccurrences_nodup _

/-- C3, evaluated at the text `"é"` (one letter, U+00E9, two bytes in UTF-8): the run has
`len = 2`, so it passes the `len(w) < 2` test and `Tokenize` emits a token of one character. -/
theorem Tokenize_single_letter_token :
    Tokenize goLatin1 "é" = ["é"] ∧ "é".length = 1 ∧ len "é" = 2 := by
  decide

/-- C4: no token of `Tokenize` is a key of the stop-word map, whatever the letter case in the
input; `Tokenize("The Cat sat.")` is `["cat", "sat"]` and does not contain `"the"`. -/
theorem Tokenize_no_stop_word (u : Unicode) (text : String) :
    (∀ t ∈ Tokenize u text, stopWords t = false) ∧
    Tokenize goLatin1 "The Cat sat." = ["cat", "sat"] ∧
    "the" ∉ Tokenize goLatin1 "The Cat sat." := by
  refine ⟨?_, by decide, by decide⟩
  intro t ht
  have hk := mem_Tokenize_keeps u text t ht
  simp only [Tokenize.keeps, Bool.and_eq_true, decide_eq_true_eq] at hk
  simp [stopWords, hk.2]

/-- C4 at a concrete input: `"cat"` is a token of `"The Cat sat."` and is not a stop word. -/
theorem Tokenize_no_stop_word_witness :
    "cat" ∈ Tokenize goLatin1 "The Cat sat." ∧ stopWords "cat" = false :=
  ⟨by decide, (Tokenize_no_stop_word goLatin1 "The Cat sat.").1 "cat" (by decide)⟩

/-! ## `TokenOverlap` -/

theorem chunkSet_spec (chunkTokens : List String) :
    ∀ (m : String → Bool) (k : String),
      chunkTokens.foldl (fun m t => fun k => if k = t then true else m k) m k =
        (m k || decide (k ∈ chunkTokens)) := by
  induction chunkTokens with
  | nil => intro m k; simp
  | cons t rest ih =>
    intro m k
    rw [List.foldl_cons, ih]
    by_cases hk : k = t
    · simp [hk]
    · simp [hk]

theorem matches_spec (chunkSet : String → Bool) (queryTokens : List String) :
    ∀ n : Nat,
      queryTokens.foldl (fun n qt => if chunkSet qt then n + 1 else n) n =
        n + queryTokens.countP chunkSet := by
  induction queryTokens with
  | nil => intro n; simp
  | cons qt rest ih =>
    intro n
    rw [List.foldl_cons, ih]
    cases h : chunkSet qt
    · simp [h]
    · simp [h]; omega

theorem TokenOverlap_eq (queryTokens chunkTokens : List String) :
    TokenOverlap queryTokens chunkTokens =
      if queryTokens.length = 0 then 0
      else ((queryTokens.countP (fun qt => decide (qt ∈ chunkTokens)) : Nat) : ℚ) /
        (queryTokens.length : ℚ) := by
  unfold TokenOverlap
  by_cases hq : queryTokens.length = 0
  · simp [hq]
  · simp only [hq, if_false]
    have hset : (chunkTokens.foldl (fun m t => fun k => if k = t then true else m k)
        (fun _ => false)) = (fun qt => decide (qt ∈ chunkTokens)) := by
      funext k
      rw [chunkSet_spec]; simp
    rw [hset, matches_spec]
    simp

theorem TokenOverlap_half : TokenOverlap ["a", "b"] ["a"] = 1 / 2 := by
  rw [TokenOverlap_eq]
  simp

/-- C5: `TokenOverlap` is the number of positions of the query whose token occurs in the chunk
tokens, divided by the number of query tokens, and 0 for an empty query;
`TokenOverlap(["a","b"], ["a"]) = 1/2`. -/
theorem TokenOverlap_fraction (queryTokens chunkTokens : List String) :
    TokenOverlap queryTokens chunkTokens =
      (if queryTokens.length = 0 then 0
       else ((queryTokens.countP (fun qt => decide (qt ∈ chunkTokens)) : Nat) : ℚ) /
        (queryTokens.length : ℚ)) ∧
    TokenOverlap [] chunkTokens = 0 ∧
    TokenOverlap ["a", "b"] ["a"] = 1 / 2 := by
  exact ⟨TokenOverlap_eq _ _, by simp [TokenOverlap], TokenOverlap_half⟩

/-- C6: `TokenOverlap` lies between 0 and 1, with or without repeated tokens. -/
theorem TokenOverlap_bounds (queryTokens chunkTokens : List String) :
    0 ≤ TokenOverlap queryTokens chunkTokens ∧ TokenOverlap queryTokens chunkTokens ≤ 1 := by
  rw [TokenOverlap_eq]
  by_cases hq : queryTokens.length = 0
  · simp [hq]
  · simp only [hq, if_false]
    have hpos : (0 : ℚ) < (queryTokens.length : ℚ) := by
      exact_mod_cast Nat.pos_of_ne_zero hq
    have hle : ((queryTokens.countP (fun qt => decide (qt ∈ chunkTokens)) : Nat) : ℚ) ≤
        (queryTokens.length : ℚ) := by
      exact_mod_cast List.countP_le_length _
    exact ⟨div_nonneg (by positivity) hpos.le, (div_le_one hpos).mpr hle⟩

/-! ## `MemoryService.Search` -/

/-- Once the arguments are valid, the query has tokens and the fetch succeeds, `Search` returns
the sorted scored candidates cut to the requested `topK`, or to 3 when `topK ≤ 0`. -/
theorem Search_forward (u : Unicode)
    (sortSlice : List ScoredChunk → (ScoredChunk → ScoredChunk → Bool) → List ScoredChunk)
    (fetch : String → List String → Except String (List MemoryChunk))
    (userID query : String) (topK : Int) (chunks : List MemoryChunk)
    (hsort : SortSliceContract sortSlice) (hu : userID ≠ "") (hq : query ≠ "")
    (ht : Tokenize u query ≠ [])
    (hf : fetch userID (Tokenize u query) = .ok chunks) :
    Search u sortSlice fetch userID query topK =
      .ok ((sortSlice (chunks.map (Search.score (Tokenize u query))) Search.less).take
        (if topK ≤ 0 then 3 else topK.toNat)) := by
  have ht2 : (Tokenize u query).length ≠ 0 := by
    intro h; exact ht (List.length_eq_zero.mp h)
  unfold Search
  simp only [hu, hq, or_self, if_false, ht2, hf]
  by_cases hc : chunks.length = 0
  · have hnil : chunks = [] := List.length_eq_zero.mp hc
    subst hnil
    have hperm := (hsort []).1
    simp [List.Perm.eq_nil hperm]
  · simp only [hc, if_false]
    by_cases hk : topK ≤ 0
    · simp only [hk, if_true]
      split
      · rfl
      · rename_i hlen
        rw [List.take_of_length_le]
        have : ((sortSlice (chunks.map (Search.score (Tokenize u query))) Search.less).length
          : Int) ≤ 3 := by omega
        omega
    · simp only [hk, if_false]
      split
      · rfl
      · rename_i hlen
        rw [List.take_of_length_le]
        omega

theorem Search_inv (u : Unicode)
    (sortSlice : List ScoredChunk → (ScoredChunk → ScoredChunk → Bool) → List ScoredChunk)
    (fetch : String → List String → Except String (List MemoryChunk))
    (userID query : String) (topK : Int) (res : List ScoredChunk)
    (hsort : SortSliceContract sortSlice)
    (hres : Search u sortSlice fetch userID query topK = .ok res) :
    res = [] ∨ ∃ chunks, fetch userID (Tokenize u query) = .ok chunks ∧
      res = (sortSlice (chunks.map (Search.score (Tokenize u query))) Search.less).take
        (if topK ≤ 0 then 3 else topK.toNat) := by
  by_cases hu : userID = ""
  · simp [Search, hu] at hres
  by_cases hq : query = ""
  · simp [Search, hq] at hres
  by_cases ht : Tokenize u query = []
  · left
    simp [Search, hu, hq, ht] at hres
    exact hres
  cases hf : fetch userID (Tokenize u query) with
  | error err =>
    have ht2 : (Tokenize u query).length ≠ 0 := by
      intro h; exact ht (List.length_eq_zero.mp h)
    unfold Search at hres
    simp only [hu, hq, or_self, if_false, ht2, hf] at hres
    cases hres
  | ok chunks =>
    right
    refine ⟨chunks, rfl, ?_⟩
    rw [Search_forward u sortSlice fetch userID query topK chunks hsort hu hq ht hf] at hres
    exact (Except.ok.inj hres).symm

/-! ## Insertion sort meets the contract of `sort.Slice` -/

theorem sink_perm {α : Type} (less : α → α → Bool) (x : α) (l : List α) :
    (insertionSort.sink less x l).Perm (x :: l) := by
  induction l with
  | nil => simp [insertionSort.sink]
  | cons y ys ih =>
    rw [insertionSort.sink]
    split
    · exact (ih.cons y).trans (List.Perm.swap x y ys)
    · exact List.Perm.refl _

theorem foldl_sink_perm {α : Type} (less : α → α → Bool) (data : List α) :
    ∀ sortedPart : List α,
      (data.foldl (fun acc x => insertionSort.sink less x acc) sortedPart).Perm
        (data.reverse ++ sortedPart) := by
  induction data with
  | nil => intro sortedPart; simp
  | cons x rest ih =>
    intro sortedPart
    rw [List.foldl_cons]
    refine (ih _).trans ?_
    rw [List.reverse_cons, List.append_assoc]
    exact List.Perm.append_left _ (by simpa using sink_perm less x sortedPart)

theorem sink_sorted (x : ScoredChunk) (l : List ScoredChunk)
    (hl : l.Pairwise (fun a b => Search.less a b = false)) :
    (insertionSort.sink Search.less x l).Pairwise (fun a b => Search.less a b = false) := by
  induction l with
  | nil => simp [insertionSort.sink]
  | cons y ys ih =>
    rw [List.pairwise_cons] at hl
    rw [insertionSort.sink]
    split
    · rename_i hxy
      rw [List.pairwise_cons]
      refine ⟨?_, ih hl.2⟩
      intro b hb
      rcases List.mem_cons.mp ((sink_perm Search.less x ys).subset hb) with hbx | hby
      · subst hbx
        simp only [Search.less, decide_eq_true_eq, decide_eq_false_iff_not, not_lt] at hxy ⊢
        exact le_of_lt hxy
      · exact hl.1 b hby
    · rename_i hxy
      rw [List.pairwise_cons]
      refine ⟨?_, List.pairwise_cons.mpr hl⟩
      intro b hb
      rcases List.mem_cons.mp hb with hby | hbs
      · subst hby; simpa using hxy
      · have hyb := hl.1 b hbs
        simp only [Search.less, decide_eq_true_eq, decide_eq_false_iff_not, not_lt,
          Bool.not_eq_true] at hxy hyb ⊢
        exact le_trans hxy hyb

theorem foldl_sink_sorted (data : List ScoredChunk) :
    ∀ sortedPart : List ScoredChunk,
      sortedPart.Pairwise (fun a b => Search.less a b = false) →
      (data.foldl (fun acc x => insertionSort.sink Search.less x acc) sortedPart).Pairwise
        (fun a b => Search.less a b = false) := by
  induction data with
  | nil => intro sortedPart h; simpa using h
  | cons x rest ih =>
    intro sortedPart h
    rw [List.foldl_cons]
    exact ih _ (sink_sorted x sortedPart h)

theorem insertionSort_contract : SortSliceContract insertionSort := by
  intro data
  refine ⟨?_, ?_⟩
  · unfold insertionSort
    refine (List.reverse_perm _).trans ?_
    have h := foldl_sink_perm Search.less data []
    rw [List.append_nil] at h
    exact h.trans (List.reverse_perm _)
  · unfold insertionSort
    rw [List.pairwise_reverse]
    exact foldl_sink_sorted data [] List.Pairwise.nil

/-! ## The worked example -/

theorem exampleQuery_tokens :
    Tokenize goLatin1 exampleQuery = ["hiking", "weekends", "mountains"] := by
  decide

theorem example_scores :
    [chunkA, chunkB, chunkC].map (Search.score ["hiking", "weekends", "mountains"]) =
      [⟨chunkA, 9 / 10⟩, ⟨chunkB, 3 / 10⟩, ⟨chunkC, 3 / 5⟩] := by
  simp [Search.score, TokenOverlap_eq, chunkA, chunkB, chunkC]
  norm_num

theorem sink_nil {α : Type} (less : α → α → Bool) (x : α) :
    insertionSort.sink less x [] = [x] := rfl

theorem sink_cons {α : Type} (less : α → α → Bool) (x y : α) (ys : List α) :
    insertionSort.sink less x (y :: ys) =
      if less x y then y :: insertionSort.sink less x ys else x :: y :: ys := rfl

theorem example_sorted :
    insertionSort [(⟨chunkA, 9 / 10⟩ : ScoredChunk), ⟨chunkB, 3 / 10⟩, ⟨chunkC, 3 / 5⟩]
        Search.less =
      [⟨chunkA, 9 / 10⟩, ⟨chunkC, 3 / 5⟩, ⟨chunkB, 3 / 10⟩] := by
  norm_num [insertionSort, sink_nil, sink_cons, Search.less]

theorem example_search (topK : Int) :
    Search goLatin1 insertionSort exampleFetch "u1" exampleQuery topK =
      .ok (([⟨chunkA, 9 / 10⟩, ⟨chunkC, 3 / 5⟩, ⟨chunkB, 3 / 10⟩] : List ScoredChunk).take
        (if topK ≤ 0 then 3 else topK.toNat)) := by
  rw [Search_forward goLatin1 insertionSort exampleFetch "u1" exampleQuery topK
    [chunkA, chunkB, chunkC] insertionSort_contract (by decide) (by decide)
    (by rw [exampleQuery_tokens]; simp) rfl]
  rw [exampleQuery_tokens, example_scores, example_sorted]

/-! ## The ranking claims -/

/-- C7: every chunk returned by `Search` carries the score
`TokenOverlap(Tokenize(query), chunk.Tokens) * 0.7 + chunk.Importance * 0.3`; a chunk with
overlap 0.5 and importance 0.2 is scored 0.41. -/
theorem Search_score_formula (u : Unicode)
    (sortSlice : List ScoredChunk → (ScoredChunk → ScoredChunk → Bool) → List ScoredChunk)
    (fetch : String → List String → Except String (List MemoryChunk))
    (userID query : String) (topK : Int) (res : List ScoredChunk) (sc : ScoredChunk)
    (hsort : SortSliceContract sortSlice)
    (hres : Search u sortSlice fetch userID query topK = .ok res) (hmem : sc ∈ res) :
    sc.Score =
        TokenOverlap (Tokenize u query) sc.Chunk.Tokens * (7 / 10) +
          sc.Chunk.Importance * (3 / 10) ∧
    ∀ (queryTokens : List String) (c : MemoryChunk),
      TokenOverlap queryTokens c.Tokens = 1 / 2 → c.Importance = 1 / 5 →
        (Search.score queryTokens c).Score = 41 / 100 := by
  refine ⟨?_, ?_⟩
  · rcases Search_inv u sortSlice fetch userID query topK res hsort hres with hnil | ⟨chunks, _, hr⟩
    · subst hnil; cases hmem
    · subst hr
      have h1 := (List.take_sublist _ _).subset hmem
      have h2 := (hsort _).1.subset h1
      obtain ⟨c, _, hc⟩ := List.mem_map.mp h2
      subst hc
      rfl
  · intro queryTokens c hov himp
    simp only [Search.score, hov, himp]
    norm_num

/-- C7 at the worked example: `chunkA` is returned with score 0.9, and `chunkD` (overlap 0.5
with the tokens `a`, `b`, importance 0.2) is scored 0.41. -/
theorem Search_score_formula_witness :
    SortSliceContract insertionSort ∧
    Search goLatin1 insertionSort exampleFetch "u1" exampleQuery 2 =
      .ok [⟨chunkA, 9 / 10⟩, ⟨chunkC, 3 / 5⟩] ∧
    (9 / 10 : ℚ) =
      TokenOverlap (Tokenize goLatin1 exampleQuery) chunkA.Tokens * (7 / 10) +
        chunkA.Importance * (3 / 10) ∧
    (Search.score ["a", "b"] chunkD).Score = 41 / 100 :=
  ⟨insertionSort_contract, example_search 2,
    (Search_score_formula goLatin1 insertionSort exampleFetch "u1" exampleQuery 2
      [⟨chunkA, 9 / 10⟩, ⟨chunkC, 3 / 5⟩] ⟨chunkA, 9 / 10⟩ insertionSort_contract
      (example_search 2) (by simp)).1,
    (Search_score_formula goLatin1 insertionSort exampleFetch "u1" exampleQuery 2
      [⟨chunkA, 9 / 10⟩, ⟨chunkC, 3 / 5⟩] ⟨chunkA, 9 / 10⟩ insertionSort_contract
      (example_search 2) (by simp)).2 ["a", "b"] chunkD
      TokenOverlap_half rfl⟩

/-- C8: the list returned by `Search` is sorted by `Score` in non-increasing order. -/
theorem Search_sorted (u : Unicode)
    (sortSlice : List ScoredChunk → (ScoredChunk → ScoredChunk → Bool) → List ScoredChunk)
    (fetch : String → List String → Except String (List MemoryChunk))
    (userID query : String) (topK : Int) (res : List ScoredChunk)
    (hsort : SortSliceContract sortSlice)
    (hres : Search u sortSlice fetch userID query topK = .ok res) :
    res.Pairwise (fun a b => a.Score ≥ b.Score) := by
  rcases Search_inv u sortSlice fetch userID query topK res hsort hres with hnil | ⟨chunks, _, hr⟩
  · subst hnil; exact List.Pairwise.nil
  · subst hr
    refine List.Pairwise.imp ?_ ((hsort _).2.sublist (List.take_sublist _ _))
    intro a b hab
    simpa [Search.less] using hab

/-- C8 at the worked example: the scores returned for `topK = 0` are 0.9, 0.6, 0.3. -/
theorem Search_sorted_witness :
    SortSliceContract insertionSort ∧
    Search goLatin1 insertionSort exampleFetch "u1" exampleQuery 0 =
      .ok [⟨chunkA, 9 / 10⟩, ⟨chunkC, 3 / 5⟩, ⟨chunkB, 3 / 10⟩] ∧
    ([⟨chunkA, 9 / 10⟩, ⟨chunkC, 3 / 5⟩, ⟨chunkB, 3 / 10⟩] : List ScoredChunk).Pairwise
      (fun a b => a.Score ≥ b.Score) :=
  ⟨insertionSort_contract, example_search 0,
    Search_sorted goLatin1 insertionSort exampleFetch "u1" exampleQuery 0 _
      insertionSort_contract (example_search 0)⟩

theorem scores_sorted_unique (l : List ScoredChunk)
    (hsorted : l.Pairwise (fun a b => Search.less b a = false))
    (hperm : (l.map (fun sc => sc.Score)).Perm [9 / 10, 3 / 10, 3 / 5]) :
    l.map (fun sc => sc.Score) = [9 / 10, 3 / 5, 3 / 10] := by
  have h1 : (l.map (fun sc => sc.Score)).Sorted (fun x y : ℚ => x ≥ y) := by
    rw [List.Sorted, List.pairwise_map]
    refine List.Pairwise.imp ?_ hsorted
    intro a b hab
    simpa [Search.less] using hab
  have h2 : ([9 / 10, 3 / 5, 3 / 10] : List ℚ).Sorted (fun x y : ℚ => x ≥ y) := by
    simp [List.Sorted]
    norm_num
  have h3 : (l.map (fun sc => sc.Score)).Perm [9 / 10, 3 / 5, 3 / 10] :=
    hperm.trans ((List.Perm.swap _ _ _).cons _)
  exact List.eq_of_perm_of_sorted h3 h1 h2

/-- C9: when the fetch returns `chunks`, `Search` returns a list `res` for which some `rest`
(the candidates left out) makes `res ++ rest` a rearrangement of the scored candidates, so
every returned chunk is a fetched candidate and none is returned twice; no left-out candidate
scores strictly more than a returned one; candidate scores 0.9, 0.3, 0.6 with `topK = 2` give
0.9, 0.6. -/
theorem Search_top_scoring (u : Unicode)
    (sortSlice : List ScoredChunk → (ScoredChunk → ScoredChunk → Bool) → List ScoredChunk)
    (fetch : String → List String → Except String (List MemoryChunk))
    (userID query : String) (topK : Int) (chunks : List MemoryChunk)
    (hsort : SortSliceContract sortSlice) (hu : userID ≠ "") (hq : query ≠ "")
    (ht : Tokenize u query ≠ [])
    (hf : fetch userID (Tokenize u query) = .ok chunks) :
    ∃ res rest : List ScoredChunk,
      Search u sortSlice fetch userID query topK = .ok res ∧
      (res ++ rest).Perm (chunks.map (Search.score (Tokenize u query))) ∧
      ((res ++ rest).map (fun sc => sc.Chunk)).Perm chunks ∧
      (∀ r ∈ res, ∀ x ∈ rest, ¬ x.Score > r.Score) ∧
      (topK = 2 →
        chunks.map (fun c => (Search.score (Tokenize u query) c).Score) =
          [9 / 10, 3 / 10, 3 / 5] →
        res.map (fun sc => sc.Score) = [9 / 10, 3 / 5]) := by
  have hcontract := hsort (chunks.map (Search.score (Tokenize u query)))
  refine ⟨_, (sortSlice (chunks.map (Search.score (Tokenize u query))) Search.less).drop
      (if topK ≤ 0 then 3 else topK.toNat),
    Search_forward u sortSlice fetch userID query topK chunks hsort hu hq ht hf, ?_, ?_, ?_, ?_⟩
  · rw [List.take_append_drop]
    exact hcontract.1
  · rw [List.take_append_drop]
    have hmap := hcontract.1.map (fun sc => sc.Chunk)
    rwa [List.map_map, show ((fun sc : ScoredChunk => sc.Chunk) ∘
      Search.score (Tokenize u query)) = id from rfl, List.map_id] at hmap
  · intro r hr x hx
    have hpw := hcontract.2
    rw [← List.take_append_drop (if topK ≤ 0 then 3 else topK.toNat)
      (sortSlice (chunks.map (Search.score (Tokenize u query))) Search.less)] at hpw
    have h := (List.pairwise_append.mp hpw).2.2 r hr x hx
    simpa [Search.less] using h
  · intro hk hscores
    subst hk
    have hperm : ((sortSlice (chunks.map (Search.score (Tokenize u query))) Search.less).map
        (fun sc => sc.Score)).Perm [9 / 10, 3 / 10, 3 / 5] := by
      have := hcontract.1.map (fun sc => sc.Score)
      rwa [List.map_map, show ((fun sc : ScoredChunk => sc.Score) ∘
        Search.score (Tokenize u query)) =
          (fun c => (Search.score (Tokenize u query) c).Score) from rfl, hscores] at this
    have huniq := scores_sorted_unique _ hcontract.2 hperm
    rw [List.map_take, huniq]
    rfl

/-- C9 at the worked example: of the candidates scored 0.9, 0.3, 0.6 the search with
`topK = 2` returns those scored 0.9 and 0.6. -/
theorem Search_top_scoring_witness :
    SortSliceContract insertionSort ∧
    exampleFetch "u1" (Tokenize goLatin1 exampleQuery) = .ok [chunkA, chunkB, chunkC] ∧
    Search goLatin1 insertionSort exampleFetch "u1" exampleQuery 2 =
      .ok [⟨chunkA, 9 / 10⟩, ⟨chunkC, 3 / 5⟩] ∧
    ∃ res rest : List ScoredChunk,
      Search goLatin1 insertionSort exampleFetch "u1" exampleQuery 2 = .ok res ∧
      (res ++ rest).Perm
        ([chunkA, chunkB, chunkC].map (Search.score (Tokenize goLatin1 exampleQuery))) ∧
      ((res ++ rest).map (fun sc => sc.Chunk)).Perm [chunkA, chunkB, chunkC] ∧
      (∀ r ∈ res, ∀ x ∈ rest, ¬ x.Score > r.Score) ∧
      res.map (fun sc => sc.Score) = [9 / 10, 3 / 5] := by
  refine ⟨insertionSort_contract, rfl, example_search 2, ?_⟩
  obtain ⟨res, rest, h1, h2, hc, h3, h4⟩ :=
    Search_top_scoring goLatin1 insertionSort exampleFetch "u1" exampleQuery 2
      [chunkA, chunkB, chunkC] insertionSort_contract (by decide) (by decide)
      (by rw [exampleQuery_tokens]; simp) rfl
  refine ⟨res, rest, h1, h2, hc, h3, h4 rfl ?_⟩
  have hs := congrArg (List.map (fun sc : ScoredChunk => sc.Score)) example_scores
  rw [exampleQuery_tokens]
  simpa using hs

/-- C10: when the fetch returns `n` chunks, `Search` returns exactly `min n topK` results for
`topK > 0` and exactly `min n 3` results for `topK ≤ 0`. -/
theorem Search_result_count (u : Unicode)
    (sortSlice : List ScoredChunk → (ScoredChunk → ScoredChunk → Bool) → List ScoredChunk)
    (fetch : String → List String → Except String (List MemoryChunk))
    (userID query : String) (topK : Int) (chunks : List MemoryChunk)
    (hsort : SortSliceContract sortSlice) (hu : userID ≠ "") (hq : query ≠ "")
    (ht : Tokenize u query ≠ [])
    (hf : fetch userID (Tokenize u query) = .ok chunks) :
    ∃ res : List ScoredChunk,
      Search u sortSlice fetch userID query topK = .ok res ∧
      (res.length : Int) = min (chunks.length : Int) (if topK ≤ 0 then 3 else topK) := by
  refine ⟨_, Search_forward u sortSlice fetch userID query topK chunks hsort hu hq ht hf, ?_⟩
  have hlen : (sortSlice (chunks.map (Search.score (Tokenize u query))) Search.less).length =
      chunks.length := by
    rw [(hsort _).1.length_eq, List.length_map]
  by_cases hk : topK ≤ 0
  · simp only [hk, if_true, List.length_take, hlen]
    omega
  · simp only [hk, if_false, List.length_take, hlen]
    omega

/-- C10 at the worked example: three candidates give 2 results for `topK = 2`, and all 3 for
`topK = -1`. -/
theorem Search_result_count_witness :
    SortSliceContract insertionSort ∧
    exampleFetch "u1" (Tokenize goLatin1 exampleQuery) = .ok [chunkA, chunkB, chunkC] ∧
    (∃ res : List ScoredChunk,
      Search goLatin1 insertionSort exampleFetch "u1" exampleQuery 2 = .ok res ∧
      (res.length : Int) = 2) ∧
    (∃ res : List ScoredChunk,
      Search goLatin1 insertionSort exampleFetch "u1" exampleQuery (-1) = .ok res ∧
      (res.length : Int) = 3) :=
  ⟨insertionSort_contract, rfl,
    Search_result_count goLatin1 insertionSort exampleFetch "u1" exampleQuery 2
      [chunkA, chunkB, chunkC] insertionSort_contract (by decide) (by decide)
      (by rw [exampleQuery_tokens]; simp) rfl,
    Search_result_count goLatin1 insertionSort exampleFetch "u1" exampleQuery (-1)
      [chunkA, chunkB, chunkC] insertionSort_contract (by decide) (by decide)
      (by rw [exampleQuery_tokens]; simp) rfl⟩

/-! ## Ties in the ranking -/

/-- When the fetch returns at least one chunk, `Search` returns what the sort returns, cut to
`topK`; nothing is assumed of the sort. -/
theorem Search_forward_of_ne (u : Unicode)
    (sortSlice : List ScoredChunk → (ScoredChunk → ScoredChunk → Bool) → List ScoredChunk)
    (fetch : String → List String → Except String (List MemoryChunk))
    (userID query : String) (topK : Int) (chunks : List MemoryChunk)
    (hu : userID ≠ "") (hq : query ≠ "") (ht : Tokenize u query ≠ [])
    (hf : fetch userID (Tokenize u query) = .ok chunks) (hc : chunks ≠ []) :
    Search u sortSlice fetch userID query topK =
      .ok ((sortSlice (chunks.map (Search.score (Tokenize u query))) Search.less).take
        (if topK ≤ 0 then 3 else topK.toNat)) := by
  have ht2 : (Tokenize u query).length ≠ 0 := by
    intro h; exact ht (List.length_eq_zero.mp h)
  have hc2 : chunks.length ≠ 0 := by
    intro h; exact hc (List.length_eq_zero.mp h)
  unfold Search
  simp only [hu, hq, or_self, if_false, ht2, hf, hc2]
  by_cases hk : topK ≤ 0
  · simp only [hk, if_true]
    split
    · rfl
    · rename_i hlen
      rw [List.take_of_length_le]
      have : ((sortSlice (chunks.map (Search.score (Tokenize u query))) Search.less).length
        : Int) ≤ 3 := by omega
      omega
  · simp only [hk, if_false]
    split
    · rfl
    · rename_i hlen
      rw [List.take_of_length_le]
      omega

theorem Search_inv_of_fetch (u : Unicode)
    (sortSlice : List ScoredChunk → (ScoredChunk → ScoredChunk → Bool) → List ScoredChunk)
    (fetch : String → List String → Except String (List MemoryChunk))
    (userID query : String) (topK : Int) (res : List ScoredChunk)
    (hres : Search u sortSlice fetch userID query topK = .ok res) :
    res = [] ∨ ∃ chunks, chunks ≠ [] ∧ userID ≠ "" ∧ query ≠ "" ∧ Tokenize u query ≠ [] ∧
      fetch userID (Tokenize u query) = .ok chunks ∧
      res = (sortSlice (chunks.map (Search.score (Tokenize u query))) Search.less).take
        (if topK ≤ 0 then 3 else topK.toNat) := by
  by_cases hu : userID = ""
  · simp [Search, hu] at hres
  by_cases hq : query = ""
  · simp [Search, hq] at hres
  by_cases ht : Tokenize u query = []
  · left
    simp [Search, hu, hq, ht] at hres
    exact hres
  have ht2 : (Tokenize u query).length ≠ 0 := by
    intro h; exact ht (List.length_eq_zero.mp h)
  cases hf : fetch userID (Tokenize u query) with
  | error err =>
    unfold Search at hres
    simp only [hu, hq, or_self, if_false, ht2, hf] at hres
    cases hres
  | ok chunks =>
    by_cases hc : chunks = []
    · left
      subst hc
      unfold Search at hres
      simp only [hu, hq, or_self, if_false, ht2, hf, List.length_nil, if_true] at hres
      exact (Except.ok.inj hres).symm
    · right
      refine ⟨chunks, hc, hu, hq, ht, rfl, ?_⟩
      rw [Search_forward_of_ne u sortSlice fetch userID query topK chunks hu hq ht hf hc] at hres
      exact (Except.ok.inj hres).symm

theorem sink_filter_score (s : ℚ) (x : ScoredChunk) (l : List ScoredChunk) :
    (insertionSort.sink Search.less x l).filter (fun sc => decide (sc.Score = s)) =
      (x :: l).filter (fun sc => decide (sc.Score = s)) := by
  induction l with
  | nil => simp [insertionSort.sink]
  | cons y ys ih =>
    rw [insertionSort.sink]
    split
    · rename_i hxy
      have hne : x.Score ≠ y.Score := by
        simp only [Search.less, decide_eq_true_eq] at hxy
        exact ne_of_gt hxy
      rw [List.filter_cons, ih]
      by_cases hy : y.Score = s
      · have hx : x.Score ≠ s := fun h => hne (h.trans hy.symm)
        simp [List.filter_cons, hy, hx]
      · simp [List.filter_cons, hy]
    · rfl

theorem foldl_sink_filter_score (s : ℚ) (data : List ScoredChunk) :
    ∀ acc : List ScoredChunk,
      (data.foldl (fun acc x => insertionSort.sink Search.less x acc) acc).filter
          (fun sc => decide (sc.Score = s)) =
        (data.reverse ++ acc).filter (fun sc => decide (sc.Score = s)) := by
  induction data with
  | nil => intro acc; simp
  | cons x rest ih =>
    intro acc
    rw [List.foldl_cons, ih, List.filter_append, sink_filter_score, List.reverse_cons,
      List.append_assoc, List.filter_append]
    rfl

theorem insertionSort_filter_score (s : ℚ) (data : List ScoredChunk) :
    (insertionSort data Search.less).filter (fun sc => decide (sc.Score = s)) =
      data.filter (fun sc => decide (sc.Score = s)) := by
  unfold insertionSort
  rw [List.filter_reverse, foldl_sink_filter_score, List.append_nil, List.filter_reverse,
    List.reverse_reverse]

theorem pdqsort_func_short {α : Type} (rest : List α → (α → α → Bool) → List α)
    (data : List α) (less : α → α → Bool) (h : data.length ≤ 12) :
    pdqsort_func rest data less = insertionSort data less := by
  simp [pdqsort_func, h]

theorem alreadyOrdered_of_pairwise {α : Type} (less : α → α → Bool) (l : List α)
    (h : l.Pairwise (fun a b => less b a = false)) : alreadyOrdered less l = true := by
  induction l with
  | nil => rfl
  | cons a t ih =>
    cases t with
    | nil => rfl
    | cons b t2 =>
      rw [List.pairwise_cons] at h
      simp only [alreadyOrdered, Bool.and_eq_true, Bool.not_eq_true']
      exact ⟨h.1 b (List.mem_cons_self _ _), ih h.2⟩

theorem hiking_tokens : Tokenize goLatin1 "hiking" = ["hiking"] := by decide

theorem overlap_hiking : TokenOverlap ["hiking"] ["hiking"] = 1 := by
  rw [TokenOverlap_eq]; simp

theorem fifty_scored :
    fiftyCandidates.map (Search.score ["hiking"]) =
      (List.range 48).map (fun i => (⟨risingChunk i, 7 / 10 + (i : ℚ) / 100 * (3 / 10)⟩ :
        ScoredChunk)) ++ [⟨tiedChunkA, 17 / 20⟩, ⟨tiedChunkB, 17 / 20⟩] := by
  simp only [fiftyCandidates, List.map_append, List.map_map, List.map_cons, List.map_nil]
  congr 1
  · apply List.map_congr_left
    intro i _
    simp [Search.score, risingChunk, overlap_hiking]
  · simp only [Search.score, tiedChunkA, tiedChunkB, overlap_hiking]
    norm_num

theorem fifty_getElem (i : Nat) (h : i < 48) :
    (fiftyCandidates.map (Search.score ["hiking"]))[i]? =
      some ⟨risingChunk i, 7 / 10 + (i : ℚ) / 100 * (3 / 10)⟩ := by
  rw [fifty_scored, List.getElem?_append_left (by simpa using h)]
  simp [List.getElem?_map, List.getElem?_range h]

theorem fifty_lessAt (i j : Nat) (hi : i < 48) (hj : j < 48) :
    lessAt (fiftyCandidates.map (Search.score ["hiking"])) Search.less i j = decide (j < i) := by
  simp only [lessAt, fifty_getElem i hi, fifty_getElem j hj, Search.less]
  congr 1
  apply propext
  constructor
  · intro h
    have h2 : (j : ℚ) < (i : ℚ) := by linarith
    exact_mod_cast h2
  · intro h
    have h2 : (j : ℚ) < (i : ℚ) := by exact_mod_cast h
    show (7 / 10 + (i : ℚ) / 100 * (3 / 10)) > (7 / 10 + (j : ℚ) / 100 * (3 / 10))
    linarith

theorem fifty_order2 (a b swaps : Nat) (ha : a < 48) (hb : b < 48) :
    order2_func (fiftyCandidates.map (Search.score ["hiking"])) Search.less a b swaps =
      if a < b then (b, a, swaps + 1) else (a, b, swaps) := by
  simp [order2_func, fifty_lessAt b a hb ha]

theorem fifty_median (a b c swaps : Nat) (ha : a < 48) (hb : b < 48) (hc : c < 48)
    (hab : a < b) (hbc : b < c) :
    median_func (fiftyCandidates.map (Search.score ["hiking"])) Search.less a b c swaps =
      (b, swaps + 3) := by
  have hac : a < c := by omega
  simp only [median_func, fifty_order2 a b swaps ha hb, hab, if_true,
    fifty_order2 a c (swaps + 1) ha hc, hac, fifty_order2 b c (swaps + 1 + 1) hb hc, hbc]

theorem fifty_hint :
    (choosePivot_func (fiftyCandidates.map (Search.score ["hiking"])) Search.less).2 =
      sortedHint.decreasingHint := by
  have hlen : (fiftyCandidates.map (Search.score ["hiking"])).length = 50 := by
    simp [fiftyCandidates]
  have h1 := fifty_median 11 12 13 0 (by omega) (by omega) (by omega) (by omega) (by omega)
  have h2 := fifty_median 23 24 25 3 (by omega) (by omega) (by omega) (by omega) (by omega)
  have h3 := fifty_median 35 36 37 6 (by omega) (by omega) (by omega) (by omega) (by omega)
  have h4 := fifty_median 12 24 36 9 (by omega) (by omega) (by omega) (by omega) (by omega)
  simp only [choosePivot_func, medianAdjacent_func, hlen]
  norm_num [h1, h2, h3, h4]

theorem fifty_rising :
    (fiftyCandidates.map (Search.score ["hiking"])).Pairwise
      (fun a b => Search.less a b = false) := by
  rw [fifty_scored, List.pairwise_append]
  refine ⟨?_, ?_, ?_⟩
  · rw [List.pairwise_map]
    refine List.Pairwise.imp ?_ (List.pairwise_lt_range 48)
    intro i j hij
    have h2 : (i : ℚ) < (j : ℚ) := by exact_mod_cast hij
    simp only [Search.less, decide_eq_false_iff_not, not_lt, ge_iff_le, gt_iff_lt]
    linarith
  · simp [Search.less]
  · intro a ha b hb
    obtain ⟨i, hi, rfl⟩ := List.mem_map.mp ha
    have hi48 : i < 48 := List.mem_range.mp hi
    have h2 : (i : ℚ) < 48 := by exact_mod_cast hi48
    have hb2 : b.Score = 17 / 20 := by
      rcases List.mem_cons.mp hb with h | h
      · rw [h]
      · rw [List.mem_singleton.mp h]
    simp only [Search.less, decide_eq_false_iff_not, not_lt, ge_iff_le, gt_iff_lt, hb2]
    linarith

theorem fifty_sorted (rest : List ScoredChunk → (ScoredChunk → ScoredChunk → Bool) →
    List ScoredChunk) :
    pdqsort_func rest (fiftyCandidates.map (Search.score ["hiking"])) Search.less =
      (fiftyCandidates.map (Search.score ["hiking"])).reverse := by
  have hlen : ¬ (fiftyCandidates.map (Search.score ["hiking"])).length ≤ 12 := by
    simp [fiftyCandidates]
  have hord : alreadyOrdered Search.less
      (fiftyCandidates.map (Search.score ["hiking"])).reverse = true := by
    apply alreadyOrdered_of_pairwise
    rw [List.pairwise_reverse]
    exact fifty_rising
  rw [pdqsort_func, if_neg hlen]
  simp [fifty_hint, hord]

theorem fifty_search (rest : List ScoredChunk → (ScoredChunk → ScoredChunk → Bool) →
    List ScoredChunk) :
    Search goLatin1 (pdqsort_func rest) fiftyFetch "u1" "hiking" 2 =
      .ok [⟨tiedChunkB, 17 / 20⟩, ⟨tiedChunkA, 17 / 20⟩] := by
  rw [Search_forward_of_ne goLatin1 (pdqsort_func rest) fiftyFetch "u1" "hiking" 2
    fiftyCandidates (by decide) (by decide) (by rw [hiking_tokens]; simp) rfl
    (by simp [fiftyCandidates])]
  rw [hiking_tokens, fifty_sorted, fifty_scored]
  simp

theorem fifty_ties :
    (fiftyCandidates.map (Search.score ["hiking"])).filter
        (fun sc => decide (sc.Score = 17 / 20)) =
      [⟨tiedChunkA, 17 / 20⟩, ⟨tiedChunkB, 17 / 20⟩] := by
  rw [fifty_scored, List.filter_append]
  have hlow : ((List.range 48).map (fun i => (⟨risingChunk i, 7 / 10 + (i : ℚ) / 100 * (3 / 10)⟩ :
      ScoredChunk))).filter (fun sc => decide (sc.Score = 17 / 20)) = [] := by
    rw [List.filter_eq_nil_iff]
    intro a ha
    obtain ⟨i, hi, rfl⟩ := List.mem_map.mp ha
    have hi48 : i < 48 := List.mem_range.mp hi
    have h2 : (i : ℚ) < 48 := by exact_mod_cast hi48
    simp only [decide_eq_true_eq]
    intro h
    linarith
  rw [hlow]
  simp

/-- C11, at fifty candidates fetched in order of rising score, the last two with the same
score: `sort.Slice` takes the slice for a decreasing one, reverses it and finds it ordered, so
`Search` with `topK = 2` returns the two tied chunks in the order opposite to the fetch. -/
theorem Search_ties_reordered :
    (∀ rest : List ScoredChunk → (ScoredChunk → ScoredChunk → Bool) → List ScoredChunk,
      Search goLatin1 (pdqsort_func rest) fiftyFetch "u1" "hiking" 2 =
        .ok [⟨tiedChunkB, 17 / 20⟩, ⟨tiedChunkA, 17 / 20⟩]) ∧
    fiftyFetch "u1" (Tokenize goLatin1 "hiking") = .ok fiftyCandidates ∧
    ¬ KeepsFetchOrder (fiftyCandidates.map (Search.score (Tokenize goLatin1 "hiking")))
      [⟨tiedChunkB, 17 / 20⟩, ⟨tiedChunkA, 17 / 20⟩] := by
  refine ⟨fifty_search, rfl, ?_⟩
  intro h
  have h2 := h (17 / 20)
  rw [hiking_tokens, fifty_ties] at h2
  have h3 : ([⟨tiedChunkB, 17 / 20⟩, ⟨tiedChunkA, 17 / 20⟩] : List ScoredChunk).filter
      (fun sc => decide (sc.Score = 17 / 20)) =
      [⟨tiedChunkB, 17 / 20⟩, ⟨tiedChunkA, 17 / 20⟩] := by simp
  rw [h3] at h2
  have h4 := h2.eq_of_length rfl
  have h5 : tiedChunkB.CreatedAt = tiedChunkA.CreatedAt := by
    have := (List.cons.inj h4).1
    exact congrArg (fun sc : ScoredChunk => sc.Chunk.CreatedAt) this
  simp [tiedChunkA, tiedChunkB] at h5

/-- C11 as amended: when the fetch returns at most 12 candidates, the chunks returned by
`Search` that have the same score are in the order in which the fetch returned them. -/
theorem Search_stable_short (u : Unicode)
    (rest : List ScoredChunk → (ScoredChunk → ScoredChunk → Bool) → List ScoredChunk)
    (fetch : String → List String → Except String (List MemoryChunk))
    (userID query : String) (topK : Int) (chunks : List MemoryChunk) (res : List ScoredChunk)
    (hf : fetch userID (Tokenize u query) = .ok chunks) (hlen : chunks.length ≤ 12)
    (hres : Search u (pdqsort_func rest) fetch userID query topK = .ok res) :
    KeepsFetchOrder (chunks.map (Search.score (Tokenize u query))) res := by
  intro s
  rcases Search_inv_of_fetch u (pdqsort_func rest) fetch userID query topK res hres with
    hnil | ⟨chunks2, _, _, _, _, hf2, hr⟩
  · subst hnil
    simp
  · rw [hf] at hf2
    have hc : chunks = chunks2 := Except.ok.inj hf2
    subst hc
    subst hr
    rw [pdqsort_func_short rest _ _ (by simpa using hlen)]
    have h1 := (List.take_sublist (if topK ≤ 0 then 3 else topK.toNat)
      (insertionSort (chunks.map (Search.score (Tokenize u query))) Search.less)).filter
      (fun sc => decide (sc.Score = s))
    rwa [insertionSort_filter_score] at h1

theorem tied_search (rest : List ScoredChunk → (ScoredChunk → ScoredChunk → Bool) →
    List ScoredChunk) :
    Search goLatin1 (pdqsort_func rest) (fun _ _ => .ok [tiedChunkA, tiedChunkB, chunkD])
        "u1" "hiking" 2 =
      .ok [⟨tiedChunkA, 17 / 20⟩, ⟨tiedChunkB, 17 / 20⟩] := by
  rw [Search_forward_of_ne goLatin1 (pdqsort_func rest) _ "u1" "hiking" 2
    [tiedChunkA, tiedChunkB, chunkD] (by decide) (by decide) (by rw [hiking_tokens]; simp) rfl
    (by simp)]
  rw [hiking_tokens, pdqsort_func_short rest _ _ (by simp)]
  have hs : [tiedChunkA, tiedChunkB, chunkD].map (Search.score ["hiking"]) =
      [⟨tiedChunkA, 17 / 20⟩, ⟨tiedChunkB, 17 / 20⟩, ⟨chunkD, 3 / 50⟩] := by
    simp [Search.score, TokenOverlap_eq, tiedChunkA, tiedChunkB, chunkD]
    norm_num
  rw [hs]
  norm_num [insertionSort, sink_nil, sink_cons, Search.less]
  rfl

/-- C11 as amended, at three candidates of which the first two tie: they are returned in
fetch order. -/
theorem Search_stable_short_witness :
    [tiedChunkA, tiedChunkB, chunkD].length ≤ 12 ∧
    Search goLatin1 (pdqsort_func insertionSort)
        (fun _ _ => .ok [tiedChunkA, tiedChunkB, chunkD]) "u1" "hiking" 2 =
      .ok [⟨tiedChunkA, 17 / 20⟩, ⟨tiedChunkB, 17 / 20⟩] ∧
    KeepsFetchOrder
      ([tiedChunkA, tiedChunkB, chunkD].map (Search.score (Tokenize goLatin1 "hiking")))
      [⟨tiedChunkA, 17 / 20⟩, ⟨tiedChunkB, 17 / 20⟩] :=
  ⟨by decide, tied_search insertionSort,
    Search_stable_short goLatin1 insertionSort (fun _ _ => .ok [tiedChunkA, tiedChunkB, chunkD])
      "u1" "hiking" 2 [tiedChunkA, tiedChunkB, chunkD] _ rfl (by decide)
      (tied_search insertionSort)⟩

/-! ## `IdentityService`: versions and immutability -/

theorem wrapInt_of_range (x : Int) (h1 : -(2 ^ 63) ≤ x) (h2 : x < 2 ^ 63) : wrapInt x = x := by
  unfold wrapInt
  omega

theorem upsert_find_self (f : IdentityFact) (l : List IdentityFact) :
    (MongoStorage.upsert f l).find? (fun d => decide (d.UserID = f.UserID ∧ d.Key = f.Key)) =
      some f := by
  induction l with
  | nil => simp [MongoStorage.upsert]
  | cons d rest ih =>
    rw [MongoStorage.upsert]
    split
    · simp
    · rename_i hd
      rw [List.find?_cons_of_neg _ (by simpa using hd)]
      exact ih

theorem upsert_find_other (f : IdentityFact) (userID key : String)
    (hne : ¬ (f.UserID = userID ∧ f.Key = key)) (l : List IdentityFact) :
    (MongoStorage.upsert f l).find? (fun d => decide (d.UserID = userID ∧ d.Key = key)) =
      l.find? (fun d => decide (d.UserID = userID ∧ d.Key = key)) := by
  induction l with
  | nil => simp [MongoStorage.upsert, hne]
  | cons d rest ih =>
    rw [MongoStorage.upsert]
    split
    · rename_i hd
      have hd2 : ¬ (d.UserID = userID ∧ d.Key = key) := by
        intro h; exact hne ⟨hd.1 ▸ h.1, hd.2 ▸ h.2⟩
      rw [List.find?_cons_of_neg _ (by simpa using hne),
        List.find?_cons_of_neg _ (by simpa using hd2)]
    · by_cases hd2 : d.UserID = userID ∧ d.Key = key
      · rw [List.find?_cons_of_pos _ (by simpa using hd2),
          List.find?_cons_of_pos _ (by simpa using hd2)]
      · rw [List.find?_cons_of_neg _ (by simpa using hd2),
          List.find?_cons_of_neg _ (by simpa using hd2)]
        exact ih

theorem find?_filter_of_imp {α : Type} (p q : α → Bool) (l : List α)
    (h : ∀ d, p d = true → q d = true) : (l.filter q).find? p = l.find? p := by
  induction l with
  | nil => rfl
  | cons d rest ih =>
    by_cases hq : q d = true
    · rw [List.filter_cons_of_pos hq]
      by_cases hp : p d = true
      · rw [List.find?_cons_of_pos _ hp, List.find?_cons_of_pos _ hp]
      · rw [List.find?_cons_of_neg _ hp, List.find?_cons_of_neg _ hp, ih]
    · rw [List.filter_cons_of_neg hq]
      have hp : ¬ p d = true := fun hp => hq (h d hp)
      rw [List.find?_cons_of_neg _ hp, ih]

theorem putItem_find_other_gen {α κ : Type} [DecidableEq κ] (key : α → κ) (item : α)
    (p : α → Bool) (l : List α) (hp : p item = false)
    (hkey : ∀ d, p d = true → key d ≠ key item) :
    (DynamoStorage.putItem key item l).find? p = l.find? p := by
  unfold DynamoStorage.putItem
  rw [List.find?_append, find?_filter_of_imp p _ l (by
    intro d hd
    simpa using hkey d hd)]
  simp [hp]

theorem putItem_find_self_gen {α κ : Type} [DecidableEq κ] (key : α → κ) (item : α)
    (p : α → Bool) (l : List α) (hp : p item = true)
    (hkey : ∀ d, p d = true → key d = key item) :
    (DynamoStorage.putItem key item l).find? p = some item := by
  unfold DynamoStorage.putItem
  rw [List.find?_append]
  have hnone : (l.filter (fun old => decide (key old ≠ key item))).find? p = none := by
    rw [List.find?_eq_none]
    intro d hd hpd
    have h1 := (List.mem_filter.mp hd).2
    simp only [decide_eq_true_eq] at h1
    exact h1 (hkey d hpd)
  rw [hnone]
  simp [hp]

theorem putItem_find_self (f : IdentityFact) (l : List IdentityFact) :
    (DynamoStorage.putItem (fun d : IdentityFact => (d.UserID, d.Key)) f l).find?
        (fun d => decide (d.UserID = f.UserID ∧ d.Key = f.Key)) = some f := by
  apply putItem_find_self_gen
  · simp
  · intro d hd
    simp only [decide_eq_true_eq] at hd
    simp [hd.1, hd.2]

theorem putItem_find_other (f : IdentityFact) (userID key : String)
    (hne : ¬ (f.UserID = userID ∧ f.Key = key)) (l : List IdentityFact) :
    (DynamoStorage.putItem (fun d : IdentityFact => (d.UserID, d.Key)) f l).find?
        (fun d => decide (d.UserID = userID ∧ d.Key = key)) =
      l.find? (fun d => decide (d.UserID = userID ∧ d.Key = key)) := by
  apply putItem_find_other_gen
  · simpa using hne
  · intro d hd
    simp only [decide_eq_true_eq] at hd
    intro h
    simp only [Prod.mk.injEq] at h
    exact hne ⟨h.1 ▸ hd.1, h.2 ▸ hd.2⟩

theorem Set_absent {σ : Type} (store : Storage σ) (s s1 : σ) (fact : IdentityFact)
    (hu : fact.UserID ≠ "") (hk : fact.Key ≠ "")
    (hget : store.GetIdentity s fact.UserID fact.Key = (.ok none, s1)) :
    IdentityService.Set store s fact = store.SetIdentity s1 { fact with Version := 1 } := by
  simp [IdentityService.Set, hu, hk, hget]

theorem Set_present {σ : Type} (store : Storage σ) (s s1 : σ) (fact e : IdentityFact)
    (hu : fact.UserID ≠ "") (hk : fact.Key ≠ "")
    (hget : store.GetIdentity s fact.UserID fact.Key = (.ok (some e), s1))
    (himm : e.Immutable = false) :
    IdentityService.Set store s fact =
      store.SetIdentity s1 { fact with Version := wrapInt (e.Version + 1) } := by
  simp [IdentityService.Set, hu, hk, hget, himm]

theorem Set_immutable {σ : Type} (store : Storage σ) (s s1 : σ) (fact e : IdentityFact)
    (hu : fact.UserID ≠ "") (hk : fact.Key ≠ "")
    (hget : store.GetIdentity s fact.UserID fact.Key = (.ok (some e), s1))
    (himm : e.Immutable = true) :
    IdentityService.Set store s fact =
      (some ("identity key " ++ fact.Key.quote ++ " is immutable and cannot be updated"),
        s1) := by
  simp [IdentityService.Set, hu, hk, hget, himm]

/-- The store that `IdentityService.Set` leaves behind: the given one, the one left by the
read, or the one left by `SetIdentity` of a fact with the same user and key, the latter only
when the read found no immutable fact. -/
theorem Set_state_cases {σ : Type} (store : Storage σ) (s : σ) (fact : IdentityFact) :
    (IdentityService.Set store s fact).2 = s ∨
    (IdentityService.Set store s fact).2 = (store.GetIdentity s fact.UserID fact.Key).2 ∨
    ∃ (existing : Option IdentityFact) (v : Int),
      (store.GetIdentity s fact.UserID fact.Key).1 = .ok existing ∧
      (∀ e, existing = some e → e.Immutable = false) ∧
      (IdentityService.Set store s fact).2 =
        (store.SetIdentity (store.GetIdentity s fact.UserID fact.Key).2
          { fact with Version := v }).2 := by
  by_cases hv : fact.UserID = "" ∨ fact.Key = ""
  · left
    simp [IdentityService.Set, hv]
  · right
    rcases hget : store.GetIdentity s fact.UserID fact.Key with ⟨r, s1⟩
    cases r with
    | error err =>
      left
      simp [IdentityService.Set, hv, hget]
    | ok existing =>
      cases existing with
      | none =>
        right
        exact ⟨none, 1, rfl, by simp, by simp [IdentityService.Set, hv, hget]⟩
      | some e =>
        by_cases himm : e.Immutable = true
        · left
          simp [IdentityService.Set, hv, hget, himm]
        · right
          refine ⟨some e, wrapInt (e.Version + 1), rfl, ?_, ?_⟩
          · intro e2 he2
            cases he2
            simpa using himm
          · simp [IdentityService.Set, hv, hget, himm]

theorem mongo_GetIdentity_noFaults (s : MongoState) (userID key : String) :
    (mongoStorage noFaults).GetIdentity s userID key =
      (.ok (s.identity_core.find? (fun d => decide (d.UserID = userID ∧ d.Key = key))), s) := by
  rfl

theorem dynamo_GetIdentity_noFaults (s : DynamoState) (userID key : String) :
    ((dynamoStorage noFaults).GetIdentity s userID key) =
      (.ok (s.IdentityCore.find? (fun d => decide (d.UserID = userID ∧ d.Key = key))), s) := by
  show DynamoStorage.GetIdentity noFaults s userID key = _
  unfold DynamoStorage.GetIdentity
  simp only [noFaults]
  cases hfind : s.IdentityCore.find? (fun d => decide (d.UserID = userID ∧ d.Key = key)) with
  | none => rfl
  | some fact =>
    have hp := List.find?_some hfind
    simp only [decide_eq_true_eq] at hp
    show (Except.ok (some { fact with UserID := userID, Key := key }), s) = _
    rw [← hp.1, ← hp.2]

theorem mongo_Set_keeps_immutable (env : Faults) (s : MongoState) (fact e : IdentityFact)
    (userID key : String)
    (hfind : s.identity_core.find? (fun d => decide (d.UserID = userID ∧ d.Key = key)) = some e)
    (himm : e.Immutable = true) :
    (IdentityService.Set (mongoStorage env) s fact).2.identity_core.find?
      (fun d => decide (d.UserID = userID ∧ d.Key = key)) = some e := by
  have hread : ∀ u k, ((mongoStorage env).GetIdentity s u k).2 = s := by
    intro u k
    show (MongoStorage.GetIdentity env s u k).2 = s
    unfold MongoStorage.GetIdentity
    cases env.GetIdentity <;> rfl
  rcases Set_state_cases (mongoStorage env) s fact with h | h | ⟨existing, v, hex, hnot, h⟩
  · rw [h]; exact hfind
  · rw [h, hread]; exact hfind
  · rw [h, hread]
    show (MongoStorage.SetIdentity env s { fact with Version := v }).2.identity_core.find? _ = _
    unfold MongoStorage.SetIdentity
    cases hset : env.SetIdentity with
    | some err => exact hfind
    | none =>
      show (MongoStorage.upsert _ s.identity_core).find? _ = _
      rw [upsert_find_other _ userID key _ s.identity_core]
      · exact hfind
      · intro hsame
        have hu : fact.UserID = userID := hsame.1
        have hk : fact.Key = key := hsame.2
        have hex2 : ((mongoStorage env).GetIdentity s fact.UserID fact.Key).1 =
            .ok existing := hex
        have hex3 : (MongoStorage.GetIdentity env s fact.UserID fact.Key).1 = .ok existing :=
          hex2
        unfold MongoStorage.GetIdentity at hex3
        cases hget : env.GetIdentity with
        | some err => simp [hget] at hex3
        | none =>
          simp only [hget] at hex3
          have hex4 := Except.ok.inj hex3
          rw [hu, hk, hfind] at hex4
          have := hnot e hex4.symm
          rw [himm] at this
          cases this

theorem dynamo_GetIdentity_found (env : Faults) (s : DynamoState) (userID key : String)
    (existing : Option IdentityFact)
    (h : (DynamoStorage.GetIdentity env s userID key).1 = .ok existing) :
    existing = s.IdentityCore.find? (fun d => decide (d.UserID = userID ∧ d.Key = key)) := by
  unfold DynamoStorage.GetIdentity at h
  cases hget : env.GetIdentity with
  | some err => simp [hget] at h
  | none =>
    simp only [hget] at h
    cases hfind : s.IdentityCore.find? (fun d => decide (d.UserID = userID ∧ d.Key = key)) with
    | none =>
      simp only [hfind] at h
      exact (Except.ok.inj h).symm
    | some fact =>
      simp only [hfind] at h
      have hp := List.find?_some hfind
      simp only [decide_eq_true_eq] at hp
      have h2 := (Except.ok.inj h).symm
      rw [h2]
      congr 1
      rw [← hp.1, ← hp.2]

theorem dynamo_Set_keeps_immutable (env : Faults) (s : DynamoState) (fact e : IdentityFact)
    (userID key : String)
    (hfind : s.IdentityCore.find? (fun d => decide (d.UserID = userID ∧ d.Key = key)) = some e)
    (himm : e.Immutable = true) :
    (IdentityService.Set (dynamoStorage env) s fact).2.IdentityCore.find?
      (fun d => decide (d.UserID = userID ∧ d.Key = key)) = some e := by
  have hread : ∀ u k, ((dynamoStorage env).GetIdentity s u k).2 = s := by
    intro u k
    show (DynamoStorage.GetIdentity env s u k).2 = s
    unfold DynamoStorage.GetIdentity
    cases env.GetIdentity with
    | some err => rfl
    | none =>
      simp only
      cases s.IdentityCore.find? (fun d => decide (d.UserID = u ∧ d.Key = k)) <;> rfl
  rcases Set_state_cases (dynamoStorage env) s fact with h | h | ⟨existing, v, hex, hnot, h⟩
  · rw [h]; exact hfind
  · rw [h, hread]; exact hfind
  · rw [h, hread]
    show (DynamoStorage.SetIdentity env s { fact with Version := v }).2.IdentityCore.find? _ = _
    unfold DynamoStorage.SetIdentity
    cases hset : env.SetIdentity with
    | some err => exact hfind
    | none =>
      show (DynamoStorage.putItem _ _ s.IdentityCore).find? _ = _
      rw [putItem_find_other _ userID key _ s.IdentityCore]
      · exact hfind
      · intro hsame
        have hu : fact.UserID = userID := hsame.1
        have hk : fact.Key = key := hsame.2
        have hex2 := dynamo_GetIdentity_found env s fact.UserID fact.Key existing hex
        rw [hu, hk, hfind] at hex2
        have := hnot e hex2
        rw [himm] at this
        cases this

theorem mongo_runSets_keeps_immutable (calls : List (Faults × IdentityFact)) :
    ∀ (s : MongoState) (e : IdentityFact) (userID key : String),
      s.identity_core.find? (fun d => decide (d.UserID = userID ∧ d.Key = key)) = some e →
      e.Immutable = true →
      (runSets mongoStorage s calls).identity_core.find?
        (fun d => decide (d.UserID = userID ∧ d.Key = key)) = some e := by
  induction calls with
  | nil => intro s e userID key hfind _; exact hfind
  | cons c rest ih =>
    intro s e userID key hfind himm
    rw [runSets]
    exact ih _ e userID key (mongo_Set_keeps_immutable c.1 s c.2 e userID key hfind himm) himm

theorem dynamo_runSets_keeps_immutable (calls : List (Faults × IdentityFact)) :
    ∀ (s : DynamoState) (e : IdentityFact) (userID key : String),
      s.IdentityCore.find? (fun d => decide (d.UserID = userID ∧ d.Key = key)) = some e →
      e.Immutable = true →
      (runSets dynamoStorage s calls).IdentityCore.find?
        (fun d => decide (d.UserID = userID ∧ d.Key = key)) = some e := by
  induction calls with
  | nil => intro s e userID key hfind _; exact hfind
  | cons c rest ih =>
    intro s e userID key hfind himm
    rw [runSets]
    exact ih _ e userID key (dynamo_Set_keeps_immutable c.1 s c.2 e userID key hfind himm) himm

theorem mongo_Set_stores (s : MongoState) (fact : IdentityFact) (v : Int)
    (h : IdentityService.Set (mongoStorage noFaults) s fact =
      (mongoStorage noFaults).SetIdentity s { fact with Version := v }) :
    (IdentityService.Set (mongoStorage noFaults) s fact).1 = none ∧
    (mongoStorage noFaults).GetIdentity (IdentityService.Set (mongoStorage noFaults) s fact).2
        fact.UserID fact.Key =
      (.ok (some { fact with Version := v, UpdatedAt := bsonDateTime fact.UpdatedAt }),
        (IdentityService.Set (mongoStorage noFaults) s fact).2) := by
  rw [h, mongo_GetIdentity_noFaults]
  refine ⟨rfl, ?_⟩
  show (Except.ok ((MongoStorage.upsert _ s.identity_core).find? _), _) = _
  have := upsert_find_self
    { fact with Version := v, UpdatedAt := bsonDateTime fact.UpdatedAt } s.identity_core
  simp only at this
  rw [this]

theorem dynamo_Set_stores (s : DynamoState) (fact : IdentityFact) (v : Int)
    (h : IdentityService.Set (dynamoStorage noFaults) s fact =
      (dynamoStorage noFaults).SetIdentity s { fact with Version := v }) :
    (IdentityService.Set (dynamoStorage noFaults) s fact).1 = none ∧
    (dynamoStorage noFaults).GetIdentity (IdentityService.Set (dynamoStorage noFaults) s fact).2
        fact.UserID fact.Key =
      (.ok (some { fact with Version := v }),
        (IdentityService.Set (dynamoStorage noFaults) s fact).2) := by
  rw [h, dynamo_GetIdentity_noFaults]
  refine ⟨rfl, ?_⟩
  show (Except.ok ((DynamoStorage.putItem _ _ s.IdentityCore).find? _), _) = _
  have := putItem_find_self { fact with Version := v } s.IdentityCore
  simp only at this
  rw [this]

theorem mongo_two_sets (ms : MongoState) (fact next : IdentityFact)
    (hu : fact.UserID ≠ "") (hk : fact.Key ≠ "")
    (habsent : ((mongoStorage noFaults).GetIdentity ms fact.UserID fact.Key).1 = .ok none)
    (himm : fact.Immutable = false) (hnu : next.UserID = fact.UserID)
    (hnk : next.Key = fact.Key) :
    (IdentityService.Set (mongoStorage noFaults) ms fact).1 = none ∧
    ((mongoStorage noFaults).GetIdentity
        (IdentityService.Set (mongoStorage noFaults) ms fact).2 fact.UserID fact.Key).1 =
      .ok (some { fact with Version := 1, UpdatedAt := bsonDateTime fact.UpdatedAt }) ∧
    (IdentityService.Set (mongoStorage noFaults)
        (IdentityService.Set (mongoStorage noFaults) ms fact).2 next).1 = none ∧
    ((mongoStorage noFaults).GetIdentity
        (IdentityService.Set (mongoStorage noFaults)
          (IdentityService.Set (mongoStorage noFaults) ms fact).2 next).2
        fact.UserID fact.Key).1 =
      .ok (some { next with Version := 2, UpdatedAt := bsonDateTime next.UpdatedAt }) := by
  have hget : (mongoStorage noFaults).GetIdentity ms fact.UserID fact.Key = (.ok none, ms) := by
    rw [mongo_GetIdentity_noFaults] at habsent ⊢
    rw [Except.ok.inj habsent]
  have h1 := mongo_Set_stores ms fact 1 (Set_absent _ ms ms fact hu hk hget)
  have hu2 : next.UserID ≠ "" := by rw [hnu]; exact hu
  have hk2 : next.Key ≠ "" := by rw [hnk]; exact hk
  have hget2 := h1.2
  rw [← hnu, ← hnk] at hget2
  have hw : wrapInt (1 + 1) = 2 := wrapInt_of_range 2 (by norm_num) (by norm_num)
  have hp := Set_present _ _ _ next _ hu2 hk2 hget2 himm
  simp only [hw] at hp
  have h2 := mongo_Set_stores _ next 2 hp
  exact ⟨h1.1, by rw [h1.2], h2.1, by rw [← hnu, ← hnk, h2.2]⟩

theorem dynamo_two_sets (ds : DynamoState) (fact next : IdentityFact)
    (hu : fact.UserID ≠ "") (hk : fact.Key ≠ "")
    (habsent : ((dynamoStorage noFaults).GetIdentity ds fact.UserID fact.Key).1 = .ok none)
    (himm : fact.Immutable = false) (hnu : next.UserID = fact.UserID)
    (hnk : next.Key = fact.Key) :
    (IdentityService.Set (dynamoStorage noFaults) ds fact).1 = none ∧
    ((dynamoStorage noFaults).GetIdentity
        (IdentityService.Set (dynamoStorage noFaults) ds fact).2 fact.UserID fact.Key).1 =
      .ok (some { fact with Version := 1 }) ∧
    (IdentityService.Set (dynamoStorage noFaults)
        (IdentityService.Set (dynamoStorage noFaults) ds fact).2 next).1 = none ∧
    ((dynamoStorage noFaults).GetIdentity
        (IdentityService.Set (dynamoStorage noFaults)
          (IdentityService.Set (dynamoStorage noFaults) ds fact).2 next).2
        fact.UserID fact.Key).1 =
      .ok (some { next with Version := 2 }) := by
  have hget : (dynamoStorage noFaults).GetIdentity ds fact.UserID fact.Key = (.ok none, ds) := by
    rw [dynamo_GetIdentity_noFaults] at habsent ⊢
    rw [Except.ok.inj habsent]
  have h1 := dynamo_Set_stores ds fact 1 (Set_absent _ ds ds fact hu hk hget)
  have hu2 : next.UserID ≠ "" := by rw [hnu]; exact hu
  have hk2 : next.Key ≠ "" := by rw [hnk]; exact hk
  have hget2 := h1.2
  rw [← hnu, ← hnk] at hget2
  have hw : wrapInt (1 + 1) = 2 := wrapInt_of_range 2 (by norm_num) (by norm_num)
  have hp := Set_present _ _ _ next _ hu2 hk2 hget2 himm
  simp only [hw] at hp
  have h2 := dynamo_Set_stores _ next 2 hp
  exact ⟨h1.1, by rw [h1.2], h2.1, by rw [← hnu, ← hnk, h2.2]⟩

/-- C12: for a fact with non-empty user and key, `Set` hands to `SetIdentity` the fact with
version 1 when the read finds no fact, and with version `existing.Version + 1` (Go `int`
addition, equal to the exact sum below the largest `int`) when it finds a fact that is not
immutable, whatever version the caller supplied; on both backends two successive `Set` calls
of a key that was absent leave version 1 and then version 2 in the store. -/
theorem Set_version_policy {σ : Type} (store : Storage σ) (s s1 : σ)
    (fact next : IdentityFact) (ms : MongoState) (ds : DynamoState)
    (hu : fact.UserID ≠ "") (hk : fact.Key ≠ "") :
    (store.GetIdentity s fact.UserID fact.Key = (.ok none, s1) →
      IdentityService.Set store s fact = store.SetIdentity s1 { fact with Version := 1 }) ∧
    (∀ e : IdentityFact, store.GetIdentity s fact.UserID fact.Key = (.ok (some e), s1) →
      e.Immutable = false →
      IdentityService.Set store s fact =
          store.SetIdentity s1 { fact with Version := wrapInt (e.Version + 1) } ∧
        (-(2 ^ 63) ≤ e.Version → e.Version < 2 ^ 63 - 1 →
          wrapInt (e.Version + 1) = e.Version + 1)) ∧
    (((mongoStorage noFaults).GetIdentity ms fact.UserID fact.Key).1 = .ok none →
      fact.Immutable = false → next.UserID = fact.UserID → next.Key = fact.Key →
      (IdentityService.Set (mongoStorage noFaults) ms fact).1 = none ∧
      ((mongoStorage noFaults).GetIdentity
          (IdentityService.Set (mongoStorage noFaults) ms fact).2 fact.UserID fact.Key).1 =
        .ok (some { fact with Version := 1, UpdatedAt := bsonDateTime fact.UpdatedAt }) ∧
      (IdentityService.Set (mongoStorage noFaults)
          (IdentityService.Set (mongoStorage noFaults) ms fact).2 next).1 = none ∧
      ((mongoStorage noFaults).GetIdentity
          (IdentityService.Set (mongoStorage noFaults)
            (IdentityService.Set (mongoStorage noFaults) ms fact).2 next).2
          fact.UserID fact.Key).1 =
        .ok (some { next with Version := 2, UpdatedAt := bsonDateTime next.UpdatedAt })) ∧
    (((dynamoStorage noFaults).GetIdentity ds fact.UserID fact.Key).1 = .ok none →
      fact.Immutable = false → next.UserID = fact.UserID → next.Key = fact.Key →
      (IdentityService.Set (dynamoStorage noFaults) ds fact).1 = none ∧
      ((dynamoStorage noFaults).GetIdentity
          (IdentityService.Set (dynamoStorage noFaults) ds fact).2 fact.UserID fact.Key).1 =
        .ok (some { fact with Version := 1 }) ∧
      (IdentityService.Set (dynamoStorage noFaults)
          (IdentityService.Set (dynamoStorage noFaults) ds fact).2 next).1 = none ∧
      ((dynamoStorage noFaults).GetIdentity
          (IdentityService.Set (dynamoStorage noFaults)
            (IdentityService.Set (dynamoStorage noFaults) ds fact).2 next).2
          fact.UserID fact.Key).1 =
        .ok (some { next with Version := 2 })) := by
  refine ⟨Set_absent store s s1 fact hu hk, ?_, ?_, ?_⟩
  · intro e hget himm
    refine ⟨Set_present store s s1 fact e hu hk hget himm, ?_⟩
    intro h1 h2
    exact wrapInt_of_range _ (by omega) (by omega)
  · intro habsent himm hnu hnk
    exact mongo_two_sets ms fact next hu hk habsent himm hnu hnk
  · intro habsent himm hnu hnk
    exact dynamo_two_sets ds fact next hu hk habsent himm hnu hnk

/-- C12 at `u1`, `name`: on the empty MongoDB and DynamoDB stores, setting `Ann` (supplied
version 7) and then `Anna` (supplied version 0) leaves versions 1 and then 2. -/
theorem Set_version_policy_witness :
    annFact.UserID ≠ "" ∧ annFact.Key ≠ "" ∧
    IdentityService.Set (mongoStorage noFaults) MongoState.empty annFact =
      (mongoStorage noFaults).SetIdentity MongoState.empty { annFact with Version := 1 } ∧
    ((mongoStorage noFaults).GetIdentity
        (IdentityService.Set (mongoStorage noFaults)
          (IdentityService.Set (mongoStorage noFaults) MongoState.empty annFact).2 annaFact).2
        "u1" "name").1 = .ok (some { annaFact with Version := 2 }) ∧
    ((dynamoStorage noFaults).GetIdentity
        (IdentityService.Set (dynamoStorage noFaults)
          (IdentityService.Set (dynamoStorage noFaults) DynamoState.empty annFact).2 annaFact).2
        "u1" "name").1 = .ok (some { annaFact with Version := 2 }) :=
  ⟨by decide, by decide,
    (Set_version_policy (mongoStorage noFaults) MongoState.empty MongoState.empty annFact
      annaFact MongoState.empty DynamoState.empty (by decide) (by decide)).1 rfl,
    ((Set_version_policy (mongoStorage noFaults) MongoState.empty MongoState.empty annFact
      annaFact MongoState.empty DynamoState.empty (by decide) (by decide)).2.2.1
        rfl rfl rfl rfl).2.2.2,
    ((Set_version_policy (mongoStorage noFaults) MongoState.empty MongoState.empty annFact
      annaFact MongoState.empty DynamoState.empty (by decide) (by decide)).2.2.2
        rfl rfl rfl rfl).2.2.2⟩

/-- C13: when the read finds a fact tagged immutable, `Set` returns an error and leaves the
store as the read left it (no `SetIdentity` call); on both backends a fact stored as immutable
is still the stored fact after any sequence of `Set` calls, whatever driver calls fail. -/
theorem Set_immutable_unchanged {σ : Type} (store : Storage σ) (s s1 : σ)
    (fact e : IdentityFact) (hu : fact.UserID ≠ "") (hk : fact.Key ≠ "")
    (hget : store.GetIdentity s fact.UserID fact.Key = (.ok (some e), s1))
    (himm : e.Immutable = true) :
    (∃ err, IdentityService.Set store s fact = (some err, s1)) ∧
    (∀ (calls : List (Faults × IdentityFact)) (ms : MongoState) (userID key : String)
        (stored : IdentityFact),
      ((mongoStorage noFaults).GetIdentity ms userID key).1 = .ok (some stored) →
      stored.Immutable = true →
      ((mongoStorage noFaults).GetIdentity (runSets mongoStorage ms calls) userID key).1 =
        .ok (some stored)) ∧
    (∀ (calls : List (Faults × IdentityFact)) (ds : DynamoState) (userID key : String)
        (stored : IdentityFact),
      ((dynamoStorage noFaults).GetIdentity ds userID key).1 = .ok (some stored) →
      stored.Immutable = true →
      ((dynamoStorage noFaults).GetIdentity (runSets dynamoStorage ds calls) userID key).1 =
        .ok (some stored)) := by
  refine ⟨⟨_, Set_immutable store s s1 fact e hu hk hget himm⟩, ?_, ?_⟩
  · intro calls ms userID key stored hstored hlocked
    rw [mongo_GetIdentity_noFaults] at hstored ⊢
    have h := Except.ok.inj hstored
    show Except.ok _ = _
    rw [mongo_runSets_keeps_immutable calls ms stored userID key h hlocked]
  · intro calls ds userID key stored hstored hlocked
    rw [dynamo_GetIdentity_noFaults] at hstored ⊢
    have h := Except.ok.inj hstored
    show Except.ok _ = _
    rw [dynamo_runSets_keeps_immutable calls ds stored userID key h hlocked]

/-- C13 at `u1`, `name`: with the immutable `lockedFact` stored, `Set` of `annaFact` on the
recording storage makes the read and nothing else, and on both backends two further `Set`
calls leave `lockedFact` in the store. -/
theorem Set_immutable_unchanged_witness :
    annaFact.UserID ≠ "" ∧ annaFact.Key ≠ "" ∧ lockedFact.Immutable = true ∧
    (∃ err, IdentityService.Set (recorder (some lockedFact)) [] annaFact =
      (some err, [Call.GetIdentity "u1" "name"])) ∧
    ((mongoStorage noFaults).GetIdentity
        (runSets mongoStorage { MongoState.empty with identity_core := [lockedFact] }
          [(noFaults, annaFact), (noFaults, annFact)]) "u1" "name").1 =
      .ok (some lockedFact) ∧
    ((dynamoStorage noFaults).GetIdentity
        (runSets dynamoStorage { DynamoState.empty with IdentityCore := [lockedFact] }
          [(noFaults, annaFact), (noFaults, annFact)]) "u1" "name").1 =
      .ok (some lockedFact) :=
  ⟨by decide, by decide, rfl,
    (Set_immutable_unchanged (recorder (some lockedFact)) [] [Call.GetIdentity "u1" "name"]
      annaFact lockedFact (by decide) (by decide) rfl rfl).1,
    (Set_immutable_unchanged (recorder (some lockedFact)) [] [Call.GetIdentity "u1" "name"]
      annaFact lockedFact (by decide) (by decide) rfl rfl).2.1 _ _ "u1" "name" lockedFact
      rfl rfl,
    (Set_immutable_unchanged (recorder (some lockedFact)) [] [Call.GetIdentity "u1" "name"]
      annaFact lockedFact (by decide) (by decide) rfl rfl).2.2 _ _ "u1" "name" lockedFact
      rfl rfl⟩

/-! ## `MemoryService` against a storage -/

theorem MemoryService_Search_result {σ : Type} (u : Unicode)
    (sortSlice : List ScoredChunk → (ScoredChunk → ScoredChunk → Bool) → List ScoredChunk)
    (store : Storage σ) (s : σ) (userID query : String) (topK : Int) :
    (MemoryService.Search u sortSlice store s userID query topK).1 =
      Search u sortSlice (fetchFrom store s) userID query topK := by
  unfold MemoryService.Search Search fetchFrom
  by_cases hv : userID = "" ∨ query = ""
  · simp [hv]
  · simp only [hv, if_false]
    by_cases ht : (Tokenize u query).length = 0
    · simp [ht]
    · simp only [ht, if_false]
      rcases hf : store.SearchMemoryByTokens s userID (Tokenize u query) with ⟨r, s1⟩
      cases r with
      | error err => rfl
      | ok chunks =>
        by_cases hc : chunks.length = 0
        · simp [hc]
        · simp [hc]

theorem Store_ok_inv {σ : Type} (u : Unicode) (store : Storage σ) (s s2 : σ) (now : Int)
    (userID content source sessionID : String) (importance : ℚ) (chunkID : String)
    (hok : Store u store s now userID content source sessionID importance =
      (.ok chunkID, s2)) :
    userID ≠ "" ∧ content ≠ "" ∧
    ∃ s1, store.StoreMemory s (Store.chunk u now userID content source sessionID importance) =
        (none, s1) ∧
      store.IndexTokens s1 (Store.entries u now userID content) = (none, s2) ∧
      chunkID = Store.chunkID userID now := by
  by_cases hv : userID = "" ∨ content = ""
  · simp [Store, hv] at hok
  · have hv2 := not_or.mp hv
    refine ⟨hv2.1, hv2.2, ?_⟩
    unfold Store at hok
    simp only [hv, if_false] at hok
    rcases hm : store.StoreMemory s
      (Store.chunk u now userID content source sessionID importance) with ⟨r1, s1⟩
    rw [hm] at hok
    cases r1 with
    | some err => simp at hok
    | none =>
      simp only at hok
      rcases hi : store.IndexTokens s1 (Store.entries u now userID content) with ⟨r2, s3⟩
      rw [hi] at hok
      cases r2 with
      | some err => simp at hok
      | none =>
        simp only [Prod.mk.injEq, Except.ok.injEq] at hok
        refine ⟨s1, rfl, ?_, ?_⟩
        · rw [← hok.2]; exact hi
        · rw [← hok.1]; rfl

/-- C17: when `Store` succeeds, `StoreMemory` was handed the chunk whose `Tokens` are
`Tokenize(content)`, and `IndexTokens` was handed one entry per token of
`Tokenize(content)`, in the same order (tokens that are pairwise distinct), each with the
user, the chunk ID returned by `Store` and the creation time of the chunk. -/
theorem Store_index_batch {σ : Type} (u : Unicode) (store : Storage σ) (s s2 : σ) (now : Int)
    (userID content source sessionID : String) (importance : ℚ) (chunkID : String)
    (hok : Store u store s now userID content source sessionID importance =
      (.ok chunkID, s2)) :
    ∃ (s1 : σ) (chunk : MemoryChunk) (entries : List TokenEntry),
      store.StoreMemory s chunk = (none, s1) ∧
      store.IndexTokens s1 entries = (none, s2) ∧
      chunk.Tokens = Tokenize u content ∧ chunk.ChunkID = chunkID ∧ chunk.UserID = userID ∧
      chunk.CreatedAt = now ∧
      entries.length = (Tokenize u content).length ∧
      entries.map (fun e => e.Token) = Tokenize u content ∧
      (entries.map (fun e => e.Token)).Nodup ∧
      (∀ e ∈ entries, e.UserID = userID ∧ e.ChunkID = chunkID ∧ e.Timestamp = chunk.CreatedAt) ∧
      (∀ (i : Nat) (hi : i < (Tokenize u content).length),
        entries[i]? = some ⟨(Tokenize u content)[i], userID, chunkID, now⟩) := by
  obtain ⟨_, _, s1, hm, hi, hid⟩ :=
    Store_ok_inv u store s s2 now userID content source sessionID importance chunkID hok
  subst hid
  refine ⟨s1, Store.chunk u now userID content source sessionID importance,
    Store.entries u now userID content, hm, hi, rfl, rfl, rfl, rfl, ?_, ?_, ?_, ?_, ?_⟩
  · simp [Store.entries]
  · simp [Store.entries, Function.comp_def]
  · have h : (Store.entries u now userID content).map (fun e => e.Token) = Tokenize u content := by
      simp [Store.entries, Function.comp_def]
    rw [h, Tokenize_eq_keepFirst]
    exact keepFirstOccurrences_nodup _
  · intro e he
    simp only [Store.entries, List.mem_map] at he
    obtain ⟨t, _, rfl⟩ := he
    exact ⟨rfl, rfl, rfl⟩
  · intro i hi
    simp [Store.entries, List.getElem?_map, List.getElem?_eq_getElem hi]


theorem chunkID_u1_17 : Store.chunkID "u1" 17 = "u1-17" := by
  simp [Store.chunkID, formatInt, decimalDigits]
  decide

theorem hiking_content_tokens :
    Tokenize goLatin1 "I love hiking on weekends" = ["love", "hiking", "weekends"] := by
  decide

/-- C17 on the recording storage: `Store` of `"I love hiking on weekends"` at time 17 makes
the two calls `StoreMemory` and `IndexTokens`, the latter with the entries for `love`,
`hiking`, `weekends` in this order, all carrying `u1`, `u1-17` and the time 17. -/
theorem Store_index_batch_witness :
    Store goLatin1 (recorder none) [] 17 "u1" "I love hiking on weekends" "conversation" ""
        (2 / 5) =
      (.ok "u1-17",
        [Call.StoreMemory
          { UserID := "u1", ChunkID := "u1-17", Content := "I love hiking on weekends",
            Tokens := ["love", "hiking", "weekends"], Importance := 2 / 5,
            Source := "conversation", SessionID := "", CreatedAt := 17 },
         Call.IndexTokens
          [⟨"love", "u1", "u1-17", 17⟩, ⟨"hiking", "u1", "u1-17", 17⟩,
            ⟨"weekends", "u1", "u1-17", 17⟩]]) ∧
    ∃ (s1 : List Call) (chunk : MemoryChunk) (entries : List TokenEntry),
      (recorder none).StoreMemory [] chunk = (none, s1) ∧
      (recorder none).IndexTokens s1 entries =
        (none, [Call.StoreMemory (Store.chunk goLatin1 17 "u1" "I love hiking on weekends"
            "conversation" "" (2 / 5)),
          Call.IndexTokens (Store.entries goLatin1 17 "u1" "I love hiking on weekends")]) ∧
      chunk.Tokens = Tokenize goLatin1 "I love hiking on weekends" ∧
      chunk.ChunkID = "u1-17" ∧ chunk.UserID = "u1" ∧ chunk.CreatedAt = 17 ∧
      entries.length = (Tokenize goLatin1 "I love hiking on weekends").length ∧
      entries.map (fun e => e.Token) = Tokenize goLatin1 "I love hiking on weekends" ∧
      (entries.map (fun e => e.Token)).Nodup ∧
      (∀ e ∈ entries, e.UserID = "u1" ∧ e.ChunkID = "u1-17" ∧ e.Timestamp = chunk.CreatedAt) ∧
      (∀ (i : Nat) (hi : i < (Tokenize goLatin1 "I love hiking on weekends").length),
        entries[i]? =
          some ⟨(Tokenize goLatin1 "I love hiking on weekends")[i], "u1", "u1-17", 17⟩) := by
  have hrun : Store goLatin1 (recorder none) [] 17 "u1" "I love hiking on weekends"
      "conversation" "" (2 / 5) =
      (.ok "u1-17",
        [Call.StoreMemory (Store.chunk goLatin1 17 "u1" "I love hiking on weekends"
            "conversation" "" (2 / 5)),
          Call.IndexTokens (Store.entries goLatin1 17 "u1" "I love hiking on weekends")]) := by
    simp [Store, recorder, Store.chunk, chunkID_u1_17]
  refine ⟨?_, Store_index_batch goLatin1 (recorder none) [] _ 17 "u1"
    "I love hiking on weekends" "conversation" "" (2 / 5) "u1-17" hrun⟩
  rw [hrun]
  simp [Store.chunk, Store.entries, chunkID_u1_17, hiking_content_tokens]

/-- C20: with an empty user or key, `IdentityService.Get` and `Set` return the validation
error and leave the store as it was; so does `MemoryService.Store` with an empty user or
content and `MemoryService.Search` with an empty user or query.  This holds for every storage,
hence no storage operation is invoked; the result of `Search` is the same whatever the
candidate fetch would answer. -/
theorem validation_before_storage {σ : Type} (u : Unicode) (store : Storage σ) (s : σ)
    (sortSlice : List ScoredChunk → (ScoredChunk → ScoredChunk → Bool) → List ScoredChunk)
    (fetch : String → List String → Except String (List MemoryChunk))
    (userID key content query source sessionID : String) (fact : IdentityFact) (now : Int)
    (importance : ℚ) (topK : Int) :
    ((userID = "" ∨ key = "") →
      IdentityService.Get store s userID key = (.error "user_id and key are required", s)) ∧
    ((fact.UserID = "" ∨ fact.Key = "") →
      IdentityService.Set store s fact = (some "user_id and key are required", s)) ∧
    ((userID = "" ∨ content = "") →
      Store u store s now userID content source sessionID importance =
        (.error "user_id and content are required", s)) ∧
    ((userID = "" ∨ query = "") →
      MemoryService.Search u sortSlice store s userID query topK =
          (.error "user_id and query are required", s) ∧
        Search u sortSlice fetch userID query topK =
          .error "user_id and query are required") := by
  refine ⟨?_, ?_, ?_, ?_⟩
  · intro h; simp [IdentityService.Get, h]
  · intro h; simp [IdentityService.Set, h]
  · intro h; simp [Store, h]
  · intro h
    exact ⟨by simp [MemoryService.Search, h], by simp [Search, h]⟩

/-- C20 on the recording storage: with an empty user the four calls return the validation
error and the log of storage calls stays empty. -/
theorem validation_before_storage_witness :
    IdentityService.Get (recorder none) [] "" "name" =
      (.error "user_id and key are required", []) ∧
    IdentityService.Set (recorder none) [] { annFact with Key := "" } =
      (some "user_id and key are required", []) ∧
    Store goLatin1 (recorder none) [] 17 "u1" "" "conversation" "" (2 / 5) =
      (.error "user_id and content are required", []) ∧
    MemoryService.Search goLatin1 insertionSort (recorder none) [] "" "hiking" 3 =
      (.error "user_id and query are required", []) ∧
    Search goLatin1 insertionSort exampleFetch "u1" "" 3 =
      .error "user_id and query are required" :=
  ⟨(validation_before_storage goLatin1 (recorder none) [] insertionSort exampleFetch
      "" "name" "" "" "conversation" "" { annFact with Key := "" } 17 (2 / 5) 3).1
      (Or.inl rfl),
    (validation_before_storage goLatin1 (recorder none) [] insertionSort exampleFetch
      "" "name" "" "" "conversation" "" { annFact with Key := "" } 17 (2 / 5) 3).2.1
      (Or.inr rfl),
    (validation_before_storage goLatin1 (recorder none) [] insertionSort exampleFetch
      "u1" "name" "" "" "conversation" "" annFact 17 (2 / 5) 3).2.2.1 (Or.inr rfl),
    ((validation_before_storage goLatin1 (recorder none) [] insertionSort exampleFetch
      "" "name" "" "hiking" "conversation" "" annFact 17 (2 / 5) 3).2.2.2 (Or.inl rfl)).1,
    ((validation_before_storage goLatin1 (recorder none) [] insertionSort exampleFetch
      "u1" "name" "" "" "conversation" "" annFact 17 (2 / 5) 3).2.2.2 (Or.inr rfl)).2⟩

/-! ## Chunk identifiers are one-to-one in the time -/

theorem digitChar_inj : ∀ a < 10, ∀ b < 10, Nat.digitChar a = Nat.digitChar b → a = b := by
  decide

theorem digitChar_ne_minus : ∀ a < 10, Nat.digitChar a ≠ '-' := by
  decide

theorem map_digitChar_inj (l1 : List Nat) :
    ∀ l2 : List Nat, (∀ d ∈ l1, d < 10) → (∀ d ∈ l2, d < 10) →
      l1.map Nat.digitChar = l2.map Nat.digitChar → l1 = l2 := by
  induction l1 with
  | nil =>
    intro l2 _ _ h
    cases l2 with
    | nil => rfl
    | cons b t => simp at h
  | cons a t ih =>
    intro l2 h1 h2 h
    cases l2 with
    | nil => simp at h
    | cons b t2 =>
      simp only [List.map_cons, List.cons.injEq] at h
      have hab := digitChar_inj a (h1 a (List.mem_cons_self _ _)) b
        (h2 b (List.mem_cons_self _ _)) h.1
      have ht := ih t2 (fun d hd => h1 d (List.mem_cons_of_mem _ hd))
        (fun d hd => h2 d (List.mem_cons_of_mem _ hd)) h.2
      rw [hab, ht]

theorem decimalDigits_pos (n : Nat) (hn : n ≠ 0) :
    decimalDigits n = (Nat.digits 10 n).reverse.map Nat.digitChar := by
  simp [decimalDigits, hn]

theorem decimalDigits_inj (n m : Nat) (h : decimalDigits n = decimalDigits m) : n = m := by
  have hlt : ∀ k : Nat, ∀ d ∈ (Nat.digits 10 k).reverse, d < 10 := by
    intro k d hd
    exact Nat.digits_lt_base (by norm_num) (List.mem_reverse.mp hd)
  have hzero : ∀ k : Nat, k ≠ 0 → decimalDigits k ≠ ['0'] := by
    intro k hk hk0
    rw [decimalDigits_pos k hk] at hk0
    have h1 : (Nat.digits 10 k).reverse = [0] := by
      apply map_digitChar_inj _ [0] (hlt k) (by simp)
      simpa using hk0
    have h2 : Nat.digits 10 k = [0] := by
      have := congrArg List.reverse h1
      simpa using this
    have h3 := Nat.getLast_digit_ne_zero 10 hk
    simp [h2] at h3
  by_cases hn : n = 0
  · by_cases hm : m = 0
    · rw [hn, hm]
    · exfalso
      apply hzero m hm
      rw [← h, hn]
      rfl
  · by_cases hm : m = 0
    · exfalso
      apply hzero n hn
      rw [h, hm]
      rfl
    · rw [decimalDigits_pos n hn, decimalDigits_pos m hm] at h
      have h1 := map_digitChar_inj _ _ (hlt n) (hlt m) h
      have h2 : Nat.digits 10 n = Nat.digits 10 m := by
        have := congrArg List.reverse h1
        simpa using this
      exact Nat.digits_inj_iff.mp h2

theorem decimalDigits_head (n : Nat) (rest : List Char) : decimalDigits n ≠ '-' :: rest := by
  intro h
  by_cases hn : n = 0
  · rw [hn] at h
    simp [decimalDigits] at h
  · rw [decimalDigits_pos n hn] at h
    cases hd : (Nat.digits 10 n).reverse with
    | nil => rw [hd] at h; simp at h
    | cons d t =>
      rw [hd] at h
      simp only [List.map_cons, List.cons.injEq] at h
      have hmem : d ∈ (Nat.digits 10 n).reverse := by rw [hd]; exact List.mem_cons_self _ _
      have hlt : d < 10 := Nat.digits_lt_base (by norm_num) (List.mem_reverse.mp hmem)
      exact digitChar_ne_minus d hlt h.1

theorem formatInt_inj (n m : Int) (h : formatInt n = formatInt m) : n = m := by
  unfold formatInt at h
  have h2 := congrArg String.data h
  simp only at h2
  by_cases hn : n < 0
  · by_cases hm : m < 0
    · simp only [hn, hm, if_true, List.cons.injEq, true_and] at h2
      have := decimalDigits_inj _ _ h2
      omega
    · simp only [hn, hm, if_true, if_false] at h2
      exact absurd h2.symm (decimalDigits_head _ _)
  · by_cases hm : m < 0
    · simp only [hn, hm, if_true, if_false] at h2
      exact absurd h2 (decimalDigits_head _ _)
    · simp only [hn, hm, if_false] at h2
      have := decimalDigits_inj _ _ h2
      omega

theorem chunkID_inj (userID : String) (t1 t2 : Int)
    (h : Store.chunkID userID t1 = Store.chunkID userID t2) : t1 = t2 := by
  unfold Store.chunkID at h
  apply formatInt_inj
  have h2 := congrArg String.data h
  simp only [String.data_append, List.append_cancel_left_eq] at h2
  exact String.ext h2

/-! ## The candidate fetch of the two backends -/

theorem mongo_search_state (env : Faults) (s : MongoState) (userID : String)
    (tokens : List String) : ((mongoStorage env).SearchMemoryByTokens s userID tokens).2 = s := by
  show (MongoStorage.SearchMemoryByTokens env s userID "" tokens).2 = s
  unfold MongoStorage.SearchMemoryByTokens
  split
  · rfl
  · cases env.SearchMemoryByTokens <;> rfl

theorem mongo_search_mem (env : Faults) (s : MongoState) (userID : String)
    (tokens : List String) (chunks : List MemoryChunk)
    (h : fetchFrom (mongoStorage env) s userID tokens = .ok chunks) (c : MemoryChunk)
    (hc : c ∈ chunks) :
    c ∈ s.memory_chunks ∧ c.UserID = userID ∧ ∃ t ∈ c.Tokens, t ∈ tokens := by
  have h2 : (MongoStorage.SearchMemoryByTokens env s userID "" tokens).1 = .ok chunks := h
  unfold MongoStorage.SearchMemoryByTokens at h2
  by_cases ht : tokens.length = 0
  · simp only [ht, if_true] at h2
    rw [← Except.ok.inj h2] at hc
    cases hc
  · simp only [ht, if_false] at h2
    cases hf : env.SearchMemoryByTokens with
    | some err => simp [hf] at h2
    | none =>
      simp only [hf] at h2
      rw [← Except.ok.inj h2] at hc
      have hm := List.mem_filter.mp hc
      simp only [Bool.and_eq_true, decide_eq_true_eq, List.any_eq_true] at hm
      exact ⟨hm.1, hm.2.1.1, hm.2.1.2⟩

theorem mongo_fetch_noFaults (s : MongoState) (userID : String) (tokens : List String)
    (ht : tokens ≠ []) :
    fetchFrom (mongoStorage noFaults) s userID tokens =
      .ok (s.memory_chunks.filter (fun d =>
        decide (d.UserID = userID) && d.Tokens.any (fun t => decide (t ∈ tokens)))) := by
  have ht2 : tokens.length ≠ 0 := fun h => ht (List.length_eq_zero.mp h)
  show (MongoStorage.SearchMemoryByTokens noFaults s userID "" tokens).1 = _
  unfold MongoStorage.SearchMemoryByTokens
  simp [ht2, noFaults]

theorem dynamo_search_state (env : Faults) (s : DynamoState) (userID : String)
    (tokens : List String) : ((dynamoStorage env).SearchMemoryByTokens s userID tokens).2 = s := by
  show (DynamoStorage.SearchMemoryByTokens env s userID tokens).2 = s
  unfold DynamoStorage.SearchMemoryByTokens DynamoStorage.LookupTokens
  cases tokens with
  | nil => simp
  | cons t rest =>
    cases env.LookupTokens with
    | some err => rfl
    | none =>
      simp only
      split
      · rfl
      · cases env.SearchMemoryByTokens <;> rfl

theorem tokenItem_user_id (e : TokenEntry) : DynamoStorage.tokenItem e "user_id" = none := by
  rfl

theorem dynamo_lookup_nil (env : Faults) (s : DynamoState) (userID : String)
    (tokens : List String) (ids : List String) (s1 : DynamoState)
    (h : DynamoStorage.LookupTokens env s userID tokens = (.ok ids, s1)) :
    s1 = s ∧ ids = [] := by
  unfold DynamoStorage.LookupTokens at h
  cases tokens with
  | nil =>
    simp only [Prod.mk.injEq, Except.ok.injEq] at h
    exact ⟨h.2.symm, h.1.symm⟩
  | cons t rest =>
    cases hl : env.LookupTokens with
    | some err => simp [hl] at h
    | none =>
      simp only [hl, tokenItem_user_id, Prod.mk.injEq, Except.ok.injEq] at h
      refine ⟨h.2.symm, ?_⟩
      rw [← h.1]
      simp

/-- On DynamoDB the candidate fetch returns no chunk: the filter of `LookupTokens` reads the
attribute `user_id`, which no item of the token index has. -/
theorem dynamo_fetch_nil (env : Faults) (s : DynamoState) (userID : String)
    (tokens : List String) (chunks : List MemoryChunk)
    (h : fetchFrom (dynamoStorage env) s userID tokens = .ok chunks) : chunks = [] := by
  have h2 : (DynamoStorage.SearchMemoryByTokens env s userID tokens).1 = .ok chunks := h
  unfold DynamoStorage.SearchMemoryByTokens at h2
  rcases hl : DynamoStorage.LookupTokens env s userID tokens with ⟨r, s1⟩
  rw [hl] at h2
  cases r with
  | error err => simp at h2
  | ok ids =>
    obtain ⟨_, hids⟩ := dynamo_lookup_nil env s userID tokens ids s1 hl
    subst hids
    simp only [List.length_nil, if_true] at h2
    exact (Except.ok.inj h2).symm

theorem dynamo_search_mem (env : Faults) (s : DynamoState) (userID : String)
    (tokens : List String) (chunks : List MemoryChunk)
    (h : fetchFrom (dynamoStorage env) s userID tokens = .ok chunks) (c : MemoryChunk)
    (hc : c ∈ chunks) :
    c ∈ s.MemoryChunks ∧ c.UserID = userID := by
  rw [dynamo_fetch_nil env s userID tokens chunks h] at hc
  cases hc

theorem TokenOverlap_pos (queryTokens chunkTokens : List String)
    (h : ∃ t ∈ queryTokens, t ∈ chunkTokens) : 0 < TokenOverlap queryTokens chunkTokens := by
  obtain ⟨t, htq, htc⟩ := h
  rw [TokenOverlap_eq]
  have hlen : queryTokens.length ≠ 0 := by
    intro h0
    rw [List.length_eq_zero.mp h0] at htq
    cases htq
  simp only [hlen, if_false]
  have hpos : 0 < queryTokens.countP (fun qt => decide (qt ∈ chunkTokens)) :=
    List.countP_pos_iff.mpr ⟨t, htq, by simpa using htc⟩
  have h1 : (0 : ℚ) < (queryTokens.countP (fun qt => decide (qt ∈ chunkTokens)) : Nat) := by
    exact_mod_cast hpos
  have h2 : (0 : ℚ) < (queryTokens.length : ℚ) := by
    exact_mod_cast Nat.pos_of_ne_zero hlen
  exact div_pos h1 h2

theorem Search_mem_fetched (u : Unicode)
    (sortSlice : List ScoredChunk → (ScoredChunk → ScoredChunk → Bool) → List ScoredChunk)
    (fetch : String → List String → Except String (List MemoryChunk))
    (userID query : String) (topK : Int) (res : List ScoredChunk)
    (hsort : SortSliceContract sortSlice)
    (hres : Search u sortSlice fetch userID query topK = .ok res) (sc : ScoredChunk)
    (hsc : sc ∈ res) :
    ∃ chunks, fetch userID (Tokenize u query) = .ok chunks ∧ sc.Chunk ∈ chunks ∧
      sc = Search.score (Tokenize u query) sc.Chunk := by
  rcases Search_inv u sortSlice fetch userID query topK res hsort hres with
    hnil | ⟨chunks, hf, hr⟩
  · subst hnil; cases hsc
  · subst hr
    have h1 := (List.take_sublist _ _).subset hsc
    have h2 := (hsort _).1.subset h1
    obtain ⟨c, hc, hcs⟩ := List.mem_map.mp h2
    subst hcs
    exact ⟨chunks, hf, hc, rfl⟩

theorem Search_congr (u : Unicode)
    (sortSlice : List ScoredChunk → (ScoredChunk → ScoredChunk → Bool) → List ScoredChunk)
    (fetch1 fetch2 : String → List String → Except String (List MemoryChunk))
    (userID query : String) (topK : Int)
    (h : fetch1 userID (Tokenize u query) = fetch2 userID (Tokenize u query)) :
    Search u sortSlice fetch1 userID query topK = Search u sortSlice fetch2 userID query topK := by
  simp only [Search, h]

/-! ## The DynamoDB tables under `Store` -/

theorem mem_putItem {α κ : Type} [DecidableEq κ] (key : α → κ) (item x : α) (table : List α) :
    x ∈ DynamoStorage.putItem key item table ↔ (x ∈ table ∧ key x ≠ key item) ∨ x = item := by
  simp [DynamoStorage.putItem, List.mem_filter]

theorem indexLoop_mem (entries : List TokenEntry) :
    ∀ (failure : Option (Nat × String)) (table : List TokenEntry) (x : TokenEntry),
      x ∈ (DynamoStorage.IndexTokens.loop failure entries table).2 →
        x ∈ table ∨ x ∈ entries := by
  induction entries with
  | nil =>
    intro failure table x hx
    left
    simpa [DynamoStorage.IndexTokens.loop] using hx
  | cons e rest ih =>
    intro failure table x hx
    cases failure with
    | none =>
      rw [DynamoStorage.IndexTokens.loop] at hx
      rcases ih none _ x hx with h | h
      · rcases (mem_putItem _ _ _ _).mp h with h2 | h2
        · exact Or.inl h2.1
        · exact Or.inr (by rw [h2]; exact List.mem_cons_self _ _)
      · exact Or.inr (List.mem_cons_of_mem _ h)
    | some f =>
      obtain ⟨k, err⟩ := f
      cases k with
      | zero =>
        rw [DynamoStorage.IndexTokens.loop] at hx
        exact Or.inl hx
      | succ n =>
        rw [DynamoStorage.IndexTokens.loop] at hx
        rcases ih (some (n, err)) _ x hx with h | h
        · rcases (mem_putItem _ _ _ _).mp h with h2 | h2
          · exact Or.inl h2.1
          · exact Or.inr (by rw [h2]; exact List.mem_cons_self _ _)
        · exact Or.inr (List.mem_cons_of_mem _ h)

theorem indexLoop_mem_failed (entries : List TokenEntry) :
    ∀ (k : Nat) (err : String) (table : List TokenEntry) (x : TokenEntry),
      x ∈ (DynamoStorage.IndexTokens.loop (some (k, err)) entries table).2 →
        x ∈ table ∨ x ∈ entries.take k := by
  induction entries with
  | nil =>
    intro k err table x hx
    left
    simpa [DynamoStorage.IndexTokens.loop] using hx
  | cons e rest ih =>
    intro k err table x hx
    cases k with
    | zero =>
      rw [DynamoStorage.IndexTokens.loop] at hx
      exact Or.inl hx
    | succ n =>
      rw [DynamoStorage.IndexTokens.loop] at hx
      rcases ih n err _ x hx with h | h
      · rcases (mem_putItem _ _ _ _).mp h with h2 | h2
        · exact Or.inl h2.1
        · exact Or.inr (by rw [h2]; simp)
      · exact Or.inr (by simp [h])

theorem indexLoop_all_written (entries : List TokenEntry) :
    ∀ (failure : Option (Nat × String)) (table : List TokenEntry),
      (DynamoStorage.IndexTokens.loop failure entries table).1 = none →
      (entries.map (fun d : TokenEntry => (d.Token, d.Timestamp))).Nodup →
      (∀ e ∈ entries, e ∈ (DynamoStorage.IndexTokens.loop failure entries table).2) ∧
      (∀ x ∈ table, (x.Token, x.Timestamp) ∉
          entries.map (fun d : TokenEntry => (d.Token, d.Timestamp)) →
        x ∈ (DynamoStorage.IndexTokens.loop failure entries table).2) := by
  induction entries with
  | nil =>
    intro failure table _ _
    refine ⟨by simp, ?_⟩
    intro x hx _
    simpa [DynamoStorage.IndexTokens.loop] using hx
  | cons e rest ih =>
    intro failure table hnone hnodup
    rw [List.map_cons, List.nodup_cons] at hnodup
    have hstep : ∀ f2 : Option (Nat × String),
        (DynamoStorage.IndexTokens.loop f2 rest
          (DynamoStorage.putItem (fun d : TokenEntry => (d.Token, d.Timestamp)) e table)).1 =
            none →
        (∀ e2 ∈ e :: rest, e2 ∈ (DynamoStorage.IndexTokens.loop f2 rest
          (DynamoStorage.putItem (fun d : TokenEntry => (d.Token, d.Timestamp)) e table)).2) ∧
        (∀ x ∈ table, (x.Token, x.Timestamp) ∉
            (e :: rest).map (fun d : TokenEntry => (d.Token, d.Timestamp)) →
          x ∈ (DynamoStorage.IndexTokens.loop f2 rest
            (DynamoStorage.putItem (fun d : TokenEntry => (d.Token, d.Timestamp)) e table)).2) := by
      intro f2 h2
      obtain ⟨ih1, ih2⟩ := ih f2 _ h2 hnodup.2
      refine ⟨?_, ?_⟩
      · intro e2 he2
        rcases List.mem_cons.mp he2 with h | h
        · rw [h]
          exact ih2 e ((mem_putItem _ _ _ _).mpr (Or.inr rfl)) hnodup.1
        · exact ih1 e2 h
      · intro x hx hkey
        rw [List.map_cons, List.mem_cons, not_or] at hkey
        exact ih2 x ((mem_putItem _ _ _ _).mpr (Or.inl ⟨hx, hkey.1⟩)) hkey.2
    cases failure with
    | none =>
      rw [DynamoStorage.IndexTokens.loop] at hnone ⊢
      exact hstep none hnone
    | some f =>
      obtain ⟨k, err⟩ := f
      cases k with
      | zero =>
        rw [DynamoStorage.IndexTokens.loop] at hnone
        simp at hnone
      | succ n =>
        rw [DynamoStorage.IndexTokens.loop] at hnone ⊢
        exact hstep (some (n, err)) hnone

/-- The store that `Store` leaves behind on DynamoDB: the given one, or the one with the chunk
put and the index loop run. -/
theorem dynamo_Store_state (u : Unicode) (env : Faults) (s : DynamoState) (now : Int)
    (userID content source sessionID : String) (importance : ℚ) :
    (Store u (dynamoStorage env) s now userID content source sessionID importance).2 = s ∨
    (userID ≠ "" ∧ content ≠ "" ∧ env.StoreMemory = none ∧
      (Store u (dynamoStorage env) s now userID content source sessionID importance) =
        ((match (DynamoStorage.IndexTokens.loop env.IndexTokens
              (Store.entries u now userID content) s.TokenIndex).1 with
          | some err => .error ("index tokens: " ++ err)
          | none => .ok (Store.chunkID userID now)),
        { s with
          MemoryChunks := (DynamoStorage.putItem (fun d : MemoryChunk => (d.UserID, d.CreatedAt))
            (Store.chunk u now userID content source sessionID importance) s.MemoryChunks),
          TokenIndex := (DynamoStorage.IndexTokens.loop env.IndexTokens
            (Store.entries u now userID content) s.TokenIndex).2 })) := by
  by_cases hv : userID = "" ∨ content = ""
  · left
    simp [Store, hv]
  · have hv2 := not_or.mp hv
    cases hm : env.StoreMemory with
    | some err =>
      left
      simp [Store, hv, dynamoStorage, DynamoStorage.StoreMemory, hm]
    | none =>
      right
      refine ⟨hv2.1, hv2.2, rfl, ?_⟩
      simp only [Store, hv, if_false, dynamoStorage, DynamoStorage.StoreMemory, hm,
        DynamoStorage.IndexTokens]
      cases hl : (DynamoStorage.IndexTokens.loop env.IndexTokens
          (Store.entries u now userID content) s.TokenIndex).1 with
      | some err => simp [hl]
      | none => simp [hl]; rfl

theorem mem_entries (u : Unicode) (now : Int) (userID content : String) (e : TokenEntry)
    (he : e ∈ Store.entries u now userID content) :
    e.Token ∈ Tokenize u content ∧ e.UserID = userID ∧
      e.ChunkID = Store.chunkID userID now ∧ e.Timestamp = now := by
  simp only [Store.entries, List.mem_map] at he
  obtain ⟨t, ht, rfl⟩ := he
  exact ⟨ht, rfl, rfl, rfl⟩

/-! ## User scoping -/

theorem filter_filter_of_imp {α : Type} (p q : α → Bool) (l : List α)
    (h : ∀ d, p d = true → q d = true) : (l.filter q).filter p = l.filter p := by
  rw [List.filter_filter]
  apply List.filter_congr
  intro d _
  by_cases hp : p d = true
  · simp [hp, h d hp]
  · simp [hp]

theorem mongo_fetch_withoutUser (env : Faults) (s : MongoState) (u1 u2 : String)
    (hne : u1 ≠ u2) (tokens : List String) :
    fetchFrom (mongoStorage env) (s.withoutUser u1) u2 tokens =
      fetchFrom (mongoStorage env) s u2 tokens := by
  show (MongoStorage.SearchMemoryByTokens env (s.withoutUser u1) u2 "" tokens).1 =
    (MongoStorage.SearchMemoryByTokens env s u2 "" tokens).1
  unfold MongoStorage.SearchMemoryByTokens
  by_cases ht : tokens.length = 0
  · simp [ht]
  · simp only [ht, if_false]
    cases env.SearchMemoryByTokens with
    | some err => rfl
    | none =>
      simp only [MongoState.withoutUser]
      rw [filter_filter_of_imp]
      intro d hd
      simp only [Bool.and_eq_true, decide_eq_true_eq] at hd
      simp only [decide_eq_true_eq, ne_eq]
      rw [hd.1.1]
      exact fun h => hne h.symm

theorem dynamo_fetch_withoutUser (env : Faults) (s : DynamoState) (u1 u2 : String)
    (tokens : List String) :
    fetchFrom (dynamoStorage env) (s.withoutUser u1) u2 tokens =
      fetchFrom (dynamoStorage env) s u2 tokens := by
  show (DynamoStorage.SearchMemoryByTokens env (s.withoutUser u1) u2 tokens).1 =
    (DynamoStorage.SearchMemoryByTokens env s u2 tokens).1
  unfold DynamoStorage.SearchMemoryByTokens DynamoStorage.LookupTokens
  cases tokens with
  | nil => simp
  | cons t rest =>
    cases env.LookupTokens with
    | some err => rfl
    | none => simp [tokenItem_user_id]

/-- C15: on both backends and in every state of the store, a search for user `u2` returns
chunks of `u2` only, hence no chunk stored for another user `u1`; and its result is the same
on the store from which the chunks and index entries of `u1` are removed. -/
theorem Search_user_scoped (u : Unicode)
    (sortSlice : List ScoredChunk → (ScoredChunk → ScoredChunk → Bool) → List ScoredChunk)
    (env : Faults) (ms : MongoState) (ds : DynamoState) (u1 u2 query : String) (topK : Int)
    (hsort : SortSliceContract sortSlice) (hne : u1 ≠ u2) :
    (∀ res, (MemoryService.Search u sortSlice (mongoStorage env) ms u2 query topK).1 =
        .ok res → ∀ sc ∈ res, sc.Chunk.UserID = u2 ∧ sc.Chunk.UserID ≠ u1) ∧
    (MemoryService.Search u sortSlice (mongoStorage env) (ms.withoutUser u1) u2 query topK).1 =
      (MemoryService.Search u sortSlice (mongoStorage env) ms u2 query topK).1 ∧
    (∀ res, (MemoryService.Search u sortSlice (dynamoStorage env) ds u2 query topK).1 =
        .ok res → ∀ sc ∈ res, sc.Chunk.UserID = u2 ∧ sc.Chunk.UserID ≠ u1) ∧
    (MemoryService.Search u sortSlice (dynamoStorage env) (ds.withoutUser u1) u2 query
        topK).1 =
      (MemoryService.Search u sortSlice (dynamoStorage env) ds u2 query topK).1 := by
  refine ⟨?_, ?_, ?_, ?_⟩
  · intro res hres sc hsc
    rw [MemoryService_Search_result] at hres
    obtain ⟨chunks, hf, hmem, _⟩ :=
      Search_mem_fetched u sortSlice _ u2 query topK res hsort hres sc hsc
    have hu := (mongo_search_mem env ms u2 _ chunks hf sc.Chunk hmem).2.1
    exact ⟨hu, by rw [hu]; exact fun h => hne h.symm⟩
  · rw [MemoryService_Search_result, MemoryService_Search_result]
    exact Search_congr u sortSlice _ _ u2 query topK
      (mongo_fetch_withoutUser env ms u1 u2 hne _)
  · intro res hres sc hsc
    rw [MemoryService_Search_result] at hres
    obtain ⟨chunks, hf, hmem, _⟩ :=
      Search_mem_fetched u sortSlice _ u2 query topK res hsort hres sc hsc
    have hu := (dynamo_search_mem env ds u2 _ chunks hf sc.Chunk hmem).2
    exact ⟨hu, by rw [hu]; exact fun h => hne h.symm⟩
  · rw [MemoryService_Search_result, MemoryService_Search_result]
    exact Search_congr u sortSlice _ _ u2 query topK
      (dynamo_fetch_withoutUser env ds u1 u2 _)

/-! ## Store, then search: lemmas -/

theorem TokenOverlap_full (queryTokens chunkTokens : List String) (hne : queryTokens ≠ [])
    (hsub : ∀ t ∈ queryTokens, t ∈ chunkTokens) : TokenOverlap queryTokens chunkTokens = 1 := by
  rw [TokenOverlap_eq]
  have hlen : queryTokens.length ≠ 0 := fun h => hne (List.length_eq_zero.mp h)
  simp only [hlen, if_false]
  have hcount : queryTokens.countP (fun qt => decide (qt ∈ chunkTokens)) =
      queryTokens.length := by
    rw [List.countP_eq_length]
    intro t ht
    simpa using hsub t ht
  rw [hcount]
  have h2 : (queryTokens.length : ℚ) ≠ 0 := by exact_mod_cast hlen
  exact div_self h2

theorem Search_single (u : Unicode)
    (sortSlice : List ScoredChunk → (ScoredChunk → ScoredChunk → Bool) → List ScoredChunk)
    (fetch : String → List String → Except String (List MemoryChunk))
    (userID query : String) (topK : Int) (c : MemoryChunk)
    (hsort : SortSliceContract sortSlice) (hu : userID ≠ "")
    (ht : Tokenize u query ≠ [])
    (hsub : ∀ t ∈ Tokenize u query, t ∈ c.Tokens)
    (hf : fetch userID (Tokenize u query) = .ok [c]) :
    Search u sortSlice fetch userID query topK =
      .ok [⟨c, 1 * (7 / 10) + c.Importance * (3 / 10)⟩] := by
  have hq : query ≠ "" := by
    intro h
    rw [h] at ht
    exact ht rfl
  rw [Search_forward u sortSlice fetch userID query topK [c] hsort hu hq ht hf]
  have hperm := (hsort ([c].map (Search.score (Tokenize u query)))).1
  rw [List.map_cons, List.map_nil, List.perm_singleton] at hperm
  rw [List.map_cons, List.map_nil, hperm]
  have hk : (if topK ≤ 0 then 3 else topK.toNat) = (if topK ≤ 0 then 3 else topK.toNat) - 1 + 1 := by
    split <;> omega
  rw [hk, List.take_succ_cons, List.take_nil]
  simp only [Search.score, TokenOverlap_full _ _ ht hsub]

theorem mongo_Store_ok_chunks (u : Unicode) (env : Faults) (s2 : MongoState) (now : Int)
    (userID content source sessionID : String) (importance : ℚ) (chunkID : String)
    (hok : Store u (mongoStorage env) MongoState.empty now userID content source sessionID
      importance = (.ok chunkID, s2)) :
    userID ≠ "" ∧
    s2.memory_chunks =
      [{ Store.chunk u now userID content source sessionID importance with
        CreatedAt := bsonDateTime now }] := by
  obtain ⟨hu, _, s1, hm, hi, _⟩ :=
    Store_ok_inv u (mongoStorage env) MongoState.empty s2 now userID content source sessionID
      importance chunkID hok
  refine ⟨hu, ?_⟩
  have hm2 : MongoStorage.StoreMemory env MongoState.empty
      (Store.chunk u now userID content source sessionID importance) = (none, s1) := hm
  have hi2 : MongoStorage.IndexTokens env s1 (Store.entries u now userID content) =
      (none, s2) := hi
  unfold MongoStorage.StoreMemory at hm2
  cases hsm : env.StoreMemory with
  | some err => simp [hsm] at hm2
  | none =>
    simp only [hsm, MongoState.empty, List.any_nil, Bool.false_eq_true, if_false,
      List.nil_append, Prod.mk.injEq, true_and] at hm2
    unfold MongoStorage.IndexTokens at hi2
    split at hi2
    · simp only [Prod.mk.injEq, true_and] at hi2
      rw [← hi2, ← hm2]
      rfl
    · cases hit : env.IndexTokens with
      | some f => simp [hit] at hi2
      | none =>
        simp only [hit, Prod.mk.injEq, true_and] at hi2
        rw [← hi2, ← hm2]
        rfl

theorem mongo_fetch_single (s : MongoState) (userID : String) (tokens : List String)
    (c : MemoryChunk) (hs : s.memory_chunks = [c]) (hu : c.UserID = userID)
    (hne : tokens ≠ []) (hsub : ∀ t ∈ tokens, t ∈ c.Tokens) :
    fetchFrom (mongoStorage noFaults) s userID tokens = .ok [c] := by
  rw [mongo_fetch_noFaults s userID tokens hne, hs]
  obtain ⟨t0, ht0⟩ := List.exists_mem_of_ne_nil tokens hne
  have hany : c.Tokens.any (fun t => decide (t ∈ tokens)) = true := by
    rw [List.any_eq_true]
    exact ⟨t0, hsub t0 ht0, by simpa using ht0⟩
  simp [hu, hany]

theorem hikingChunk_eq :
    Store.chunk goLatin1 17 "u1" "I love hiking on weekends" "conversation" "" (2 / 5) =
      hikingChunk := by
  simp [Store.chunk, chunkID_u1_17, hiking_content_tokens, hikingChunk]

theorem indexLoop_none_ok (entries : List TokenEntry) :
    ∀ table : List TokenEntry,
      (DynamoStorage.IndexTokens.loop none entries table).1 = none := by
  induction entries with
  | nil => intro table; rfl
  | cons e rest ih =>
    intro table
    rw [DynamoStorage.IndexTokens.loop]
    exact ih _

theorem dynamo_Store_noFaults (u : Unicode) (s : DynamoState) (now : Int)
    (userID content source sessionID : String) (importance : ℚ)
    (hu : userID ≠ "") (hc : content ≠ "") :
    (Store u (dynamoStorage noFaults) s now userID content source sessionID importance).1 =
      .ok (Store.chunkID userID now) := by
  have hv : ¬ (userID = "" ∨ content = "") := not_or.mpr ⟨hu, hc⟩
  simp only [Store, hv, if_false, dynamoStorage, DynamoStorage.StoreMemory, noFaults,
    DynamoStorage.IndexTokens]
  rcases hl : DynamoStorage.IndexTokens.loop none (Store.entries u now userID content)
    s.TokenIndex with ⟨r, table⟩
  have h1 := indexLoop_none_ok (Store.entries u now userID content) s.TokenIndex
  rw [hl] at h1
  simp only at h1
  subst h1
  simp [hl]
  rfl

theorem mongo_Store_empty_noFaults (u : Unicode) (now : Int)
    (userID content source sessionID : String) (importance : ℚ)
    (hu : userID ≠ "") (hc : content ≠ "") :
    (Store u (mongoStorage noFaults) MongoState.empty now userID content source sessionID
      importance).1 = .ok (Store.chunkID userID now) := by
  have hv : ¬ (userID = "" ∨ content = "") := not_or.mpr ⟨hu, hc⟩
  simp only [Store, hv, if_false, mongoStorage, MongoStorage.StoreMemory, noFaults,
    MongoState.empty, List.any_nil, Bool.false_eq_true, MongoStorage.IndexTokens]
  split_ifs <;> rfl

/-- C15 at the stores that hold the hiking chunk of `u1` alone: the search of `u2` returns no
chunk of `u1`, and returns the same with the data of `u1` removed, on both backends. -/
theorem Search_user_scoped_witness :
    SortSliceContract insertionSort ∧ "u1" ≠ "u2" ∧
    (∀ res, (MemoryService.Search goLatin1 insertionSort (mongoStorage noFaults)
          { MongoState.empty with memory_chunks := [hikingChunk] } "u2" "hiking" 3).1 =
        .ok res → ∀ sc ∈ res, sc.Chunk.UserID = "u2" ∧ sc.Chunk.UserID ≠ "u1") ∧
    (MemoryService.Search goLatin1 insertionSort (mongoStorage noFaults)
        (MongoState.withoutUser "u1" { MongoState.empty with memory_chunks := [hikingChunk] })
        "u2" "hiking" 3).1 =
      (MemoryService.Search goLatin1 insertionSort (mongoStorage noFaults)
        { MongoState.empty with memory_chunks := [hikingChunk] } "u2" "hiking" 3).1 ∧
    (∀ res, (MemoryService.Search goLatin1 insertionSort (dynamoStorage noFaults)
          { DynamoState.empty with MemoryChunks := [hikingChunk] } "u2" "hiking" 3).1 =
        .ok res → ∀ sc ∈ res, sc.Chunk.UserID = "u2" ∧ sc.Chunk.UserID ≠ "u1") ∧
    (MemoryService.Search goLatin1 insertionSort (dynamoStorage noFaults)
        (DynamoState.withoutUser "u1" { DynamoState.empty with MemoryChunks := [hikingChunk] })
        "u2" "hiking" 3).1 =
      (MemoryService.Search goLatin1 insertionSort (dynamoStorage noFaults)
        { DynamoState.empty with MemoryChunks := [hikingChunk] } "u2" "hiking" 3).1 :=
  ⟨insertionSort_contract, by decide,
    Search_user_scoped goLatin1 insertionSort noFaults
      { MongoState.empty with memory_chunks := [hikingChunk] }
      { DynamoState.empty with MemoryChunks := [hikingChunk] } "u1" "u2" "hiking" 3
      insertionSort_contract (by decide)⟩

/-! ## Duplicate chunk IDs (C18) -/

theorem mongo_StoreMemory_duplicate (env : Faults) (s : MongoState) (chunk : MemoryChunk)
    (hdup : ∃ d ∈ s.memory_chunks, d.UserID = chunk.UserID ∧ d.ChunkID = chunk.ChunkID) :
    ∃ err, MongoStorage.StoreMemory env s chunk = (some err, s) := by
  unfold MongoStorage.StoreMemory
  cases env.StoreMemory with
  | some err => exact ⟨_, rfl⟩
  | none =>
    have hany : s.memory_chunks.any
        (fun d => d.UserID = chunk.UserID ∧ d.ChunkID = chunk.ChunkID) = true := by
      rw [List.any_eq_true]
      obtain ⟨d, hd, h⟩ := hdup
      exact ⟨d, hd, by simpa using h⟩
    exact ⟨"store memory: E11000 duplicate key error", by simp only [hany, if_true]⟩

theorem dynamo_StoreMemory_accepts (s : DynamoState) (chunk : MemoryChunk) :
    (DynamoStorage.StoreMemory noFaults s chunk).1 = none ∧
      chunk ∈ (DynamoStorage.StoreMemory noFaults s chunk).2.MemoryChunks := by
  simp [DynamoStorage.StoreMemory, noFaults, DynamoStorage.putItem]

/-- C18, on DynamoDB: `StoreMemory` of a chunk whose user and chunk ID are those of a stored
chunk returns no error.  With the creation time of the stored chunk, the new chunk takes its
place; with another creation time, the table then holds two chunks with that user and chunk
ID.  On MongoDB the same call returns the duplicate key error and leaves the collection as it
was. -/
theorem StoreMemory_duplicate_accepted :
    DynamoStorage.StoreMemory noFaults
        { DynamoState.empty with MemoryChunks := [hikingChunk] } skiingChunk =
      (none, { DynamoState.empty with MemoryChunks := [skiingChunk] }) ∧
    DynamoStorage.StoreMemory noFaults
        { DynamoState.empty with MemoryChunks := [hikingChunk] } laterDuplicate =
      (none, { DynamoState.empty with MemoryChunks := [hikingChunk, laterDuplicate] }) ∧
    (skiingChunk.UserID = hikingChunk.UserID ∧ skiingChunk.ChunkID = hikingChunk.ChunkID ∧
      laterDuplicate.UserID = hikingChunk.UserID ∧
      laterDuplicate.ChunkID = hikingChunk.ChunkID) ∧
    MongoStorage.StoreMemory noFaults
        { MongoState.empty with memory_chunks := [hikingChunk] } skiingChunk =
      (some "store memory: E11000 duplicate key error",
        { MongoState.empty with memory_chunks := [hikingChunk] }) := by
  refine ⟨?_, ?_, ⟨rfl, rfl, rfl, rfl⟩, ?_⟩
  · simp [DynamoStorage.StoreMemory, noFaults, DynamoStorage.putItem, DynamoState.empty,
      hikingChunk, skiingChunk]
  · simp [DynamoStorage.StoreMemory, noFaults, DynamoStorage.putItem, DynamoState.empty,
      hikingChunk, laterDuplicate]
  · simp [MongoStorage.StoreMemory, noFaults, MongoState.empty, hikingChunk, skiingChunk]

/-! ## Partial failure of `Store`: lemmas -/

theorem hiking_entries :
    Store.entries goLatin1 17 "u1" "I love hiking on weekends" =
      [⟨"love", "u1", "u1-17", 17⟩, ⟨"hiking", "u1", "u1-17", 17⟩,
        ⟨"weekends", "u1", "u1-17", 17⟩] := by
  simp [Store.entries, hiking_content_tokens, chunkID_u1_17]

theorem bsonDateTime_17 : bsonDateTime 17 = 0 := by
  simp [bsonDateTime]

theorem hiking_search_single
    (fetch : String → List String → Except String (List MemoryChunk)) (c : MemoryChunk)
    (hi : c.Importance = 2 / 5) (ht : c.Tokens = ["love", "hiking", "weekends"])
    (hf : fetch "u1" ["hiking"] = .ok [c]) :
    Search goLatin1 insertionSort fetch "u1" "hiking" 3 = .ok [⟨c, 41 / 50⟩] := by
  have hne : Tokenize goLatin1 "hiking" ≠ [] := by rw [hiking_tokens]; simp
  have hsub : ∀ t ∈ Tokenize goLatin1 "hiking", t ∈ c.Tokens := by
    rw [hiking_tokens, ht]; simp
  rw [Search_single goLatin1 insertionSort fetch "u1" "hiking" 3 c insertionSort_contract
    (by decide) hne hsub (by rw [hiking_tokens]; exact hf), hi]
  norm_num

theorem Store_success {σ : Type} (u : Unicode) (store : Storage σ) (s s1 s2 : σ)
    (now : Int) (userID content source sessionID : String) (importance : ℚ)
    (hu : userID ≠ "") (hc : content ≠ "")
    (hm : store.StoreMemory s (Store.chunk u now userID content source sessionID importance) =
      (none, s1))
    (hi : store.IndexTokens s1 (Store.entries u now userID content) = (none, s2)) :
    Store u store s now userID content source sessionID importance =
      (.ok (Store.chunkID userID now), s2) := by
  have hv : ¬ (userID = "" ∨ content = "") := not_or.mpr ⟨hu, hc⟩
  simp only [Store, hv, if_false, hm, hi]
  rfl

/-! ## The candidate fetch never succeeds with a chunk on DynamoDB -/

/-- On DynamoDB every search that succeeds returns the empty list. -/
theorem dynamo_Search_nil (u : Unicode)
    (sortSlice : List ScoredChunk → (ScoredChunk → ScoredChunk → Bool) → List ScoredChunk)
    (env : Faults) (s : DynamoState) (userID query : String) (topK : Int)
    (res : List ScoredChunk) (hsort : SortSliceContract sortSlice)
    (hres : (MemoryService.Search u sortSlice (dynamoStorage env) s userID query topK).1 =
      .ok res) : res = [] := by
  rw [MemoryService_Search_result] at hres
  apply List.eq_nil_iff_forall_not_mem.mpr
  intro sc hsc
  obtain ⟨chunks, hf, hmem, _⟩ :=
    Search_mem_fetched u sortSlice _ userID query topK res hsort hres sc hsc
  rw [dynamo_fetch_nil env s userID _ chunks hf] at hmem
  cases hmem

theorem mongo_search_mem_at (env : Faults) (s : MongoState) (userID replicaID : String)
    (tokens : List String) (chunks : List MemoryChunk)
    (h : fetchFrom (mongoStorageAt env replicaID) s userID tokens = .ok chunks)
    (c : MemoryChunk) (hc : c ∈ chunks) :
    c ∈ s.memory_chunks ∧ c.UserID = userID ∧ ∃ t ∈ c.Tokens, t ∈ tokens := by
  have h2 : (MongoStorage.SearchMemoryByTokens env s userID replicaID tokens).1 =
      .ok chunks := h
  unfold MongoStorage.SearchMemoryByTokens at h2
  by_cases ht : tokens.length = 0
  · simp only [ht, if_true] at h2
    rw [← Except.ok.inj h2] at hc
    cases hc
  · simp only [ht, if_false] at h2
    cases hf : env.SearchMemoryByTokens with
    | some err => simp [hf] at h2
    | none =>
      simp only [hf] at h2
      rw [← Except.ok.inj h2] at hc
      have hm := List.mem_filter.mp hc
      simp only [Bool.and_eq_true, decide_eq_true_eq, List.any_eq_true] at hm
      exact ⟨hm.1, hm.2.1.1, hm.2.1.2⟩

/-! ## Positive overlap of every returned chunk (C14) -/

/-- C14: in every store reached by `Store` calls (from the empty store or any other, whatever
driver calls fail and whatever the clock reads), for every user and query, every chunk that
`Search` returns shares a token with the query: its overlap is positive.  On MongoDB this holds
whatever replica ID the two replica-aware methods are called with. -/
theorem Search_overlap_positive (u : Unicode)
    (sortSlice : List ScoredChunk → (ScoredChunk → ScoredChunk → Bool) → List ScoredChunk)
    (calls : List StoreCall) (env : Faults) (ms : MongoState) (ds : DynamoState)
    (replicaID userID query : String) (topK : Int)
    (hsort : SortSliceContract sortSlice) :
    (∀ res, (MemoryService.Search u sortSlice (mongoStorageAt env replicaID)
          (runStores u mongoStorage MongoState.empty calls) userID query topK).1 = .ok res →
      ∀ sc ∈ res, 0 < TokenOverlap (Tokenize u query) sc.Chunk.Tokens) ∧
    (∀ res, (MemoryService.Search u sortSlice (dynamoStorage env)
          (runStores u dynamoStorage DynamoState.empty calls) userID query topK).1 = .ok res →
      ∀ sc ∈ res, 0 < TokenOverlap (Tokenize u query) sc.Chunk.Tokens) ∧
    (∀ res, (MemoryService.Search u sortSlice (mongoStorageAt env replicaID)
          (runStores u mongoStorage ms calls) userID query topK).1 = .ok res →
      ∀ sc ∈ res, 0 < TokenOverlap (Tokenize u query) sc.Chunk.Tokens) ∧
    (∀ res, (MemoryService.Search u sortSlice (dynamoStorage env)
          (runStores u dynamoStorage ds calls) userID query topK).1 = .ok res →
      ∀ sc ∈ res, 0 < TokenOverlap (Tokenize u query) sc.Chunk.Tokens) := by
  have hm : ∀ (s : MongoState) (res : List ScoredChunk),
      (MemoryService.Search u sortSlice (mongoStorageAt env replicaID) s userID query
        topK).1 = .ok res →
      ∀ sc ∈ res, 0 < TokenOverlap (Tokenize u query) sc.Chunk.Tokens := by
    intro s res hres sc hsc
    rw [MemoryService_Search_result] at hres
    obtain ⟨chunks, hf, hmem, _⟩ :=
      Search_mem_fetched u sortSlice _ userID query topK res hsort hres sc hsc
    obtain ⟨_, _, t, htc, htq⟩ :=
      mongo_search_mem_at env _ userID replicaID _ chunks hf sc.Chunk hmem
    exact TokenOverlap_pos _ _ ⟨t, htq, htc⟩
  have hd : ∀ (s : DynamoState) (res : List ScoredChunk),
      (MemoryService.Search u sortSlice (dynamoStorage env) s userID query topK).1 = .ok res →
      ∀ sc ∈ res, 0 < TokenOverlap (Tokenize u query) sc.Chunk.Tokens := by
    intro s res hres sc hsc
    rw [dynamo_Search_nil u sortSlice env s userID query topK res hsort hres] at hsc
    cases hsc
  exact ⟨hm _, hd _, hm _, hd _⟩

theorem mongo_hiking_search :
    (MemoryService.Search goLatin1 insertionSort (mongoStorageAt noFaults "")
      (runStores goLatin1 mongoStorage MongoState.empty [hikingCall]) "u1" "hiking" 3).1 =
      .ok [⟨{ hikingChunk with CreatedAt := 0 }, 41 / 50⟩] := by
  have hok : (Store goLatin1 (mongoStorage noFaults) MongoState.empty 17 "u1"
      "I love hiking on weekends" "conversation" "" (2 / 5)).1 = .ok "u1-17" := by
    rw [mongo_Store_empty_noFaults _ _ _ _ _ _ _ (by decide) (by decide), chunkID_u1_17]
  have hchunks := (mongo_Store_ok_chunks goLatin1 noFaults _ 17 "u1"
    "I love hiking on weekends" "conversation" "" (2 / 5) "u1-17" (Prod.ext hok rfl)).2
  rw [hikingChunk_eq, bsonDateTime_17] at hchunks
  rw [MemoryService_Search_result]
  refine hiking_search_single _ _ rfl rfl ?_
  exact mongo_fetch_single _ "u1" ["hiking"] _ hchunks rfl (by simp) (by simp [hikingChunk])

/-- C14 at the store that holds the hiking chunk of `u1`: on MongoDB the search of `u1` for
`"hiking"` returns that chunk, whose overlap with the query is positive. -/
theorem Search_overlap_positive_witness :
    SortSliceContract insertionSort ∧
    (MemoryService.Search goLatin1 insertionSort (mongoStorageAt noFaults "")
      (runStores goLatin1 mongoStorage MongoState.empty [hikingCall]) "u1" "hiking" 3).1 =
      .ok [⟨{ hikingChunk with CreatedAt := 0 }, 41 / 50⟩] ∧
    0 < TokenOverlap (Tokenize goLatin1 "hiking") hikingChunk.Tokens :=
  ⟨insertionSort_contract, mongo_hiking_search,
    (Search_overlap_positive goLatin1 insertionSort [hikingCall] noFaults MongoState.empty
      DynamoState.empty "" "u1" "hiking" 3 insertionSort_contract).1 _ mongo_hiking_search
      ⟨{ hikingChunk with CreatedAt := 0 }, 41 / 50⟩ (List.mem_singleton.mpr rfl)⟩

/-! ## Store, then search (C16) -/

/-- On MongoDB searched with the empty replica ID, starting from the empty store, once `Store`
has succeeded a search by the same user for a query whose tokens are non-empty and all among
`Tokenize(content)` returns exactly the stored chunk (its creation time kept to the
millisecond), with score `1.0*0.7 + importance*0.3`. -/
theorem mongo_Store_then_Search (u : Unicode)
    (sortSlice : List ScoredChunk → (ScoredChunk → ScoredChunk → Bool) → List ScoredChunk)
    (env : Faults) (now : Int) (userID content source sessionID : String) (importance : ℚ)
    (query : String) (topK : Int) (chunkID : String) (s2 : MongoState)
    (hsort : SortSliceContract sortSlice) (ht : Tokenize u query ≠ [])
    (hsub : ∀ t ∈ Tokenize u query, t ∈ Tokenize u content)
    (hok : Store u (mongoStorage env) MongoState.empty now userID content source sessionID
        importance = (.ok chunkID, s2)) :
    (MemoryService.Search u sortSlice (mongoStorage noFaults) s2 userID query topK).1 =
      .ok [⟨{ Store.chunk u now userID content source sessionID importance with
          CreatedAt := bsonDateTime now }, 1 * (7 / 10) + importance * (3 / 10)⟩] := by
  obtain ⟨hu, hchunks⟩ :=
    mongo_Store_ok_chunks u env s2 now userID content source sessionID importance chunkID hok
  have hf := mongo_fetch_single s2 userID (Tokenize u query) _ hchunks rfl ht hsub
  have hres := Search_single u sortSlice _ userID query topK _ hsort hu ht hsub hf
  exact (MemoryService_Search_result _ _ _ _ _ _ _).trans hres

theorem dynamo_hiking_Store :
    Store goLatin1 (dynamoStorage noFaults) DynamoState.empty 17 "u1"
        "I love hiking on weekends" "conversation" "" (2 / 5) = (.ok "u1-17", hikingState) := by
  have hm1 : DynamoStorage.StoreMemory noFaults DynamoState.empty
      (Store.chunk goLatin1 17 "u1" "I love hiking on weekends" "conversation" "" (2 / 5)) =
      (none, { DynamoState.empty with MemoryChunks := [hikingChunk] }) := by
    rw [hikingChunk_eq]
    simp [DynamoStorage.StoreMemory, noFaults, DynamoState.empty, DynamoStorage.putItem]
  have hi1 : DynamoStorage.IndexTokens noFaults
      { DynamoState.empty with MemoryChunks := [hikingChunk] }
      (Store.entries goLatin1 17 "u1" "I love hiking on weekends") = (none, hikingState) := by
    rw [hiking_entries]
    simp [DynamoStorage.IndexTokens, DynamoStorage.IndexTokens.loop, noFaults,
      DynamoState.empty, DynamoStorage.putItem, hikingEntries, hikingState]
  have h1 := Store_success goLatin1 (dynamoStorage noFaults) _ _ _ 17 "u1"
    "I love hiking on weekends" "conversation" "" (2 / 5) (by decide) (by decide) hm1 hi1
  rw [chunkID_u1_17] at h1
  exact h1

/-- C16, on DynamoDB: from the empty tables, `Store` of `"I love hiking on weekends"` for `u1`
succeeds and writes the chunk and its three index entries; the search of `u1` for `"hiking"`, a
token of the content, then returns the empty list.  The filter of `LookupTokens` reads the
attribute `user_id`, and the index items carry the user under the attribute `UserID`. -/
theorem Store_then_Search_dynamo_empty :
    Store goLatin1 (dynamoStorage noFaults) DynamoState.empty 17 "u1"
        "I love hiking on weekends" "conversation" "" (2 / 5) = (.ok "u1-17", hikingState) ∧
    hikingState.MemoryChunks = [hikingChunk] ∧
    ⟨"hiking", "u1", "u1-17", 17⟩ ∈ hikingState.TokenIndex ∧
    DynamoStorage.tokenItem ⟨"hiking", "u1", "u1-17", 17⟩ "UserID" = some (.S "u1") ∧
    DynamoStorage.tokenItem ⟨"hiking", "u1", "u1-17", 17⟩ "user_id" = none ∧
    Tokenize goLatin1 "hiking" = ["hiking"] ∧
    "hiking" ∈ Tokenize goLatin1 "I love hiking on weekends" ∧
    MemoryService.Search goLatin1 insertionSort (dynamoStorage noFaults) hikingState
        "u1" "hiking" 3 = (.ok [], hikingState) := by
  refine ⟨dynamo_hiking_Store, rfl, by simp [hikingState, hikingEntries], rfl, rfl,
    hiking_tokens, by rw [hiking_content_tokens]; simp, ?_⟩
  simp [MemoryService.Search, hiking_tokens, dynamoStorage, DynamoStorage.SearchMemoryByTokens,
    DynamoStorage.LookupTokens, noFaults, tokenItem_user_id]

/-! ## Partial failure of `Store`: the claim (C19) -/

theorem Index_go_isSome (sub : List Char) :
    ∀ l : List Char, (Index.go sub l).isSome = true ↔ sub <:+: l := by
  intro l
  induction l with
  | nil =>
    cases sub with
    | nil => simp [Index.go]
    | cons x xs => simp [Index.go]
  | cons c rest ih =>
    rw [Index.go, List.infix_cons_iff]
    by_cases hp : sub.isPrefixOf (c :: rest) = true
    · simp only [hp, if_true, Option.isSome_some, true_iff]
      exact Or.inl (List.isPrefixOf_iff_prefix.mp hp)
    · simp only [hp, Bool.false_eq_true, if_false, Option.isSome_map']
      rw [ih]
      constructor
      · exact Or.inr
      · rintro (h | h)
        · exact absurd (List.isPrefixOf_iff_prefix.mpr h) hp
        · exact h

theorem Contains_iff (s sub : String) : Contains s sub = true ↔ sub.data <:+: s.data := by
  unfold Contains Index
  exact Index_go_isSome _ _

theorem SplitN_two_length (s sep : String) (h : Contains s sep = true) :
    (SplitN s sep 2).length = 2 := by
  unfold Contains at h
  cases hi : Index s sep with
  | none => rw [hi] at h; simp at h
  | some m => simp [SplitN, hi]

theorem length_le_len (s : String) : s.length ≤ len s := by
  unfold len String.length
  obtain ⟨l⟩ := s
  show l.length ≤ String.utf8ByteSize.go l
  induction l with
  | nil => simp [String.utf8ByteSize.go]
  | cons c cs ih =>
    have := Char.utf8Size_pos c
    simp only [String.utf8ByteSize.go, List.length_cons]
    omega

theorem len_ascii (s : String) (h : ∀ c ∈ s.data, c.toNat < 128) : len s = s.length := by
  unfold len String.length
  obtain ⟨l⟩ := s
  show String.utf8ByteSize.go l = l.length
  induction l with
  | nil => simp [String.utf8ByteSize.go]
  | cons c cs ih =>
    have hc : c.toNat < 128 := h c (List.mem_cons_self _ _)
    have h1 : c.utf8Size = 1 := by
      have : c.val.toNat ≤ 127 := by
        have : c.toNat = c.val.toNat := rfl
        omega
      have h2 : c.val ≤ 127 := by
        show c.val.toNat ≤ (127 : UInt32).toNat
        exact this
      unfold Char.utf8Size
      exact if_pos h2
    simp only [String.utf8ByteSize.go, List.length_cons, h1]
    rw [ih (fun d hd => h d (List.mem_cons_of_mem _ hd))]

theorem Contains_ToLower_len (u : Unicode) (content sub : String)
    (h : Contains (ToLower u content) sub = true) : sub.length ≤ len content := by
  have h1 := ((Contains_iff _ _).mp h).length_le
  have h2 : (ToLower u content).data.length = content.data.length := by
    simp [ToLower]
  have h3 := length_le_len content
  have h4 : sub.length = sub.data.length := rfl
  have h5 : content.length = content.data.length := rfl
  omega

/-! ## `simpleExtract` (C21, C22) -/

theorem simpleExtract_loop_eq (u : Unicode) (messages : List TranscriptLine) :
    ∀ (identities : List IdentityProposal) (memories : List MemoryProposal),
      simpleExtract.loop u messages identities memories =
        (identities ++
          (messages.filter (fun m => decide (m.Role = "user") &&
            Contains (ToLower u (TrimSpace m.Content)) "my name is")).map
            (fun m => ⟨"name",
              TrimRight (TrimSpace ((SplitN (ToLower u (TrimSpace m.Content)) "my name is"
                2).getD 1 "")) ".,!?", 4 / 5⟩),
         memories ++
          (messages.filter (fun m => decide (m.Role = "user") &&
            decide (10 ≤ len (TrimSpace m.Content)) &&
            !HasSuffix (TrimSpace m.Content) "?")).map
            (fun m => ⟨TrimSpace m.Content, 1 / 2, "conversation"⟩)) := by
  induction messages with
  | nil => intro identities memories; simp [simpleExtract.loop]
  | cons msg rest ih =>
    intro identities memories
    rw [simpleExtract.loop]
    by_cases hr : msg.Role = "user"
    · by_cases hl : len (TrimSpace msg.Content) < 10
      · have hc : Contains (ToLower u (TrimSpace msg.Content)) "my name is" = false := by
          by_contra hcon
          have := Contains_ToLower_len u _ _ (by simpa using hcon)
          have h10 : ("my name is" : String).length = 10 := by decide
          omega
        have hl2 : ¬ (10 ≤ len (TrimSpace msg.Content)) := by omega
        simp only [hr, ne_eq, not_true_eq_false, if_false, hl, if_true, ih, List.filter_cons,
          decide_True, Bool.true_and, hc, Bool.false_eq_true, hl2, decide_False,
          Bool.false_and]
      · have hl2 : 10 ≤ len (TrimSpace msg.Content) := by omega
        simp only [hr, ne_eq, not_true_eq_false, if_false, hl, ih, List.filter_cons,
          decide_True, Bool.true_and, hl2]
        by_cases hq : HasSuffix (TrimSpace msg.Content) "?" = true
        · by_cases hc : Contains (ToLower u (TrimSpace msg.Content)) "my name is" = true
          · simp [hq, hc, SplitN_two_length _ _ hc]
          · simp [hq, hc]
        · by_cases hc : Contains (ToLower u (TrimSpace msg.Content)) "my name is" = true
          · simp [hq, hc, SplitN_two_length _ _ hc]
          · simp [hq, hc]
    · simp only [hr, ne_eq, not_false_eq_true, if_true, ih, List.filter_cons, decide_False,
        Bool.false_and, Bool.false_eq_true, if_false]

theorem TrimSpace_decomp (s : String) :
    ∃ L R : List Char, s.data = L ++ (TrimSpace s).data ++ R ∧
      (∀ c ∈ L, IsSpace c = true) ∧ (∀ c ∈ R, IsSpace c = true) := by
  refine ⟨s.data.takeWhile IsSpace,
    ((s.data.dropWhile IsSpace).reverse.takeWhile IsSpace).reverse, ?_, ?_, ?_⟩
  · have h1 : s.data = s.data.takeWhile IsSpace ++ s.data.dropWhile IsSpace :=
      (List.takeWhile_append_dropWhile IsSpace s.data).symm
    have h2 : (s.data.dropWhile IsSpace).reverse =
        (s.data.dropWhile IsSpace).reverse.takeWhile IsSpace ++
          (s.data.dropWhile IsSpace).reverse.dropWhile IsSpace :=
      (List.takeWhile_append_dropWhile IsSpace _).symm
    have h3 : s.data.dropWhile IsSpace =
        ((s.data.dropWhile IsSpace).reverse.dropWhile IsSpace).reverse ++
          ((s.data.dropWhile IsSpace).reverse.takeWhile IsSpace).reverse := by
      rw [← List.reverse_append, ← h2, List.reverse_reverse]
    show s.data = s.data.takeWhile IsSpace ++
      ((s.data.dropWhile IsSpace).reverse.dropWhile IsSpace).reverse ++ _
    rw [List.append_assoc, ← h3]
    exact h1
  · intro c hc
    exact List.mem_takeWhile_imp hc
  · intro c hc
    exact List.mem_takeWhile_imp (List.mem_reverse.mp hc)

theorem infix_strip_left (x : Char) (sub T : List Char) :
    ∀ L : List Char, (∀ c ∈ L, c ≠ x) → (x :: sub) <:+: L ++ T → (x :: sub) <:+: T := by
  intro L
  induction L with
  | nil => intro _ h; exact h
  | cons c L ih =>
    intro hL h
    rw [List.cons_append, List.infix_cons_iff] at h
    rcases h with h | h
    · exfalso
      obtain ⟨t, ht⟩ := h
      have : x = c := by
        have := congrArg List.head? ht
        simpa using this
      exact hL c (List.mem_cons_self _ _) this.symm
    · exact ih (fun d hd => hL d (List.mem_cons_of_mem _ hd)) h

theorem infix_strip_right (y : Char) (sub T R : List Char) (hR : ∀ c ∈ R, c ≠ y)
    (h : (sub ++ [y]) <:+: T ++ R) : (sub ++ [y]) <:+: T := by
  have h1 : (sub ++ [y]).reverse <:+: (T ++ R).reverse := List.reverse_infix.mpr h
  rw [List.reverse_append, List.reverse_append, List.reverse_singleton,
    List.singleton_append] at h1
  have h2 := infix_strip_left y sub.reverse T.reverse R.reverse
    (fun c hc => hR c (List.mem_reverse.mp hc)) h1
  have h3 : (y :: sub.reverse).reverse <:+: T.reverse.reverse := List.reverse_infix.mpr h2
  simpa using h3

/-- Trimming the white space around a line does not change whether its lowercased text
contains `"my name is"`, when lowercasing leaves white space unchanged (as Go's does). -/
theorem Contains_name_TrimSpace (u : Unicode) (hspace : ∀ c, IsSpace c = true → u.ToLower c = c)
    (s : String) :
    Contains (ToLower u (TrimSpace s)) "my name is" = Contains (ToLower u s) "my name is" := by
  obtain ⟨L, R, hs, hL, hR⟩ := TrimSpace_decomp s
  have hdata : (ToLower u s).data =
      L.map u.ToLower ++ (ToLower u (TrimSpace s)).data ++ R.map u.ToLower := by
    simp [ToLower, hs]
  have hLm : ∀ c ∈ L.map u.ToLower, c ≠ 'm' := by
    intro c hc
    obtain ⟨d, hd, hdc⟩ := List.mem_map.mp hc
    rw [hspace d (hL d hd)] at hdc
    intro hm
    have := hL d hd
    rw [hdc, hm] at this
    exact absurd this (by decide)
  have hRm : ∀ c ∈ R.map u.ToLower, c ≠ 's' := by
    intro c hc
    obtain ⟨d, hd, hdc⟩ := List.mem_map.mp hc
    rw [hspace d (hR d hd)] at hdc
    intro hm
    have := hR d hd
    rw [hdc, hm] at this
    exact absurd this (by decide)
  rw [Bool.eq_iff_iff, Contains_iff, Contains_iff, hdata]
  constructor
  · intro h
    exact h.trans (List.infix_append _ _ _)
  · intro h
    have h1 : ("my name is" : String).data = "my name i".data ++ ['s'] := rfl
    have h2 : ("my name is" : String).data = 'm' :: "y name is".data := rfl
    rw [h1] at h
    have h3 := infix_strip_right 's' _ _ _ hRm h
    rw [← h1, h2] at h3
    rw [h2]
    exact infix_strip_left 'm' _ _ _ hLm h3

theorem simpleExtract_eq (u : Unicode) (messages : List TranscriptLine) :
    simpleExtract u messages =
      ((messages.filter (fun m => decide (m.Role = "user") &&
          Contains (ToLower u (TrimSpace m.Content)) "my name is")).map
          (fun m => ⟨"name",
            TrimRight (TrimSpace ((SplitN (ToLower u (TrimSpace m.Content)) "my name is"
              2).getD 1 "")) ".,!?", 4 / 5⟩),
       (messages.filter (fun m => decide (m.Role = "user") &&
          decide (10 ≤ len (TrimSpace m.Content)) &&
          !HasSuffix (TrimSpace m.Content) "?")).map
          (fun m => ⟨TrimSpace m.Content, 1 / 2, "conversation"⟩)) := by
  unfold simpleExtract
  rw [simpleExtract_loop_eq]
  simp

theorem goLatin1_fixes_space : ∀ c : Char, IsSpace c = true → goLatin1.ToLower c = c := by
  intro c h
  have hn : c.toNat ∈ spaceCodePoints := by simpa [IsSpace] using h
  simp only [spaceCodePoints, List.mem_cons, List.mem_singleton, List.not_mem_nil,
    or_false] at hn
  simp only [goLatin1]
  rcases hn with hn | hn | hn | hn | hn | hn | hn | hn | hn | hn | hn | hn | hn | hn | hn |
    hn | hn | hn | hn | hn | hn | hn | hn | hn | hn <;> simp [hn]

/-- C21 as stated fails: the user line `"Bin müde."`, a statement of 9 characters, yields a
memory proposal; its UTF-8 encoding has 10 bytes, which is what the guard `len(content) < 10`
measures. -/
theorem simpleExtract_short_statement :
    (simpleExtract goLatin1 [⟨"user", "Bin müde."⟩]).2 =
      [⟨"Bin müde.", 1 / 2, "conversation"⟩] ∧
    ("Bin müde." : String).length = 9 ∧ len "Bin müde." = 10 := by
  refine ⟨?_, by decide, by decide⟩
  have h1 : TrimSpace "Bin müde." = "Bin müde." := by decide
  have h2 : [(⟨"user", "Bin müde."⟩ : TranscriptLine)].filter
      (fun m => decide (m.Role = "user") && decide (10 ≤ len (TrimSpace m.Content)) &&
        !HasSuffix (TrimSpace m.Content) "?") = [⟨"user", "Bin müde."⟩] := by decide
  simp only [simpleExtract_eq, h2, List.map_cons, List.map_nil, h1]

/-- C21 as amended: the memory proposals of `simpleExtract` are, in transcript order, one for
each line with role `"user"` whose content, trimmed of surrounding white space, has at least
10 bytes in UTF-8 (Go `len`) and does not end in `"?"`; each holds the trimmed content,
importance 0.5 and source `"conversation"`.  For a text of ASCII characters the number of
bytes is the number of characters. -/
theorem simpleExtract_memories (u : Unicode) (messages : List TranscriptLine) :
    (simpleExtract u messages).2 =
      (messages.filter (fun m => decide (m.Role = "user") &&
        decide (10 ≤ len (TrimSpace m.Content)) &&
        !HasSuffix (TrimSpace m.Content) "?")).map
        (fun m => ⟨TrimSpace m.Content, 1 / 2, "conversation"⟩) ∧
    (∀ s : String, (∀ c ∈ s.data, c.toNat < 128) → len s = s.length) := by
  refine ⟨?_, len_ascii⟩
  rw [simpleExtract_eq]

theorem exampleTranscript_memories :
    (exampleTranscript.filter (fun m => decide (m.Role = "user") &&
        decide (10 ≤ len (TrimSpace m.Content)) &&
        !HasSuffix (TrimSpace m.Content) "?")).map
        (fun m => (⟨TrimSpace m.Content, 1 / 2, "conversation"⟩ : MemoryProposal)) =
      [⟨"I walk my dog every morning.", 1 / 2, "conversation"⟩] := by
  have h : exampleTranscript.filter (fun m => decide (m.Role = "user") &&
        decide (10 ≤ len (TrimSpace m.Content)) &&
        !HasSuffix (TrimSpace m.Content) "?") =
      [⟨"user", "  I walk my dog every morning.  "⟩] := by decide
  have h1 : TrimSpace "  I walk my dog every morning.  " = "I walk my dog every morning." := by
    decide
  rw [h]
  simp [h1]

/-- C21 as amended, on `exampleTranscript`: of the three user lines, the greeting (8 bytes) and
the question yield nothing, and the statement yields its trimmed content, of 28 ASCII
characters and so 28 bytes. -/
theorem simpleExtract_memories_witness :
    (simpleExtract goLatin1 exampleTranscript).2 =
      [⟨"I walk my dog every morning.", 1 / 2, "conversation"⟩] ∧
    (∀ c ∈ ("I walk my dog every morning." : String).data, c.toNat < 128) ∧
    len "I walk my dog every morning." = 28 :=
  ⟨(simpleExtract_memories goLatin1 exampleTranscript).1.trans exampleTranscript_memories,
    by decide,
    (simpleExtract_memories goLatin1 exampleTranscript).2 "I walk my dog every morning."
      (by decide)⟩

/-- C22: the identity proposals of `simpleExtract` are, in transcript order, one for each line
with role `"user"` whose lowercased content contains `"my name is"`, whether the content is
taken trimmed (as the code does) or as it stands (when lowercasing leaves white space
unchanged, as Go's does), and whether or not the line is a question; each has key `"name"` and
confidence 0.8.  The guard on the length never suppresses such a line: its trimmed content has
at least 10 bytes. -/
theorem simpleExtract_identities (u : Unicode) (messages : List TranscriptLine) :
    (simpleExtract u messages).1 =
      (messages.filter (fun m => decide (m.Role = "user") &&
        Contains (ToLower u (TrimSpace m.Content)) "my name is")).map
        (fun m => ⟨"name",
          TrimRight (TrimSpace ((SplitN (ToLower u (TrimSpace m.Content)) "my name is"
            2).getD 1 "")) ".,!?", 4 / 5⟩) ∧
    ((∀ c, IsSpace c = true → u.ToLower c = c) →
      (simpleExtract u messages).1 =
        (messages.filter (fun m => decide (m.Role = "user") &&
          Contains (ToLower u m.Content) "my name is")).map
          (fun m => ⟨"name",
            TrimRight (TrimSpace ((SplitN (ToLower u (TrimSpace m.Content)) "my name is"
              2).getD 1 "")) ".,!?", 4 / 5⟩)) ∧
    (∀ p ∈ (simpleExtract u messages).1, p.Key = "name" ∧ p.Confidence = 4 / 5) ∧
    (∀ m ∈ messages, Contains (ToLower u (TrimSpace m.Content)) "my name is" = true →
      10 ≤ len (TrimSpace m.Content)) := by
  refine ⟨?_, ?_, ?_, ?_⟩
  · rw [simpleExtract_eq]
  · intro hspace
    rw [simpleExtract_eq]
    simp only [Contains_name_TrimSpace u hspace]
  · intro p hp
    rw [simpleExtract_eq] at hp
    obtain ⟨m, _, hm⟩ := List.mem_map.mp hp
    rw [← hm]
    exact ⟨rfl, rfl⟩
  · intro m _ hc
    have := Contains_ToLower_len u _ _ hc
    have h10 : ("my name is" : String).length = 10 := by decide
    omega

theorem exampleTranscript_identities :
    (exampleTranscript.filter (fun m => decide (m.Role = "user") &&
        Contains (ToLower goLatin1 m.Content) "my name is")).map
        (fun m => (⟨"name",
          TrimRight (TrimSpace ((SplitN (ToLower goLatin1 (TrimSpace m.Content)) "my name is"
            2).getD 1 "")) ".,!?", 4 / 5⟩ : IdentityProposal)) =
      [⟨"name", "bob", 4 / 5⟩] := by
  have h : exampleTranscript.filter (fun m => decide (m.Role = "user") &&
        Contains (ToLower goLatin1 m.Content) "my name is") =
      [⟨"user", "Did I say my name is Bob?"⟩] := by decide
  have h1 : TrimRight (TrimSpace ((SplitN (ToLower goLatin1
      (TrimSpace "Did I say my name is Bob?")) "my name is" 2).getD 1 "")) ".,!?" = "bob" := by
    decide
  rw [h]
  simp only [List.map_cons, List.map_nil, h1]

/-- C22 on `exampleTranscript`: the user's question `"Did I say my name is Bob?"` yields the
proposal of the name `bob`; the assistant's line that contains `"My name is"` yields none. -/
theorem simpleExtract_identities_witness :
    (∀ c, IsSpace c = true → goLatin1.ToLower c = c) ∧
    (simpleExtract goLatin1 exampleTranscript).1 = [⟨"name", "bob", 4 / 5⟩] ∧
    HasSuffix (TrimSpace "Did I say my name is Bob?") "?" = true :=
  ⟨goLatin1_fixes_space,
    ((simpleExtract_identities goLatin1 exampleTranscript).2.1 goLatin1_fixes_space).trans
      exampleTranscript_identities,
    by decide⟩

/-! ## `Processor.Process` (C23) -/

theorem Process_review_eq (u : Unicode) (groqKey : String) (now createdAt : Int)
    (userID : String) (messages : List TranscriptLine) :
    Process.review u groqKey now createdAt userID messages =
      ⟨"session-" ++ userID ++ "-" ++ formatInt now, userID, ReviewPending,
        (simpleExtract u messages).1, (simpleExtract u messages).2, createdAt, none⟩ := by
  unfold Process.review
  simp

theorem Process_eq {σ : Type} (u : Unicode) (store : ReviewStorage σ) (groqKey : String)
    (s : σ) (now createdAt : Int) (userID : String) (messages : List TranscriptLine)
    (hu : userID ≠ "") (hm : messages ≠ []) :
    Process u store groqKey s now createdAt userID messages =
      match store.StoreReview s (Process.review u "" now createdAt userID messages) with
      | (some err, s1) => (.error ("store review: " ++ err), s1)
      | (none, s1) => (.ok ("session-" ++ userID ++ "-" ++ formatInt now), s1) := by
  have hv : ¬ (userID = "" ∨ messages.length = 0) := by
    simp [hu, hm]
  unfold Process
  rw [if_neg hv, Process_review_eq u groqKey, Process_review_eq u ""]

/-- C23: for a non-empty user and a non-empty transcript, whatever the Groq key, `Process`
calls `StoreReview` once, with the review whose status is `pending`, whose `ReviewedAt` is
absent, whose user is the given one and whose proposals are the two results of
`simpleExtract`; it returns the session ID when the call succeeds and the error otherwise,
and does the same with and without a key.  On
the recording storage the log holds that review alone; on MongoDB the queue grows by that
review, and on DynamoDB the table holds it under its session ID, in both with the creation
time that `StoreReview` sets. -/
theorem Process_stores_review {σ : Type} (u : Unicode) (store : ReviewStorage σ)
    (groqKey : String) (s : σ) (now createdAt stored : Int) (userID : String)
    (messages : List TranscriptLine) (queue : List ReviewItem)
    (hu : userID ≠ "") (hm : messages ≠ []) :
    Process.review u groqKey now createdAt userID messages =
      ⟨"session-" ++ userID ++ "-" ++ formatInt now, userID, "pending",
        (simpleExtract u messages).1, (simpleExtract u messages).2, createdAt, none⟩ ∧
    Process u store groqKey s now createdAt userID messages =
      (match store.StoreReview s (Process.review u groqKey now createdAt userID messages) with
      | (some err, s1) => (.error ("store review: " ++ err), s1)
      | (none, s1) => (.ok ("session-" ++ userID ++ "-" ++ formatInt now), s1)) ∧
    Process u store groqKey s now createdAt userID messages =
      Process u store "" s now createdAt userID messages ∧
    Process u reviewRecorder groqKey [] now createdAt userID messages =
      (.ok ("session-" ++ userID ++ "-" ++ formatInt now),
        [Process.review u groqKey now createdAt userID messages]) ∧
    Process u (mongoReviews none stored) groqKey queue now createdAt userID messages =
      (.ok ("session-" ++ userID ++ "-" ++ formatInt now),
        queue ++ [{ Process.review u groqKey now createdAt userID messages with
          CreatedAt := bsonDateTime stored }]) ∧
    Process u (dynamoReviews none stored) groqKey queue now createdAt userID messages =
      (.ok ("session-" ++ userID ++ "-" ++ formatInt now),
        queue.filter (fun d => decide (d.SessionID ≠
            "session-" ++ userID ++ "-" ++ formatInt now)) ++
          [{ Process.review u groqKey now createdAt userID messages with
            CreatedAt := stored }]) := by
  have hk : Process.review u groqKey now createdAt userID messages =
      Process.review u "" now createdAt userID messages := by
    rw [Process_review_eq, Process_review_eq]
  refine ⟨Process_review_eq u groqKey now createdAt userID messages, ?_, ?_, ?_, ?_, ?_⟩
  · rw [Process_eq u store groqKey s now createdAt userID messages hu hm, hk]
  · rw [Process_eq u store groqKey s now createdAt userID messages hu hm,
      Process_eq u store "" s now createdAt userID messages hu hm]
  · rw [Process_eq u reviewRecorder groqKey [] now createdAt userID messages hu hm, hk]
    rfl
  · rw [Process_eq u _ groqKey queue now createdAt userID messages hu hm, hk]
    rfl
  · rw [Process_eq u _ groqKey queue now createdAt userID messages hu hm, hk]
    rfl

theorem formatInt_17 : formatInt 17 = "17" := by
  simp [formatInt, decimalDigits]
  decide

/-- C23 for user `u1` and `exampleTranscript`, with and without a Groq key: the recording
storage receives one review, pending, not reviewed, with the name proposal `bob` and the memory
proposal of the statement. -/
theorem Process_stores_review_witness :
    ("u1" : String) ≠ "" ∧ exampleTranscript ≠ [] ∧
    Process goLatin1 reviewRecorder "" [] 17 18 "u1" exampleTranscript =
      (.ok "session-u1-17",
        [⟨"session-u1-17", "u1", "pending", [⟨"name", "bob", 4 / 5⟩],
          [⟨"I walk my dog every morning.", 1 / 2, "conversation"⟩], 18, none⟩]) ∧
    Process goLatin1 reviewRecorder "gsk-key" [] 17 18 "u1" exampleTranscript =
      (.ok "session-u1-17",
        [⟨"session-u1-17", "u1", "pending", [⟨"name", "bob", 4 / 5⟩],
          [⟨"I walk my dog every morning.", 1 / 2, "conversation"⟩], 18, none⟩]) := by
  have hid : "session-" ++ "u1" ++ "-" ++ formatInt 17 = "session-u1-17" := by
    rw [formatInt_17]; decide
  have h1 : (simpleExtract goLatin1 exampleTranscript).1 = [⟨"name", "bob", 4 / 5⟩] := by
    rw [simpleExtract_eq]
    simp only [Contains_name_TrimSpace goLatin1 goLatin1_fixes_space]
    exact exampleTranscript_identities
  have h2 : (simpleExtract goLatin1 exampleTranscript).2 =
      [⟨"I walk my dog every morning.", 1 / 2, "conversation"⟩] := by
    rw [simpleExtract_eq]
    exact exampleTranscript_memories
  have ha := Process_stores_review goLatin1 reviewRecorder "" [] 17 18 19 "u1"
    exampleTranscript [] (by decide) (by decide)
  have hb := Process_stores_review goLatin1 reviewRecorder "gsk-key" [] 17 18 19 "u1"
    exampleTranscript [] (by decide) (by decide)
  refine ⟨by decide, by decide, ?_, ?_⟩
  · rw [ha.2.2.2.1, ha.1, hid, h1, h2]
  · rw [hb.2.2.2.1, hb.1, hid, h1, h2]

end MemoryLane
